import Mathlib

/-!
# Local game manager (`src/psx-core/localGameManager.js`)

A shallow embedding of the `LocalGameManager` class: the two IndexedDB object
stores (`localGames`, keyed by `id`, and `gameChunks`, keyed by
`[gameId, chunkIndex]`) are an explicit state `DB`, every asynchronous method is
a pure function from a state to a new state and an `Except` result, and the
browser around the class (IndexedDB request outcomes, the clock, the random
source, the `JSZip` decoder, `window.openFile`) is an explicit `Env`.

Modelling conventions:
* a byte buffer (`ArrayBuffer`, `Blob`, `Uint8Array`) is a `List UInt8`;
* a rejected promise or a thrown exception is `Except.error`; the state that
  the stores have reached at that moment is returned next to it;
* every IndexedDB request and every `FileReader` read owns an `onerror`
  handler in the source; whether a request succeeds is read from `Env.ok`;
* `Math.ceil(a / b)` on sizes is exact ceiling division of naturals (sizes
  are below `2^53`); a chunk size of `0` is outside the model;
* `toLowerCase` is modelled on the ASCII letters, the only ones the extension
  tests of the source can observe;
* one operation reads the clock once (`Env.now`) and issues each request at most
  once, so a request outcome that depends only on the request loses nothing;
* an object store is the list of its records; a `put` drops the record of the
  same key and appends, so the list order is the order of the last writes;
* the notifications and the DOM are not part of the state: they never feed back
  into the stores; the values passed to the progress callback are described on
  their own, as the list of the reports of one install (`installProgress`);
* `Array.prototype.sort` is a parameter `sort` of `loadInstalledGames`, of which the
  statements assume what the language promises (`SortContract`);
* dates (`installedDate`, `lastPlayed`) are their time values; the states between
  the transactions of `removeGame` are listed by `removeGameStates`.

The second part (namespace `VirtualGamepad`) embeds the pointer handlers and
`reset` of `src/psx-core/virtualpad.js`: the state is the device
`joy.devices[deviceIndex]` and the map `#activePointers`; the bitwise operators
act on the 32 bits of an integer (`toUint32`, `toInt32`); the id that an event
carries is a key of the button map or a key inherited from `Object.prototype`.
-/

namespace LocalGameManager

/-! ## Data model -/

/-- Contents of an `ArrayBuffer` / `Blob`. -/
abbrev Bytes := List UInt8

/-- The test `s.toLowerCase().endsWith(ext)` used throughout the source. -/
def endsWithLower (s ext : String) : Bool :=
  ext.toList.isSuffixOf (s.toList.map Char.toLower)

/-- Values of the `type` / `fileType` fields. -/
inductive FileType where
  | bin | iso | img | cue | pbp | ecm | other | direct | zip
  deriving DecidableEq, Repr

/-- Source: `getFileType(filename)`. -/
def getFileType (filename : String) : FileType :=
  if endsWithLower filename ".bin" then .bin
  else if endsWithLower filename ".iso" then .iso
  else if endsWithLower filename ".img" then .img
  else if endsWithLower filename ".cue" then .cue
  else if endsWithLower filename ".pbp" then .pbp
  else if endsWithLower filename ".ecm" then .ecm
  else .other

/-- The expression `path.split('/').pop()`: the text after the last slash. -/
def lastSegment (path : String) : String :=
  String.mk (path.toList.foldl (fun acc c => if c = '/' then [] else acc ++ [c]) [])

/-- A browser `File`: a name and its bytes. -/
structure JSFile where
  name : String
  data : Bytes
  deriving DecidableEq, Repr

/-- The property `file.size`. -/
def JSFile.size (file : JSFile) : Nat := file.data.length

/-- The call `file.slice(start, end)` for `start ≤ end`. -/
def JSFile.slice (file : JSFile) (start end_ : Nat) : Bytes :=
  (file.data.drop start).take (end_ - start)

/-- One element of `chunkInfo.chunks`. -/
structure ChunkEntry where
  index : Nat
  start : Nat
  end_ : Nat
  size : Nat
  deriving DecidableEq, Repr

/-- The `chunkInfo` object of a chunked file entry. -/
structure ChunkInfo where
  gameId : String
  totalChunks : Nat
  chunkSize : Nat
  chunks : Option (List ChunkEntry)
  deriving DecidableEq, Repr

/-- One element of `gameData.files`. Fields that a code path does not set are `none` / `false`. -/
structure FileEntry where
  filename : String
  fullPath : Option String
  data : Option Bytes
  size : Nat
  type : FileType
  isChunked : Bool
  chunkInfo : Option ChunkInfo
  deriving DecidableEq, Repr

/-- A record of the `localGames` store. The fields the source probes for
presence (`game.files`, `game.fileSize || 0`, `game.playCount || 0`,
`game.lastPlayed`) are optional. -/
structure GameData where
  id : String
  name : String
  region : String
  originalFilename : String
  fileSize : Option Nat
  fileType : FileType
  files : Option (List FileEntry)
  installedDate : Nat
  lastPlayed : Option Nat
  playCount : Option Nat
  isCompressed : Bool
  useChunks : Bool
  mainFileName : Option String
  deriving DecidableEq, Repr

/-- A record of the `gameChunks` store. -/
structure ChunkRecord where
  gameId : String
  chunkIndex : Nat
  data : Bytes
  timestamp : Nat
  deriving DecidableEq, Repr

/-- The database `this.db`: the two object stores. -/
structure DB where
  localGames : List GameData
  gameChunks : List ChunkRecord
  deriving DecidableEq, Repr

/-- An entry of a decoded archive, as `JSZip` presents it: `data` is the result of
`entry.async('arraybuffer')`, `none` when that promise rejects. -/
structure ZipEntry where
  name : String
  dir : Bool
  data : Option Bytes
  deriving DecidableEq, Repr

/-- The requests the manager issues to IndexedDB and to `FileReader`. -/
inductive Req where
  | putChunk (gameId : String) (chunkIndex : Nat)
  | getChunk (gameId : String) (chunkIndex : Nat)
  | deleteChunks (gameId : String)
  | putGame (gameId : String)
  | getGame (gameId : String)
  | deleteGame (gameId : String)
  | readFile
  | readSlice (start end_ : Nat)
  | getAllGames
  deriving DecidableEq, Repr

/-- What surrounds the manager during one operation. -/
structure Env where
  /-- Does this request fire `onsuccess` (rather than `onerror`)? -/
  ok : Req → Bool
  /-- The reading of `Date.now()` / `new Date()`. -/
  now : Nat
  /-- The value of `Math.random().toString(36).substr(2, 9)`. -/
  rnd : String
  /-- Is the global `JSZip` defined? -/
  hasJSZip : Bool
  /-- The call `zip.loadAsync(buffer)`: the decoded directory, `none` when it rejects. -/
  loadAsync : Bytes → Option (List ZipEntry)
  /-- Is `window.openFile` defined? -/
  hasOpenFile : Bool

/-- The default of `this.chunkSize`: 10 MiB. -/
def defaultChunkSize : Nat := 10 * 1024 * 1024

/-- `Math.ceil(a / b)` for `b ≥ 1`. -/
def ceilDiv (a b : Nat) : Nat := (a + b - 1) / b

/-- Equality of results is decidable, so that concrete runs can be checked by evaluation. -/
instance decEqExcept {ε α : Type} [DecidableEq ε] [DecidableEq α] :
    DecidableEq (Except ε α)
  | .ok a, .ok b => if h : a = b then isTrue (by rw [h]) else isFalse (fun e => h (by cases e; rfl))
  | .error a, .error b =>
    if h : a = b then isTrue (by rw [h]) else isFalse (fun e => h (by cases e; rfl))
  | .ok _, .error _ => isFalse (fun e => by cases e)
  | .error _, .ok _ => isFalse (fun e => by cases e)

/-! ## Object stores -/

/-- The call `store.put(record)` on `gameChunks` (key path `[gameId, chunkIndex]`). -/
def putChunk (chunks : List ChunkRecord) (r : ChunkRecord) : List ChunkRecord :=
  chunks.filter (fun c => !decide (c.gameId = r.gameId ∧ c.chunkIndex = r.chunkIndex)) ++ [r]

/-- The call `store.get([gameId, chunkIndex])` on `gameChunks`. -/
def getChunk (chunks : List ChunkRecord) (gameId : String) (chunkIndex : Nat) :
    Option ChunkRecord :=
  chunks.find? (fun c => decide (c.gameId = gameId ∧ c.chunkIndex = chunkIndex))

/-- The records of `gameChunks` reached through the `gameId` index with `IDBKeyRange.only(gameId)`. -/
def chunksOf (chunks : List ChunkRecord) (gameId : String) : List ChunkRecord :=
  chunks.filter (fun c => decide (c.gameId = gameId))

/-- The call `store.put(gameData)` on `localGames` (key path `id`). -/
def putGame (games : List GameData) (g : GameData) : List GameData :=
  games.filter (fun x => !decide (x.id = g.id)) ++ [g]

/-- The call `store.get(gameId)` on `localGames`. -/
def getGame (games : List GameData) (gameId : String) : Option GameData :=
  games.find? (fun x => decide (x.id = gameId))

/-- The call `store.delete(gameId)` on `localGames`. -/
def deleteGame (games : List GameData) (gameId : String) : List GameData :=
  games.filter (fun x => !decide (x.id = gameId))

/-! ## Methods of `LocalGameManager` -/

/-- Source: `saveChunk(gameId, chunkIndex, chunkData)`. -/
def saveChunk (env : Env) (db : DB) (gameId : String) (chunkIndex : Nat) (chunkData : Bytes) :
    DB × Except String Unit :=
  if env.ok (.putChunk gameId chunkIndex) then
    let chunkRecord : ChunkRecord :=
      { gameId := gameId, chunkIndex := chunkIndex, data := chunkData, timestamp := env.now }
    ({ db with gameChunks := putChunk db.gameChunks chunkRecord }, .ok ())
  else (db, .error "saveChunk: request error")

/-- Source: `loadChunk(gameId, chunkIndex)`; resolves `result ? result.data : null`. -/
def loadChunk (env : Env) (db : DB) (gameId : String) (chunkIndex : Nat) :
    Except String (Option Bytes) :=
  if env.ok (.getChunk gameId chunkIndex) then
    .ok ((getChunk db.gameChunks gameId chunkIndex).map (fun r => r.data))
  else .error "loadChunk: request error"

/-- The first loop of `loadChunkedFile`: `remaining` iterations starting at index `i`;
a chunk is pushed only `if (chunkData)`. -/
def loadChunks (env : Env) (db : DB) (gameId : String) :
    (remaining : Nat) → (i : Nat) → (chunks : List Bytes) → Except String (List Bytes)
  | 0, _, chunks => .ok chunks
  | n + 1, i, chunks =>
    match loadChunk env db gameId i with
    | .error e => .error e
    | .ok none => loadChunks env db gameId n (i + 1) chunks
    | .ok (some chunkData) => loadChunks env db gameId n (i + 1) (chunks ++ [chunkData])

/-- Source: `loadChunkedFile(gameId, totalChunks)`. The second loop copies every
collected chunk at the running offset of a buffer of the summed length. -/
def loadChunkedFile (env : Env) (db : DB) (gameId : String) (totalChunks : Nat) :
    Except String Bytes :=
  match loadChunks env db gameId totalChunks 0 [] with
  | .error e => .error e
  | .ok chunks => .ok chunks.flatten

/-- Source: `saveGame(gameData)`; resolves `gameData.id`. -/
def saveGame (env : Env) (db : DB) (gameData : GameData) : DB × Except String String :=
  if env.ok (.putGame gameData.id) then
    ({ db with localGames := putGame db.localGames gameData }, .ok gameData.id)
  else (db, .error "saveGame: request error")

/-- Source: `loadGame(gameId)`; resolves `undefined` (here `none`) for an unknown key. -/
def loadGame (env : Env) (db : DB) (gameId : String) : Except String (Option GameData) :=
  if env.ok (.getGame gameId) then .ok (getGame db.localGames gameId)
  else .error "loadGame: request error"

/-- Source: `readFileChunk(chunk)` applied to `file.slice(chunkStart, chunkEnd)`. -/
def readFileChunk (env : Env) (file : JSFile) (chunkStart chunkEnd : Nat) : Except String Bytes :=
  if env.ok (.readSlice chunkStart chunkEnd) then .ok (file.slice chunkStart chunkEnd)
  else .error "Erro ao ler chunk"

/-- Source: `readFileAsArrayBuffer(file)`. -/
def readFileAsArrayBuffer (env : Env) (file : JSFile) : Except String Bytes :=
  if env.ok .readFile then .ok file.data else .error "Erro ao ler arquivo"

/-- The identifier built by both install paths from the clock and the random source. -/
def newGameId (env : Env) : String :=
  "local_" ++ toString env.now ++ "_" ++ env.rnd

/-- The `for` loop of `storeFileAsChunks`: `remaining` iterations starting at
`chunkIndex`, with the list `chunks` collected so far. -/
def storeLoop (env : Env) (chunkSize : Nat) (file : JSFile) (gameId : String) :
    (remaining : Nat) → (chunkIndex : Nat) → DB → (chunks : List ChunkEntry) →
      DB × Except String (List ChunkEntry)
  | 0, _, db, chunks => (db, .ok chunks)
  | n + 1, chunkIndex, db, chunks =>
    let chunkStart := chunkIndex * chunkSize
    let chunkEnd := min (chunkStart + chunkSize) file.size
    match readFileChunk env file chunkStart chunkEnd with
    | .error e => (db, .error e)
    | .ok chunkData =>
      match saveChunk env db gameId chunkIndex chunkData with
      | (db1, .error e) => (db1, .error e)
      | (db1, .ok _) =>
        storeLoop env chunkSize file gameId n (chunkIndex + 1) db1
          (chunks ++ [{ index := chunkIndex, start := chunkStart, end_ := chunkEnd,
                        size := chunkData.length }])

/-- Source: `storeFileAsChunks(file, gameId, name, region)`. -/
def storeFileAsChunks (env : Env) (chunkSize : Nat) (db : DB) (file : JSFile)
    (gameId name region : String) : DB × Except String GameData :=
  let totalChunks := ceilDiv file.size chunkSize
  let fileType := getFileType file.name
  match storeLoop env chunkSize file gameId totalChunks 0 db [] with
  | (db1, .error e) => (db1, .error e)
  | (db1, .ok chunks) =>
    let gameData : GameData :=
      { id := gameId, name := name, region := region, originalFilename := file.name,
        fileSize := some file.size, fileType := fileType,
        files := some [{ filename := file.name, fullPath := none, data := none,
                         size := file.size, type := fileType, isChunked := true,
                         chunkInfo := some { gameId := gameId, totalChunks := totalChunks,
                                             chunkSize := chunkSize, chunks := some chunks } }],
        installedDate := env.now, lastPlayed := none, playCount := some 0,
        isCompressed := false, useChunks := true, mainFileName := none }
    match saveGame env db1 gameData with
    | (db2, .error e) => (db2, .error e)
    | (db2, .ok _) => (db2, .ok gameData)

/-- Source: `zipEntryToFile(zipEntry, path)`; `none` when `zipEntry.async` rejects. -/
def zipEntryToFile (zipEntry : ZipEntry) (path : String) : Option FileEntry :=
  match zipEntry.data with
  | none => none
  | some fileData =>
    some { filename := lastSegment path, fullPath := some path, data := some fileData,
           size := fileData.length, type := getFileType path, isChunked := false,
           chunkInfo := none }

/-- The extension test of the `zipData.forEach` callback of `installSmallFile`. -/
def acceptedPath (relativePath : String) : Bool :=
  endsWithLower relativePath ".bin" || endsWithLower relativePath ".iso" ||
  endsWithLower relativePath ".img" || endsWithLower relativePath ".cue" ||
  endsWithLower relativePath ".ecm" || endsWithLower relativePath ".pbp"

/-- The expression `Promise.all(filePromises)` over the collected `fileEntries`: every
extracted file in order, `none` as soon as one extraction rejects. -/
def extractAll : List ZipEntry → Option (List FileEntry)
  | [] => some []
  | e :: rest =>
    match zipEntryToFile e e.name, extractAll rest with
    | some f, some fs => some (f :: fs)
    | _, _ => none

/-- The filter `f.type === 'bin' || f.type === 'iso' || f.type === 'pbp'`. -/
def isMainType (t : FileType) : Bool :=
  decide (t = .bin) || decide (t = .iso) || decide (t = .pbp)

/-- Source: `installSmallFile(file, name, region)`. -/
def installSmallFile (env : Env) (db : DB) (file : JSFile) (name region : String) :
    DB × Except String GameData :=
  if env.ok .readFile then
    let arrayBuffer := file.data
    let isZip := endsWithLower file.name ".zip"
    let single (t : FileType) : List FileEntry :=
      [{ filename := file.name, fullPath := none, data := some arrayBuffer,
         size := arrayBuffer.length, type := t, isChunked := false, chunkInfo := none }]
    let extractedFiles : List FileEntry :=
      if isZip && env.hasJSZip then
        match env.loadAsync arrayBuffer with
        | none => single .direct
        | some zipData =>
          let fileEntries := zipData.filter (fun e => !e.dir && acceptedPath e.name)
          match extractAll fileEntries with
          | none => single .direct
          | some files => files
      else single (getFileType file.name)
    let mainFiles := extractedFiles.filter (fun f => isMainType f.type)
    let gameFiles := if mainFiles.length > 0 then mainFiles else extractedFiles
    let gameId := newGameId env
    let gameData : GameData :=
      { id := gameId, name := name, region := region, originalFilename := file.name,
        fileSize := some file.size,
        fileType := if isZip then .zip else getFileType file.name,
        files := some gameFiles, installedDate := env.now, lastPlayed := none,
        playCount := some 0, isCompressed := isZip, useChunks := false,
        mainFileName := none }
    match saveGame env db gameData with
    | (db1, .error e) => (db1, .error e)
    | (db1, .ok _) => (db1, .ok gameData)
  else (db, .error "Erro ao ler arquivo")

/-- The `zipData.forEach` callback of `installLargeFile`: the first entry that is not a
directory and ends in `.bin`, `.iso` or `.pbp`. -/
def findMainFileEntry (zipData : List ZipEntry) : Option ZipEntry :=
  zipData.find? (fun e => !e.dir &&
    (endsWithLower e.name ".bin" || endsWithLower e.name ".iso" || endsWithLower e.name ".pbp"))

/-- Source: `installLargeFile(file, name, region)`. -/
def installLargeFile (env : Env) (chunkSize : Nat) (db : DB) (file : JSFile)
    (name region : String) : DB × Except String GameData :=
  let gameId := newGameId env
  if !endsWithLower file.name ".zip" then
    storeFileAsChunks env chunkSize db file gameId name region
  else
    match readFileAsArrayBuffer env file with
    | .error e => (db, .error e)
    | .ok arrayBuffer =>
      if !env.hasJSZip then (db, .error "JSZip is not defined")
      else
        match env.loadAsync arrayBuffer with
        | none => (db, .error "loadAsync: corrupted zip")
        | some zipData =>
          match findMainFileEntry zipData with
          | none => (db, .error "Nenhum arquivo BIN/ISO encontrado no ZIP")
          | some mainFileEntry =>
            match mainFileEntry.data with
            | none => (db, .error "async: corrupted entry")
            | some fileData =>
              let fileName := lastSegment mainFileEntry.name
              let gameFiles : List FileEntry :=
                [{ filename := fileName, fullPath := none, data := some fileData,
                   size := fileData.length, type := getFileType fileName, isChunked := true,
                   chunkInfo := some { gameId := gameId, totalChunks := 1,
                                       chunkSize := chunkSize, chunks := none } }]
              let gameData : GameData :=
                { id := gameId, name := name, region := region,
                  originalFilename := file.name, fileSize := some file.size,
                  fileType := .zip, files := some gameFiles, installedDate := env.now,
                  lastPlayed := none, playCount := some 0, isCompressed := true,
                  useChunks := true, mainFileName := some fileName }
              match saveGame env db gameData with
              | (db1, .error e) => (db1, .error e)
              | (db1, .ok _) =>
                match saveChunk env db1 gameId 0 fileData with
                | (db2, .error e) => (db2, .error e)
                | (db2, .ok _) => (db2, .ok gameData)

/-- Source: `installGameFromFile(file, name, region)`. -/
def installGameFromFile (env : Env) (chunkSize : Nat) (db : DB) (file : JSFile)
    (name region : String) : DB × Except String GameData :=
  let useChunks := decide (file.size > 100 * 1024 * 1024)
  if useChunks then installLargeFile env chunkSize db file name region
  else installSmallFile env db file name region

/-- How a call of `playGame` ends: the file handed to `window.openFile`, or the
error that its `catch` block reports. -/
inductive PlayOutcome where
  | launched (fileName : String) (data : Bytes)
  | failed (message : String)
  deriving DecidableEq, Repr

/-- The selection `find(bin) || find(iso) || find(pbp) || files[0]` of `playGame`. -/
def selectMainFile (files : List FileEntry) : Option FileEntry :=
  ((files.find? (fun f => decide (f.type = .bin))).orElse fun _ =>
    (files.find? (fun f => decide (f.type = .iso))).orElse fun _ =>
      (files.find? (fun f => decide (f.type = .pbp))).orElse fun _ => files.head?)

/-- The tail of `playGame` once `mainFileData` and `mainFileName` are chosen: update the
statistics, save the record, hand the file to `window.openFile`. -/
def launch (env : Env) (db : DB) (game : GameData) (mainFileData : Option Bytes)
    (mainFileName : String) : DB × PlayOutcome :=
  match mainFileData with
  | none => (db, .failed "Falha ao carregar dados do jogo")
  | some data =>
    let game1 : GameData :=
      { game with lastPlayed := some env.now, playCount := some (game.playCount.getD 0 + 1) }
    match saveGame env db game1 with
    | (db1, .error e) => (db1, .failed e)
    | (db1, .ok _) =>
      if env.hasOpenFile then (db1, .launched mainFileName data)
      else (db1, .failed "Sistema de execução não disponível")

/-- Source: `playGame(gameId)`. Its promise never rejects: every error ends in the
`catch` block, which only reports it. -/
def playGame (env : Env) (db : DB) (gameId : String) : DB × PlayOutcome :=
  match loadGame env db gameId with
  | .error e => (db, .failed e)
  | .ok none => (db, .failed "Jogo não encontrado ou corrompido")
  | .ok (some game) =>
    match game.files with
    | none => (db, .failed "Jogo não encontrado ou corrompido")
    | some [] => (db, .failed "Jogo não encontrado ou corrompido")
    | some (fileInfo :: rest) =>
      if game.useChunks && fileInfo.isChunked then
        match fileInfo.chunkInfo with
        | none => (db, .failed "TypeError: chunkInfo is undefined")
        | some chunkInfo =>
          match loadChunkedFile env db gameId chunkInfo.totalChunks with
          | .error e => (db, .failed e)
          | .ok mainFileData => launch env db game (some mainFileData) fileInfo.filename
      else
        match selectMainFile (fileInfo :: rest) with
        | none => (db, .failed "Nenhum arquivo executável encontrado")
        | some mainFile => launch env db game mainFile.data mainFile.filename

/-- Source: `removeChunks(gameId)`: a cursor over the `gameId` index deletes every record. -/
def removeChunks (env : Env) (db : DB) (gameId : String) : DB × Except String Bool :=
  if env.ok (.deleteChunks gameId) then
    ({ db with gameChunks := db.gameChunks.filter (fun c => !decide (c.gameId = gameId)) },
      .ok true)
  else (db, .error "removeChunks: request error")

/-- The second half of `removeGame`: `store.delete(gameId)` on `localGames`. -/
def removeMetadata (env : Env) (db : DB) (gameId : String) : DB × Except String Bool :=
  if env.ok (.deleteGame gameId) then
    ({ db with localGames := deleteGame db.localGames gameId }, .ok true)
  else (db, .error "removeGame: request error")

/-- Source: `removeGame(gameId)`. -/
def removeGame (env : Env) (db : DB) (gameId : String) : DB × Except String Bool :=
  match loadGame env db gameId with
  | .error e => (db, .error e)
  | .ok game =>
    if (game.map (fun g => g.useChunks)).getD false then
      match removeChunks env db gameId with
      | (db1, .error e) => (db1, .error e)
      | (db1, .ok _) => removeMetadata env db1 gameId
    else removeMetadata env db gameId

/-! ## Descriptions used in the statements -/

/-- The record that iteration `j` of `storeFileAsChunks` passes to `saveChunk`. -/
def chunkRecordAt (env : Env) (chunkSize : Nat) (file : JSFile) (gameId : String) (j : Nat) :
    ChunkRecord :=
  { gameId := gameId, chunkIndex := j,
    data := file.slice (j * chunkSize) (min (j * chunkSize + chunkSize) file.size),
    timestamp := env.now }

/-- The bookkeeping entry that iteration `j` of `storeFileAsChunks` pushes on `chunks`. -/
def chunkEntryAt (chunkSize : Nat) (file : JSFile) (j : Nat) : ChunkEntry :=
  { index := j, start := j * chunkSize, end_ := min (j * chunkSize + chunkSize) file.size,
    size := (file.slice (j * chunkSize) (min (j * chunkSize + chunkSize) file.size)).length }

/-- The record that a successful `storeFileAsChunks` saves and returns. -/
def chunkedGameData (env : Env) (chunkSize : Nat) (file : JSFile) (gameId name region : String) :
    GameData :=
  { id := gameId, name := name, region := region, originalFilename := file.name,
    fileSize := some file.size, fileType := getFileType file.name,
    files := some [{ filename := file.name, fullPath := none, data := none,
                     size := file.size, type := getFileType file.name, isChunked := true,
                     chunkInfo := some { gameId := gameId,
                                         totalChunks := ceilDiv file.size chunkSize,
                                         chunkSize := chunkSize,
                                         chunks := some ((List.range
                                           (ceilDiv file.size chunkSize)).map
                                             (chunkEntryAt chunkSize file)) } }],
    installedDate := env.now, lastPlayed := none, playCount := some 0,
    isCompressed := false, useChunks := true, mainFileName := none }

/-- The `totalChunks` recorded in the `chunkInfo` of the first file of a record. -/
def recordedTotalChunks (g : GameData) : Option Nat :=
  match g.files with
  | some (f :: _) => f.chunkInfo.map (fun c => c.totalChunks)
  | _ => none

/-- The chunk store after the writes of the iterations `i, ..., i + n - 1`. -/
def chunksWritten (env : Env) (chunkSize : Nat) (file : JSFile) (gameId : String)
    (chunks : List ChunkRecord) (i n : Nat) : List ChunkRecord :=
  ((List.range' i n).map (chunkRecordAt env chunkSize file gameId)).foldl putChunk chunks

/-- The record that `installSmallFile` builds for a source that is not treated as an
archive: one file entry wrapping the bytes read. -/
def directGameData (env : Env) (file : JSFile) (name region : String) : GameData :=
  { id := newGameId env, name := name, region := region, originalFilename := file.name,
    fileSize := some file.size, fileType := getFileType file.name,
    files := some [{ filename := file.name, fullPath := none, data := some file.data,
                     size := file.data.length, type := getFileType file.name,
                     isChunked := false, chunkInfo := none }],
    installedDate := env.now, lastPlayed := none, playCount := some 0,
    isCompressed := false, useChunks := false, mainFileName := none }

/-- The record that the archive branch of `installLargeFile` builds around the main
entry `entryName` with extracted bytes `fileData`. -/
def archiveGameData (env : Env) (chunkSize : Nat) (file : JSFile) (name region : String)
    (entryName : String) (fileData : Bytes) : GameData :=
  { id := newGameId env, name := name, region := region, originalFilename := file.name,
    fileSize := some file.size, fileType := .zip,
    files := some [{ filename := lastSegment entryName, fullPath := none,
                     data := some fileData, size := fileData.length,
                     type := getFileType (lastSegment entryName), isChunked := true,
                     chunkInfo := some { gameId := newGameId env, totalChunks := 1,
                                         chunkSize := chunkSize, chunks := none } }],
    installedDate := env.now, lastPlayed := none, playCount := some 0,
    isCompressed := true, useChunks := true,
    mainFileName := some (lastSegment entryName) }

/-- The data of the chunks of `gameId` that are present among the indices below
`totalChunks`, in index order. -/
def presentChunks (db : DB) (gameId : String) (totalChunks : Nat) : List Bytes :=
  (List.range totalChunks).filterMap
    (fun j => (getChunk db.gameChunks gameId j).map (fun r => r.data))

/-- The record that `playGame` saves: `lastPlayed` set to the clock reading, `playCount`
incremented (`undefined` counting as 0). -/
def played (env : Env) (game : GameData) : GameData :=
  { game with lastPlayed := some env.now, playCount := some (game.playCount.getD 0 + 1) }

/-! ## Concrete inputs used in the examples -/

/-- A browser in which every request succeeds; `JSZip` and `window.openFile` are
present and the decoder rejects every buffer. -/
def okEnv : Env :=
  { ok := fun _ => true, now := 1700000000000, rnd := "k3x9q2m7p", hasJSZip := true,
    loadAsync := fun _ => none, hasOpenFile := true }

/-- A database with two empty stores. -/
def emptyDB : DB := { localGames := [], gameChunks := [] }

/-- A file of five bytes. -/
def fiveBytes : JSFile := { name := "game.bin", data := [1, 2, 3, 4, 5] }

/-- A non-archive source of 100 MiB plus one byte: a large file. -/
def bigFile : JSFile := { name := "game.bin", data := List.replicate (100 * 1024 * 1024 + 1) 0 }

/-- The browser `okEnv`, except that the write of chunk 1 of the next title fails. -/
def failSecondWrite : Env :=
  { okEnv with ok := fun r => decide (r ≠ Req.putChunk (newGameId okEnv) 1) }

/-- A decoder that finds a cue sheet, a disc image and a text file in every buffer. -/
def threeEntries : List ZipEntry :=
  [{ name := "game/game.cue", dir := false, data := some [9] },
   { name := "game/game.bin", dir := false, data := some [7, 8] },
   { name := "readme.txt", dir := false, data := some [1] }]

/-- A large archive: 100 MiB plus one byte under a `.zip` name. -/
def bigZip : JSFile := { name := "game.zip", data := List.replicate (100 * 1024 * 1024 + 1) 0 }

/-- The browser `okEnv` with a decoder that yields `threeEntries`, in which the write of
chunk 0 of the next title fails. -/
def zipFailChunk : Env :=
  { okEnv with
    ok := fun r => decide (r ≠ Req.putChunk (newGameId okEnv) 0),
    loadAsync := fun _ => some threeEntries }

/-- The catalog record that `storeFileAsChunks` builds for `fiveBytes` with a chunk size
of two: a title stored in three chunks. -/
def threeChunkGame : GameData := chunkedGameData okEnv 2 fiveBytes "local_1_a" "Game" "EU"

/-- A database that holds `threeChunkGame` but only its chunks 0 and 2: chunk 1 is missing. -/
def gappedDB : DB :=
  { localGames := [threeChunkGame],
    gameChunks := [chunkRecordAt okEnv 2 fiveBytes "local_1_a" 0,
                   chunkRecordAt okEnv 2 fiveBytes "local_1_a" 2] }

/-- The browser `okEnv` at a later clock reading and with another random draw. -/
def okEnvLater : Env :=
  { okEnv with now := 1700000005000, rnd := "p7m2q9x3k" }

/-- The record of `bigFile` installed in the browser `okEnv`. -/
def bigGame : GameData :=
  chunkedGameData okEnv defaultChunkSize bigFile (newGameId okEnv) "Big" "EU"

/-- The record of `fiveBytes` installed in the browser `okEnvLater`. -/
def smallGame : GameData := directGameData okEnvLater fiveBytes "Small" "US"

/-- The stores after `bigFile` has been installed into `emptyDB`. -/
def afterBig : DB :=
  { localGames := putGame emptyDB.localGames bigGame,
    gameChunks := chunksWritten okEnv defaultChunkSize bigFile (newGameId okEnv)
      emptyDB.gameChunks 0 (ceilDiv bigFile.size defaultChunkSize) }

/-- The stores after `fiveBytes` has been installed into `afterBig`. -/
def afterBoth : DB :=
  { afterBig with localGames := putGame afterBig.localGames smallGame }

/-! ## Main entry of an archive -/

/-- The file entry that `zipEntryToFile` builds for the entry `e` when its bytes are
`fileData`. -/
def extractedFile (e : ZipEntry) (fileData : Bytes) : FileEntry :=
  { filename := lastSegment e.name, fullPath := some e.name, data := some fileData,
    size := fileData.length, type := getFileType e.name, isChunked := false,
    chunkInfo := none }

/-- The entries of a decoded directory that `installSmallFile` keeps: not a directory and
on the allow-list of extensions. -/
def allowedEntries (zipData : List ZipEntry) : List ZipEntry :=
  zipData.filter (fun e => !e.dir && acceptedPath e.name)

/-- The main entry in the words of the specification: among the allow-listed entries, a
`.bin` entry if one exists, otherwise an `.iso` entry, otherwise a `.pbp` entry, otherwise
the first allow-listed entry. -/
def specMainEntry (zipData : List ZipEntry) : Option ZipEntry :=
  ((allowedEntries zipData).find? (fun e => endsWithLower e.name ".bin")).orElse fun _ =>
    ((allowedEntries zipData).find? (fun e => endsWithLower e.name ".iso")).orElse fun _ =>
      ((allowedEntries zipData).find? (fun e => endsWithLower e.name ".pbp")).orElse fun _ =>
        (allowedEntries zipData).head?

/-- The list `gameFiles` of `installSmallFile`: the main files when there are some,
otherwise every extracted file. -/
def gameFilesOf (extractedFiles : List FileEntry) : List FileEntry :=
  if (extractedFiles.filter (fun f => isMainType f.type)).length > 0 then
    extractedFiles.filter (fun f => isMainType f.type)
  else extractedFiles

/-- The record that `installSmallFile` builds for an archive with the files `gameFiles`. -/
def zipGameData (env : Env) (file : JSFile) (name region : String)
    (gameFiles : List FileEntry) : GameData :=
  { id := newGameId env, name := name, region := region, originalFilename := file.name,
    fileSize := some file.size, fileType := .zip, files := some gameFiles,
    installedDate := env.now, lastPlayed := none, playCount := some 0,
    isCompressed := true, useChunks := false, mainFileName := none }

/-- The archive of the specification's example: a cue sheet, a disc image, a text file. -/
def cueBinReadme : List ZipEntry :=
  [{ name := "game.cue", dir := false, data := some [9] },
   { name := "game.bin", dir := false, data := some [7, 8] },
   { name := "readme.txt", dir := false, data := some [1] }]

/-- A small source under a `.zip` name. -/
def smallZip : JSFile := { name := "game.zip", data := [80, 75, 3, 4] }

/-- The browser `okEnv` with a decoder that yields `cueBinReadme`. -/
def cueBinReadmeEnv : Env := { okEnv with loadAsync := fun _ => some cueBinReadme }

/-- The test of the `zipData.forEach` callback of `installLargeFile`: not a directory and
a name that ends in `.bin`, `.iso` or `.pbp`. -/
def mainCandidate (e : ZipEntry) : Bool :=
  !e.dir &&
    (endsWithLower e.name ".bin" || endsWithLower e.name ".iso" || endsWithLower e.name ".pbp")

/-- An archive directory with two allow-listed entries, neither a `.bin`, `.iso` or `.pbp`. -/
def cueImg : List ZipEntry :=
  [{ name := "game.cue", dir := false, data := some [9] },
   { name := "game.img", dir := false, data := some [7, 8] }]

/-- The browser `okEnv` with a decoder that yields `cueImg`. -/
def cueImgEnv : Env := { okEnv with loadAsync := fun _ => some cueImg }

/-- An archive directory in which an `.iso` entry precedes a `.bin` entry. -/
def isoThenBin : List ZipEntry :=
  [{ name := "game.iso", dir := false, data := some [1, 2] },
   { name := "game.bin", dir := false, data := some [3, 4] }]

/-- The browser `okEnv` with a decoder that yields `isoThenBin`. -/
def isoThenBinEnv : Env := { okEnv with loadAsync := fun _ => some isoThenBin }

/-- The browser `okEnv` with a decoder that yields `threeEntries`. -/
def threeEntriesEnv : Env := { okEnv with loadAsync := fun _ => some threeEntries }

/-- An archive directory without any allow-listed entry. -/
def readmeOnly : List ZipEntry :=
  [{ name := "docs/", dir := true, data := none },
   { name := "docs/readme.txt", dir := false, data := some [1] }]

/-- The browser `okEnv` with a decoder that yields `readmeOnly`. -/
def readmeOnlyEnv : Env := { okEnv with loadAsync := fun _ => some readmeOnly }

/-! ## Listing and statistics -/

/-- Source: `loadAllGames()`; `store.getAll()` on `localGames`. The order of the list
stands for the order in which IndexedDB yields the records. -/
def loadAllGames (env : Env) (db : DB) : Except String (List GameData) :=
  if env.ok .getAllGames then .ok db.localGames else .error "loadAllGames: request error"

/-- The comparator passed to `games.sort` in `loadInstalledGames`: the difference of the
two `lastPlayed` dates when both are set, otherwise of the two `installedDate` dates. -/
def compareGames (a b : GameData) : Int :=
  match a.lastPlayed, b.lastPlayed with
  | some la, some lb => (lb : Int) - (la : Int)
  | _, _ => (b.installedDate : Int) - (a.installedDate : Int)

/-- The condition of the language on the comparator of `Array.prototype.sort`: `cmp` is a
consistent comparator for the elements of `l`. With `a =CF b` for `cmp a b = 0`,
`a <CF b` for `cmp a b < 0` and `a >CF b` for `cmp a b > 0`: `a =CF a`; `a =CF b` gives
`b =CF a`; and each of `=CF`, `<CF`, `>CF` is transitive. -/
def ConsistentComparator {α : Type} (cmp : α → α → Int) (l : List α) : Prop :=
  ∀ a ∈ l, ∀ b ∈ l, ∀ c ∈ l,
    cmp a a = 0 ∧
    (cmp a b = 0 → cmp b a = 0) ∧
    (cmp a b = 0 → cmp b c = 0 → cmp a c = 0) ∧
    (cmp a b < 0 → cmp b c < 0 → cmp a c < 0) ∧
    (0 < cmp a b → 0 < cmp b c → 0 < cmp a c)

/-- What the language promises of a call `array.sort(cmp)`, whatever the engine: the
result holds the elements of the array, and when `cmp` is a consistent comparator for
them, no element is placed after one that `cmp` puts behind it. With a comparator that is
not consistent the order is left to the engine. The language also promises that elements
which compare equal keep their order; no statement here needs it. -/
def SortContract {α : Type} (sort : (α → α → Int) → List α → List α) : Prop :=
  ∀ (cmp : α → α → Int) (l : List α),
    (sort cmp l).Perm l ∧
    (ConsistentComparator cmp l → (sort cmp l).Pairwise (fun p q => ¬ cmp q p < 0))

/-- One insertion of an insertion sort: `a` goes before the first element that the
comparator does not place before it. -/
def insertSorted {α : Type} (cmp : α → α → Int) (a : α) : List α → List α
  | [] => [a]
  | b :: l => if cmp a b ≤ 0 then a :: b :: l else b :: insertSorted cmp a l

/-- An insertion sort: one sort that keeps `SortContract`. It is the engine of the
examples, which use it only with a consistent comparator. -/
def arraySort {α : Type} (cmp : α → α → Int) : List α → List α
  | [] => []
  | a :: l => insertSorted cmp a (arraySort cmp l)

/-- One insertion of the second insertion sort: `a` goes after the elements that the
comparator does not place behind it, before the first one that it does. -/
def insertAfter {α : Type} (cmp : α → α → Int) (a : α) : List α → List α
  | [] => [a]
  | b :: l => if cmp a b < 0 then a :: b :: l else b :: insertAfter cmp a l

/-- A second sort that keeps `SortContract`: an insertion sort that takes the elements of
the array from the left and inserts each into the sorted part before it. -/
def arraySortLeft {α : Type} (cmp : α → α → Int) (l : List α) : List α :=
  l.foldl (fun sorted a => insertAfter cmp a sorted) []

/-- Source: `loadInstalledGames()`, with the container element present: the titles in the
order in which they are rendered; the error that its `catch` block renders otherwise.
The call `games.sort(...)` is the sort `sort` of the engine. -/
def loadInstalledGames (sort : (GameData → GameData → Int) → List GameData → List GameData)
    (env : Env) (db : DB) : Except String (List GameData) :=
  match loadAllGames env db with
  | .error e => .error e
  | .ok games => .ok (sort compareGames games)

/-- The sort key in the words of the specification: `lastPlayed` when present, otherwise
`installedDate`. -/
def specKey (g : GameData) : Nat := g.lastPlayed.getD g.installedDate

/-- A title installed first and played since. -/
def playedGame : GameData :=
  { directGameData okEnv fiveBytes "Old" "EU" with
    lastPlayed := some 1700000900000, playCount := some 1 }

/-- A title installed later and never played. -/
def newerGame : GameData := directGameData okEnvLater fiveBytes "New" "US"

/-- A catalog with `playedGame` and `newerGame`. -/
def twoGamesDB : DB := { localGames := [playedGame, newerGame], gameChunks := [] }

/-! ## Progress reports

The values passed to `progressCallback`, in the order of the calls. They are fractions;
the source computes them in floating point, whose rounding keeps the order of the exact
values. A `progress` event of a `FileReader` is the pair of its `loaded` and `total`
(only events with `lengthComputable` reach the callback). -/

/-- The reports of the `onprogress` handler: `loaded / total * scale` for every event. -/
def readerProgress (events : List (Nat × Nat)) (scale : ℚ) : List ℚ :=
  events.map (fun ev => (ev.1 : ℚ) / (ev.2 : ℚ) * scale)

/-- The reports of the `onload` handler of `installSmallFile`. -/
def smallSteps (env : Env) (file : JSFile) : List ℚ :=
  if env.ok .readFile then
    ([0.3] : List ℚ) ++
      (if endsWithLower file.name ".zip" && env.hasJSZip then
        ([0.4] : List ℚ) ++ (match env.loadAsync file.data with
          | some _ => ([0.5] : List ℚ)
          | none => [])
      else []) ++
      ([0.7, 0.9] : List ℚ) ++
      (if env.ok (.putGame (newGameId env)) then ([1.0] : List ℚ) else [])
  else []

/-- The reports of `installSmallFile`: those of the reader, then those of `onload`. -/
def smallProgress (env : Env) (file : JSFile) (events : List (Nat × Nat)) : List ℚ :=
  readerProgress events 0.3 ++ smallSteps env file

/-- The reports of the loop of `storeFileAsChunks`: `(chunkIndex + 1) / totalChunks` after
each chunk that was read and saved. -/
def storeLoopProgress (env : Env) (chunkSize : Nat) (file : JSFile) (gameId : String)
    (totalChunks : Nat) : (remaining : Nat) → (chunkIndex : Nat) → List ℚ
  | 0, _ => []
  | n + 1, chunkIndex =>
    if env.ok (.readSlice (chunkIndex * chunkSize)
          (min (chunkIndex * chunkSize + chunkSize) file.size)) &&
        env.ok (.putChunk gameId chunkIndex) then
      (((chunkIndex : ℚ) + 1) / (totalChunks : ℚ)) ::
        storeLoopProgress env chunkSize file gameId totalChunks n (chunkIndex + 1)
    else []

/-- The reports of the archive branch of `installLargeFile`. -/
def archiveProgress (env : Env) (file : JSFile) (events : List (Nat × Nat)) : List ℚ :=
  ([0.1] : List ℚ) ++ readerProgress events 0.4 ++
    (if env.ok .readFile then
      ([0.5] : List ℚ) ++
        (if env.hasJSZip then
          match env.loadAsync file.data with
          | none => []
          | some zipData =>
            match findMainFileEntry zipData with
            | none => []
            | some mainFileEntry =>
              ([0.7] : List ℚ) ++
                (match mainFileEntry.data with
                  | none => []
                  | some _ =>
                    ([0.9] : List ℚ) ++
                      (if env.ok (.putGame (newGameId env)) &&
                          env.ok (.putChunk (newGameId env) 0) then ([1.0] : List ℚ)
                       else []))
        else [])
    else [])

/-- The reports of one call of `installGameFromFile`. -/
def installProgress (env : Env) (chunkSize : Nat) (file : JSFile)
    (events : List (Nat × Nat)) : List ℚ :=
  if file.size > 100 * 1024 * 1024 then
    if !endsWithLower file.name ".zip" then
      storeLoopProgress env chunkSize file (newGameId env) (ceilDiv file.size chunkSize)
        (ceilDiv file.size chunkSize) 0
    else archiveProgress env file events
  else smallProgress env file events

/-- Reader events as the claim supposes them: `loaded` never decreases and never exceeds
`total`, which is positive and the same in every event. -/
def validEvents (total : Nat) (events : List (Nat × Nat)) : Prop :=
  0 < total ∧ (∀ ev ∈ events, ev.2 = total ∧ ev.1 ≤ total) ∧
    events.Pairwise (fun a b => a.1 ≤ b.1)

/-- The source of the specification's scenario: 262,144,000 bytes under the name `game.bin`. -/
def file250 : JSFile := { name := "game.bin", data := List.replicate 262144000 0 }

/-- A source of exactly 100 MiB. -/
def exactly100 : JSFile := { name := "game.bin", data := List.replicate (100 * 1024 * 1024) 0 }

/-- The object returned by `getStorageInfo`. The field `totalSizeGB`, a floating-point
value rounded to two decimals, is not modelled. -/
structure StorageInfo where
  gameCount : Nat
  totalSize : Nat
  totalSizeMB : Nat
  fileCount : Nat
  chunkedCount : Nat
  deriving DecidableEq, Repr

/-- The accumulators `totalSize`, `fileCount`, `chunkedCount` of `getStorageInfo`. -/
structure StorageTotals where
  totalSize : Nat
  fileCount : Nat
  chunkedCount : Nat
  deriving DecidableEq, Repr

/-- The body of the `games.forEach` callback of `getStorageInfo`. -/
def addGame (acc : StorageTotals) (game : GameData) : StorageTotals :=
  { totalSize := acc.totalSize + game.fileSize.getD 0,
    fileCount := acc.fileCount + (match game.files with
      | some files => files.length
      | none => 0),
    chunkedCount := if game.useChunks then acc.chunkedCount + 1 else acc.chunkedCount }

/-- Source: `getStorageInfo()`; returns `null` (here `none`) when the catalog cannot be
read. It only reads, so the database it leaves is the one it found.
`Math.round(totalSize / (1024 * 1024))` rounds half up. -/
def getStorageInfo (env : Env) (db : DB) : DB × Option StorageInfo :=
  match loadAllGames env db with
  | .error _ => (db, none)
  | .ok games =>
    let totals := games.foldl addGame { totalSize := 0, fileCount := 0, chunkedCount := 0 }
    (db, some { gameCount := games.length, totalSize := totals.totalSize,
                totalSizeMB := (2 * totals.totalSize + 1024 * 1024) / (2 * (1024 * 1024)),
                fileCount := totals.fileCount, chunkedCount := totals.chunkedCount })

/-- The list `chunkInfo.chunks` of the first file of a record. -/
def recordedChunks (g : GameData) : Option (List ChunkEntry) :=
  match g.files with
  | some (f :: _) => f.chunkInfo.bind (fun c => c.chunks)
  | _ => none

/-- The catalog record of the title `B` and the chunks keyed by `B` are in `db1` what
they are in `db`. -/
def Untouched (B : String) (db db1 : DB) : Prop :=
  getGame db1.localGames B = getGame db.localGames B ∧
  chunksOf db1.gameChunks B = chunksOf db.gameChunks B

/-! ## The states that `removeGame` passes through -/

/-- The states of the two stores during a run of `removeGame(gameId)`: the state it
starts from, then the state after each transaction that the run commits, in order (the
transaction of `removeChunks`, when it is run, then the `store.delete` on the catalog). -/
def removeGameStates (env : Env) (db : DB) (gameId : String) : List DB :=
  match loadGame env db gameId with
  | .error _ => [db]
  | .ok game =>
    if (game.map (fun g => g.useChunks)).getD false then
      match removeChunks env db gameId with
      | (db1, .error _) => [db, db1]
      | (db1, .ok _) => [db, db1, (removeMetadata env db1 gameId).1]
    else [db, (removeMetadata env db gameId).1]

/-- The indices below the recorded `totalChunks` of `g` under which the chunk store of
`db` holds no chunk of `g`. -/
def missingChunks (db : DB) (g : GameData) : List Nat :=
  (List.range ((recordedTotalChunks g).getD 0)).filter
    (fun i => (getChunk db.gameChunks g.id i).isNone)

/-- A catalog row whose chunks are missing: the catalog of `db` holds a chunked record
under `gameId` and at least one of its recorded chunks is not in the chunk store. -/
def danglingRow (db : DB) (gameId : String) : Bool :=
  match getGame db.localGames gameId with
  | none => false
  | some g => g.useChunks && !(missingChunks db g).isEmpty

/-- Orphaned chunks: the chunk store of `db` holds a chunk keyed by `gameId` and the
catalog holds no record under `gameId`. -/
def orphanedChunks (db : DB) (gameId : String) : Bool :=
  (getGame db.localGames gameId).isNone && !(chunksOf db.gameChunks gameId).isEmpty

/-- The stores after `storeFileAsChunks` has stored `fiveBytes` in chunks of two bytes
under the id `local_1_a`: the record `threeChunkGame` and its three chunks. -/
def installedChunked : DB :=
  (storeFileAsChunks okEnv 2 emptyDB fiveBytes "local_1_a" "Game" "EU").1

/-! ## Title ids -/

/-- The number that a string of decimal digits stands for, read from the left and
starting from `acc`. -/
def digitsValue (acc : Nat) (l : List Char) : Nat :=
  l.foldl (fun a c => a * 10 + (c.toNat - 48)) acc

/-- A file of six bytes. -/
def sixBytes : JSFile := { name := "other.iso", data := [9, 8, 7, 6, 5, 4] }

/-- The stores after `fiveBytes` has been installed into `emptyDB` in the browser `okEnv`. -/
def afterFirst : DB :=
  { localGames := [directGameData okEnv fiveBytes "First" "EU"], gameChunks := [] }

/-! ## Records for the comparator -/

/-- A title installed at time 3 and played at time 4. -/
def latestInstalled : GameData :=
  { directGameData okEnv fiveBytes "Latest" "EU" with
    id := "local_3_c", installedDate := 3, lastPlayed := some 4, playCount := some 1 }

/-- A title installed at time 2 and never played. -/
def neverPlayed : GameData :=
  { directGameData okEnv fiveBytes "Never" "EU" with id := "local_2_b", installedDate := 2 }

/-- A title installed at time 1 and played at time 5. -/
def lastPlayedGame : GameData :=
  { directGameData okEnv fiveBytes "Last" "EU" with
    id := "local_1_a", installedDate := 1, lastPlayed := some 5, playCount := some 1 }

/-- A catalog of three titles that have all been played: by `lastPlayed` the order is
`playedGame`, `lastPlayedGame`, `latestInstalled`; by `installedDate` it would be
`playedGame`, `latestInstalled`, `lastPlayedGame`. -/
def allPlayedDB : DB :=
  { localGames := [latestInstalled, lastPlayedGame, playedGame], gameChunks := [] }

end LocalGameManager

namespace VirtualGamepad

/-! ## The virtual gamepad (`virtualpad.js`)

The pad writes three properties of the device `joy.devices[deviceIndex]`: `lo`, `hi` and
`aux`. A bit that is 0 is a pressed button. After every write the pad calls the global
function `handleGamePads` of the emulator, which is not part of `virtualpad.js`; its
effect on the device is the parameter `handleGamePads` of the definitions below (the
identity when the global is not a function). -/

/-- The ids of `DEFAULT_CONFIG.buttonMap`. -/
inductive ButtonId where
  | up | down | left | right | select | start
  | triangle | circle | cross | square
  | l1 | l2 | r1 | r2 | l3 | r3
  deriving DecidableEq, Repr

/-- The property names used by the button map. -/
inductive ByteName where
  | lo | hi | aux
  deriving DecidableEq, Repr

/-- An entry `{ byte, mask }` of the button map. -/
structure ButtonConfig where
  /-- The property `byte`. -/
  byte : ByteName
  /-- The property `mask`. -/
  mask : Int
  deriving DecidableEq, Repr

/-- Source: `DEFAULT_CONFIG.buttonMap`. -/
def buttonMap : ButtonId → ButtonConfig
  | .up => { byte := .lo, mask := 0x10 }
  | .down => { byte := .lo, mask := 0x40 }
  | .left => { byte := .lo, mask := 0x80 }
  | .right => { byte := .lo, mask := 0x20 }
  | .select => { byte := .lo, mask := 0x01 }
  | .start => { byte := .lo, mask := 0x08 }
  | .triangle => { byte := .hi, mask := 0x10 }
  | .circle => { byte := .hi, mask := 0x20 }
  | .cross => { byte := .hi, mask := 0x40 }
  | .square => { byte := .hi, mask := 0x80 }
  | .l1 => { byte := .hi, mask := 0x04 }
  | .l2 => { byte := .hi, mask := 0x01 }
  | .r1 => { byte := .hi, mask := 0x08 }
  | .r2 => { byte := .hi, mask := 0x02 }
  | .l3 => { byte := .aux, mask := 0x01 }
  | .r3 => { byte := .aux, mask := 0x02 }

/-- An id for which the test `this.#buttonMap[target.id]` of `#getButtonIdFromEvent` is
truthy: a key of the button map, or a property name that the map object inherits from
`Object.prototype` (`constructor`, `toString`, ...), whose value is a function or an
object. -/
inductive TargetId where
  | button (buttonId : ButtonId)
  | inherited (key : String)
  deriving DecidableEq, Repr

/-- The `byte` of the destructuring `const { byte, mask } = this.#buttonMap[buttonId]`;
`undefined` (`none`) for an inherited property, which has no `byte`. -/
def entryByte : TargetId → Option ByteName
  | .button buttonId => some (buttonMap buttonId).byte
  | .inherited _ => none

/-- The `mask` of the same destructuring; `undefined` (`none`) for an inherited property. -/
def entryMask : TargetId → Option Int
  | .button buttonId => some (buttonMap buttonId).mask
  | .inherited _ => none

/-- The device object: its properties `lo`, `hi` and `aux`, each an integer or
`undefined` (`none`), and the property whose name is the string `undefined`, which a
write `dev[undefined] = value` creates. -/
structure Device where
  /-- The property `lo`. -/
  lo : Option Int
  /-- The property `hi`. -/
  hi : Option Int
  /-- The property `aux`. -/
  aux : Option Int
  /-- The property named `undefined`. -/
  undefinedKey : Option Int := none
  deriving DecidableEq, Repr

/-- The read `dev[byte]` for one of the three byte names. -/
def Device.get (dev : Device) : ByteName → Option Int
  | .lo => dev.lo
  | .hi => dev.hi
  | .aux => dev.aux

/-- The write `dev[byte] = value` for one of the three byte names. -/
def Device.set (dev : Device) (byte : ByteName) (value : Int) : Device :=
  match byte with
  | .lo => { dev with lo := some value }
  | .hi => { dev with hi := some value }
  | .aux => { dev with aux := some value }

/-- The read `dev[byte]` where `byte` may be `undefined` (`none`): the property read is
then the one named `undefined`. -/
def Device.read (dev : Device) : Option ByteName → Option Int
  | some byte => dev.get byte
  | none => dev.undefinedKey

/-- The write `dev[byte] = value` where `byte` may be `undefined`. -/
def Device.write (dev : Device) (byte : Option ByteName) (value : Int) : Device :=
  match byte with
  | some byte => dev.set byte value
  | none => { dev with undefinedKey := some value }

/-- The 32 bits that the bitwise operators of the language take from an integer. -/
def toUint32 (x : Int) : Nat := (x % 4294967296).toNat

/-- The signed integer that the bitwise operators give back for 32 bits. -/
def toInt32 (bits : Nat) : Int :=
  if bits < 2147483648 then (bits : Int) else (bits : Int) - 4294967296

/-- The expression `value & ~mask`. -/
def andNot (value mask : Int) : Int :=
  toInt32 (toUint32 value &&& (4294967295 ^^^ toUint32 mask))

/-- The expression `value | mask`. -/
def orMask (value mask : Int) : Int :=
  toInt32 (toUint32 value ||| toUint32 mask)

/-- The state that the handlers read and write: the device that `#getDevice()` returns
(`none` for `null`) and the map `#activePointers` from pointer ids to the ids that
`#getButtonIdFromEvent` returned, in insertion order. -/
structure Pad where
  /-- The device `joy.devices[deviceIndex]`. -/
  device : Option Device
  /-- The entries of `#activePointers`. -/
  activePointers : List (Int × TargetId)
  deriving DecidableEq, Repr

/-- Source: `#ensureInit(dev, byte)`. -/
def ensureInit (dev : Device) (byte : Option ByteName) : Device :=
  if dev.read byte = none then dev.write byte 0xff else dev

/-- Source: `#pressButton(dev, byte, mask)`; an `undefined` operand of a bitwise operator
counts as 0. -/
def pressButton (handleGamePads : Device → Device) (dev : Device) (byte : Option ByteName)
    (mask : Option Int) : Device :=
  let dev1 := ensureInit dev byte
  let dev2 := dev1.write byte (andNot ((dev1.read byte).getD 0) (mask.getD 0))
  handleGamePads dev2

/-- Source: `#releaseButton(dev, byte, mask)`. -/
def releaseButton (handleGamePads : Device → Device) (dev : Device) (byte : Option ByteName)
    (mask : Option Int) : Device :=
  let dev1 := ensureInit dev byte
  let dev2 := dev1.write byte (orMask ((dev1.read byte).getD 0) (mask.getD 0))
  handleGamePads dev2

/-- Source: `#isButtonPressed(buttonId)`. -/
def isButtonPressed (activePointers : List (Int × TargetId)) (buttonId : TargetId) : Bool :=
  activePointers.any (fun entry => decide (entry.2 = buttonId))

/-- The call `#activePointers.get(pointerId)`; `none` when the map has no such key. -/
def pointerGet (activePointers : List (Int × TargetId)) (pointerId : Int) : Option TargetId :=
  (activePointers.find? (fun entry => decide (entry.1 = pointerId))).map (fun entry => entry.2)

/-- The call `#activePointers.set(pointerId, buttonId)`: the value of an existing key is
replaced in place, a new key is added at the end. -/
def pointerSet (activePointers : List (Int × TargetId)) (pointerId : Int)
    (buttonId : TargetId) : List (Int × TargetId) :=
  if (pointerGet activePointers pointerId).isSome then
    activePointers.map (fun entry => if entry.1 = pointerId then (pointerId, buttonId) else entry)
  else activePointers ++ [(pointerId, buttonId)]

/-- The call `#activePointers.delete(pointerId)`. -/
def pointerDelete (activePointers : List (Int × TargetId)) (pointerId : Int) :
    List (Int × TargetId) :=
  activePointers.filter (fun entry => !decide (entry.1 = pointerId))

/-- Source: `#handlePointerDown(e)`. Of the event it takes the id that
`#getButtonIdFromEvent(e)` finds (`none` for `null`) and the pointer id
`e.pointerId ?? e.changedTouches?.[0]?.identifier` (`none` for `undefined`). -/
def handlePointerDown (handleGamePads : Device → Device) (pad : Pad)
    (buttonId : Option TargetId) (pointerId : Option Int) : Pad :=
  match buttonId with
  | none => pad
  | some buttonId =>
    match pad.device with
    | none => pad
    | some dev =>
      match pointerId with
      | none => pad
      | some pointerId =>
        if (pointerGet pad.activePointers pointerId).isSome then pad
        else
          let byte := entryByte buttonId
          let mask := entryMask buttonId
          let dev1 :=
            if !isButtonPressed pad.activePointers buttonId then
              pressButton handleGamePads dev byte mask
            else dev
          { device := some dev1,
            activePointers := pointerSet pad.activePointers pointerId buttonId }

/-- Source: `#handlePointerRelease(e)`. -/
def handlePointerRelease (handleGamePads : Device → Device) (pad : Pad)
    (pointerId : Option Int) : Pad :=
  match pointerId with
  | none => pad
  | some pointerId =>
    match pointerGet pad.activePointers pointerId with
    | none => pad
    | some buttonId =>
      let remaining := pointerDelete pad.activePointers pointerId
      if isButtonPressed remaining buttonId then { pad with activePointers := remaining }
      else
        match pad.device with
        | none => { pad with activePointers := remaining }
        | some dev =>
          { device := some (releaseButton handleGamePads dev (entryByte buttonId)
              (entryMask buttonId)),
            activePointers := remaining }

/-- Source: `reset()`: only the bytes that are not `undefined` are set to `0xff`. -/
def reset (handleGamePads : Device → Device) (pad : Pad) : Pad :=
  match pad.device with
  | none => pad
  | some dev =>
    let dev1 := if dev.lo ≠ none then { dev with lo := some 0xff } else dev
    let dev2 := if dev1.hi ≠ none then { dev1 with hi := some 0xff } else dev1
    let dev3 := if dev2.aux ≠ none then { dev2 with aux := some 0xff } else dev2
    { pad with device := some (handleGamePads dev3) }

/-- A pointer event that reaches the pad: a `pointerdown` or `touchstart` with the id
found for its target and the pointer id read from it, or a `pointerup`, `pointercancel`,
`touchend` or `touchcancel` with its pointer id. -/
inductive PointerEvent where
  | down (buttonId : Option TargetId) (pointerId : Option Int)
  | release (pointerId : Option Int)
  deriving DecidableEq, Repr

/-- The handler that the listeners of `#initButtonListeners` run for an event. -/
def handlePointerEvent (handleGamePads : Device → Device) (pad : Pad) : PointerEvent → Pad
  | .down buttonId pointerId => handlePointerDown handleGamePads pad buttonId pointerId
  | .release pointerId => handlePointerRelease handleGamePads pad pointerId

/-- The pad after a sequence of pointer events, handled one after the other. -/
def runPointerEvents (handleGamePads : Device → Device) (pad : Pad)
    (events : List PointerEvent) : Pad :=
  events.foldl (handlePointerEvent handleGamePads) pad

/-- The test `(dev[byte] & mask) === 0` for the button `buttonId`: its bit is cleared. An
`undefined` byte counts as `0xff`, as in `#ensureInit`. -/
def bitCleared (dev : Device) (buttonId : ButtonId) : Bool :=
  match dev.get (buttonMap buttonId).byte with
  | none => false
  | some value => decide (toUint32 value &&& toUint32 (buttonMap buttonId).mask = 0)

/-- A device with all three bytes at `0xff`: every button released. -/
def releasedDevice : Device := { lo := some 0xff, hi := some 0xff, aux := some 0xff }

/-- The pad before any pointer event: the device `releasedDevice`, no active pointer. -/
def initialPad : Pad := { device := some releasedDevice, activePointers := [] }

/-- A device on which `aux` was never written. -/
def deviceWithoutAux : Device := { lo := some 0xef, hi := some 0xff, aux := none }

/-- The position of the bit that the mask of a button selects: `0x01` is bit 0 and
`0x80` is bit 7. -/
def bitIndex : ButtonId → Nat
  | .up => 4
  | .down => 6
  | .left => 7
  | .right => 5
  | .select => 0
  | .start => 3
  | .triangle => 4
  | .circle => 5
  | .cross => 6
  | .square => 7
  | .l1 => 2
  | .l2 => 0
  | .r1 => 3
  | .r2 => 1
  | .l3 => 0
  | .r3 => 1

/-- The active pointers in the words of the claim, read off one event without looking at
the device: a pointer-down that carries a target id and a pointer id, of a pointer that
is not active, makes the pointer active and associates it with the target; a release
ends the pointer; every other event changes nothing. -/
def trackStep (active : List (Int × TargetId)) : PointerEvent → List (Int × TargetId)
  | .down (some target) (some pointerId) =>
    if active.any (fun entry => decide (entry.1 = pointerId)) then active
    else active ++ [(pointerId, target)]
  | .down _ _ => active
  | .release (some pointerId) => active.filter (fun entry => !decide (entry.1 = pointerId))
  | .release none => active

/-- The active pointers, each with the target it is associated with, after a sequence of
events that starts with no active pointer. -/
def trackedPointers (events : List PointerEvent) : List (Int × TargetId) :=
  events.foldl trackStep []

/-- The invariant of the pointer handlers: the device is present, its three bytes are
numbers from 0 to 255, no pointer id is tracked twice, and the bit of a button is
cleared exactly when an active pointer is associated with the button. -/
def PadInvariant (pad : Pad) : Prop :=
  ∃ dev : Device, pad.device = some dev ∧
    (pad.activePointers.map Prod.fst).Nodup ∧
    ∀ buttonId : ButtonId, ∃ n : Nat, n < 256 ∧
      dev.get (buttonMap buttonId).byte = some (n : Int) ∧
      (n.testBit (bitIndex buttonId) = false ↔
        ∃ pointerId : Int, (pointerId, TargetId.button buttonId) ∈ pad.activePointers)

/-- Two fingers on `cross`, one after the other; a third pointer is on an element whose
id is `constructor`. -/
def twoOnCross : List PointerEvent :=
  [.down (some (.inherited "constructor")) (some 7),
   .down (some (.button .cross)) (some 1),
   .down (some (.button .cross)) (some 2)]

/-- Two fingers on `cross`, then the first one lifted. -/
def twoFingers : List PointerEvent :=
  [.down (some (.button .cross)) (some 1), .down (some (.button .cross)) (some 2),
   .release (some 1)]

/-- A pointer goes down on an element whose id is `constructor`, then the same pointer
goes down on `cross`. -/
def inheritedThenCross : List PointerEvent :=
  [.down (some (.inherited "constructor")) (some 1), .down (some (.button .cross)) (some 1)]

end VirtualGamepad

namespace LocalGameManager

/-! ## Stores with a chunk left under an id -/

/-- A chunk store that still holds a chunk under the id that the next install in the
browser `okEnv` generates, and an empty catalog. -/
def staleDB : DB :=
  { localGames := [],
    gameChunks := [{ gameId := newGameId okEnv, chunkIndex := 0, data := [7], timestamp := 0 }] }

/-- A chunk store that holds, under the id that the next install in the browser
`threeEntriesEnv` generates, a chunk at index 1. -/
def staleIndexOneDB : DB :=
  { localGames := [],
    gameChunks :=
      [{ gameId := newGameId threeEntriesEnv, chunkIndex := 1, data := [9], timestamp := 0 }] }

/-- A chunk store that holds, under the id that the next install in the browser
`threeEntriesEnv` generates, a chunk at index 0. -/
def staleIndexZeroDB : DB :=
  { localGames := [],
    gameChunks :=
      [{ gameId := newGameId threeEntriesEnv, chunkIndex := 0, data := [9], timestamp := 0 }] }

/-! ## Lemmas on the object stores -/

theorem find_filter_concat {α : Type} (p q : α → Bool) (r : α)
    (h1 : q r = true → ∀ x, q x = true → p x = false)
    (h2 : q r = false → ∀ x, q x = true → p x = true) (l : List α) :
    (l.filter p ++ [r]).find? q = if q r = true then some r else l.find? q := by
  induction l with
  | nil => by_cases h : q r = true <;> simp [h]
  | cons c cs ih =>
    by_cases hq : q c = true
    · by_cases hr : q r = true
      · have hp : ¬ (p c = true) := by simp [h1 hr c hq]
        rw [List.filter_cons_of_neg hp, ih, if_pos hr, if_pos hr]
      · have hp : p c = true := h2 (by simpa using hr) c hq
        rw [List.filter_cons_of_pos hp, List.cons_append, List.find?_cons_of_pos _ hq,
          if_neg hr, List.find?_cons_of_pos _ hq]
    · rw [List.find?_cons_of_neg _ hq]
      by_cases hp : p c = true
      · rw [List.filter_cons_of_pos hp, List.cons_append, List.find?_cons_of_neg _ hq, ih]
      · rw [List.filter_cons_of_neg hp, ih]

theorem getChunk_putChunk (chunks : List ChunkRecord) (r : ChunkRecord) (gameId : String)
    (j : Nat) :
    getChunk (putChunk chunks r) gameId j =
      if r.gameId = gameId ∧ r.chunkIndex = j then some r else getChunk chunks gameId j := by
  unfold getChunk putChunk
  rw [find_filter_concat]
  · by_cases h : r.gameId = gameId ∧ r.chunkIndex = j
    · rw [if_pos h, if_pos (by simpa using h)]
    · rw [if_neg h, if_neg (by simpa using h)]
  · intro hr x hx
    simp only [decide_eq_true_eq] at hr hx
    simp [hr.1, hr.2, hx.1, hx.2]
  · intro hr x hx
    simp only [decide_eq_true_eq, decide_eq_false_iff_not] at hr hx
    simp only [Bool.not_eq_true', decide_eq_false_iff_not]
    rintro ⟨e1, e2⟩
    exact hr ⟨e1.symm.trans hx.1, e2.symm.trans hx.2⟩

theorem getGame_putGame (games : List GameData) (g : GameData) (gameId : String) :
    getGame (putGame games g) gameId =
      if g.id = gameId then some g else getGame games gameId := by
  unfold getGame putGame
  rw [find_filter_concat]
  · by_cases h : g.id = gameId
    · rw [if_pos h, if_pos (by simpa using h)]
    · rw [if_neg h, if_neg (by simpa using h)]
  · intro hr x hx
    simp only [decide_eq_true_eq] at hr hx
    simp [hr, hx]
  · intro hr x hx
    simp only [decide_eq_true_eq, decide_eq_false_iff_not] at hr hx
    simp only [Bool.not_eq_true', decide_eq_false_iff_not]
    intro e
    exact hr (e.symm.trans hx)

theorem chunksOf_putChunk_ne (chunks : List ChunkRecord) (r : ChunkRecord) (gameId : String)
    (h : r.gameId ≠ gameId) :
    chunksOf (putChunk chunks r) gameId = chunksOf chunks gameId := by
  unfold chunksOf putChunk
  rw [List.filter_append, List.filter_filter]
  have h1 : List.filter (fun c => decide (c.gameId = gameId)) [r] = [] := by
    simp [h]
  rw [h1, List.append_nil]
  apply List.filter_congr
  intro c _
  by_cases hc : c.gameId = gameId
  · have hne : c.gameId ≠ r.gameId := fun e => h (e.symm.trans hc)
    simp only [hc, decide_True, Bool.true_and, Bool.not_eq_true', decide_eq_false_iff_not]
    intro e
    exact hne (hc.trans e.1)
  · simp [hc]

theorem chunksOf_putChunk_fresh (chunks : List ChunkRecord) (r : ChunkRecord)
    (h : ∀ c ∈ chunksOf chunks r.gameId, c.chunkIndex ≠ r.chunkIndex) :
    chunksOf (putChunk chunks r) r.gameId = chunksOf chunks r.gameId ++ [r] := by
  unfold chunksOf putChunk at *
  rw [List.filter_append, List.filter_filter]
  have h1 : List.filter (fun c => decide (c.gameId = r.gameId)) [r] = [r] := by simp
  rw [h1]
  congr 1
  apply List.filter_congr
  intro c hc
  by_cases hg : c.gameId = r.gameId
  · have hi := h c (List.mem_filter.mpr ⟨hc, by simpa using hg⟩)
    simp only [hg, decide_True, Bool.true_and, Bool.not_eq_true', decide_eq_false_iff_not]
    intro e
    exact hi e.2
  · simp [hg]

/-! ## The loops of `storeFileAsChunks` and `loadChunkedFile` -/

theorem chunksWritten_succ (env : Env) (chunkSize : Nat) (file : JSFile) (gameId : String)
    (chunks : List ChunkRecord) (i n : Nat) :
    chunksWritten env chunkSize file gameId chunks i (n + 1) =
      chunksWritten env chunkSize file gameId
        (putChunk chunks (chunkRecordAt env chunkSize file gameId i)) (i + 1) n := by
  simp [chunksWritten, List.range'_succ]

theorem chunksWritten_zero (env : Env) (chunkSize : Nat) (file : JSFile) (gameId : String)
    (chunks : List ChunkRecord) (i : Nat) :
    chunksWritten env chunkSize file gameId chunks i 0 = chunks := by
  simp [chunksWritten]

/-- When every read and every write of the iterations `i, ..., i + n - 1` succeeds, the
loop returns the bookkeeping entries and leaves exactly the written chunks. -/
theorem storeLoop_ok (env : Env) (chunkSize : Nat) (file : JSFile) (gameId : String) :
    ∀ (n i : Nat) (db : DB) (acc : List ChunkEntry),
      (∀ j, i ≤ j → j < i + n →
        env.ok (.readSlice (j * chunkSize) (min (j * chunkSize + chunkSize) file.size)) = true ∧
        env.ok (.putChunk gameId j) = true) →
      storeLoop env chunkSize file gameId n i db acc =
        ({ db with gameChunks := chunksWritten env chunkSize file gameId db.gameChunks i n },
          .ok (acc ++ (List.range' i n).map (chunkEntryAt chunkSize file))) := by
  intro n
  induction n with
  | zero =>
    intro i db acc _
    simp [storeLoop, chunksWritten_zero]
  | succ n ih =>
    intro i db acc h
    have hi := h i (Nat.le_refl i) (by omega)
    rw [storeLoop]
    simp only [readFileChunk, hi.1, if_true, saveChunk, hi.2]
    rw [ih (i + 1) _ _ (fun j h1 h2 => h j (by omega) (by omega))]
    simp [chunksWritten_succ, List.range'_succ, chunkRecordAt, chunkEntryAt]

/-- When the write of chunk `k` is the first request to fail, the loop stops there: the
chunks `i, ..., k - 1` have been written and nothing else has happened. -/
theorem storeLoop_fail (env : Env) (chunkSize : Nat) (file : JSFile) (gameId : String) (k : Nat) :
    ∀ (n i : Nat) (db : DB) (acc : List ChunkEntry), i ≤ k → k < i + n →
      (∀ j, i ≤ j → j < k → env.ok (.putChunk gameId j) = true) →
      (∀ j, i ≤ j → j ≤ k →
        env.ok (.readSlice (j * chunkSize) (min (j * chunkSize + chunkSize) file.size)) = true) →
      env.ok (.putChunk gameId k) = false →
      storeLoop env chunkSize file gameId n i db acc =
        ({ db with gameChunks := chunksWritten env chunkSize file gameId db.gameChunks i (k - i) },
          .error "saveChunk: request error") := by
  intro n
  induction n with
  | zero =>
    intro i db acc h1 h2
    omega
  | succ n ih =>
    intro i db acc h1 h2 hput hread hk
    rw [storeLoop]
    by_cases hik : i = k
    · subst hik
      simp [readFileChunk, hread i (Nat.le_refl i) (Nat.le_refl i), saveChunk, hk,
        chunksWritten_zero]
    · have hlt : i < k := by omega
      simp only [readFileChunk, hread i (Nat.le_refl i) (by omega), if_true, saveChunk,
        hput i (Nat.le_refl i) hlt]
      rw [ih (i + 1) _ _ (by omega) (by omega) (fun j a b => hput j (by omega) b)
        (fun j a b => hread j (by omega) b) hk]
      have e : k - i = (k - (i + 1)) + 1 := by omega
      rw [e, chunksWritten_succ]
      simp [chunkRecordAt]

theorem getChunk_chunksWritten (env : Env) (chunkSize : Nat) (file : JSFile) (gameId : String) :
    ∀ (n i : Nat) (chunks : List ChunkRecord) (gid : String) (j : Nat),
      getChunk (chunksWritten env chunkSize file gameId chunks i n) gid j =
        if gid = gameId ∧ i ≤ j ∧ j < i + n then
          some (chunkRecordAt env chunkSize file gameId j)
        else getChunk chunks gid j := by
  intro n
  induction n with
  | zero =>
    intro i chunks gid j
    rw [chunksWritten_zero, if_neg (by omega)]
  | succ n ih =>
    intro i chunks gid j
    rw [chunksWritten_succ, ih, getChunk_putChunk]
    by_cases h1 : gid = gameId ∧ i + 1 ≤ j ∧ j < i + 1 + n
    · rw [if_pos h1, if_pos ⟨h1.1, by omega, by omega⟩]
    · rw [if_neg h1]
      by_cases h2 : gid = gameId ∧ i = j
      · rw [if_pos (by simpa [chunkRecordAt] using ⟨h2.1.symm, h2.2⟩),
          if_pos ⟨h2.1, by omega, by omega⟩, h2.2]
      · rw [if_neg (by
            simp only [chunkRecordAt]
            rintro ⟨e1, e2⟩
            exact h2 ⟨e1.symm, e2⟩)]
        rw [if_neg (by
            rintro ⟨e1, e2, e3⟩
            by_cases e4 : i = j
            · exact h2 ⟨e1, e4⟩
            · exact h1 ⟨e1, by omega, by omega⟩)]

theorem chunksOf_chunksWritten_ne (env : Env) (chunkSize : Nat) (file : JSFile)
    (gameId gid : String) (h : gameId ≠ gid) :
    ∀ (n i : Nat) (chunks : List ChunkRecord),
      chunksOf (chunksWritten env chunkSize file gameId chunks i n) gid = chunksOf chunks gid := by
  intro n
  induction n with
  | zero =>
    intro i chunks
    rw [chunksWritten_zero]
  | succ n ih =>
    intro i chunks
    rw [chunksWritten_succ, ih, chunksOf_putChunk_ne _ _ _ (by simpa [chunkRecordAt] using h)]

theorem chunksOf_chunksWritten (env : Env) (chunkSize : Nat) (file : JSFile) (gameId : String) :
    ∀ (n i : Nat) (chunks : List ChunkRecord),
      (∀ c ∈ chunksOf chunks gameId, c.chunkIndex < i) →
      chunksOf (chunksWritten env chunkSize file gameId chunks i n) gameId =
        chunksOf chunks gameId ++
          (List.range' i n).map (chunkRecordAt env chunkSize file gameId) := by
  intro n
  induction n with
  | zero =>
    intro i chunks _
    simp [chunksWritten_zero]
  | succ n ih =>
    intro i chunks h
    have hfresh : chunksOf (putChunk chunks (chunkRecordAt env chunkSize file gameId i)) gameId =
        chunksOf chunks gameId ++ [chunkRecordAt env chunkSize file gameId i] := by
      have := chunksOf_putChunk_fresh chunks (chunkRecordAt env chunkSize file gameId i)
        (fun c hc => by
          have := h c hc
          simp only [chunkRecordAt]
          omega)
      simpa [chunkRecordAt] using this
    rw [chunksWritten_succ, ih, hfresh]
    · simp [List.range'_succ]
    · intro c hc
      rw [hfresh] at hc
      rcases List.mem_append.mp hc with hc | hc
      · have := h c hc
        omega
      · simp only [List.mem_singleton] at hc
        subst hc
        simp [chunkRecordAt]

/-- When every read request succeeds, the first loop of `loadChunkedFile` collects, in
index order, the data of the chunks that are present. -/
theorem loadChunks_ok (env : Env) (db : DB) (gameId : String) :
    ∀ (n i : Nat) (acc : List Bytes),
      (∀ j, i ≤ j → j < i + n → env.ok (.getChunk gameId j) = true) →
      loadChunks env db gameId n i acc =
        .ok (acc ++ (List.range' i n).filterMap
          (fun j => (getChunk db.gameChunks gameId j).map (fun r => r.data))) := by
  intro n
  induction n with
  | zero =>
    intro i acc _
    simp [loadChunks]
  | succ n ih =>
    intro i acc h
    rw [loadChunks]
    simp only [loadChunk, h i (Nat.le_refl i) (by omega), if_true]
    cases hg : getChunk db.gameChunks gameId i with
    | none =>
      simp only [Option.map_none']
      rw [ih (i + 1) _ (fun j a b => h j (by omega) (by omega))]
      simp [List.range'_succ, hg]
    | some r =>
      simp only [Option.map_some']
      rw [ih (i + 1) _ (fun j a b => h j (by omega) (by omega))]
      simp [List.range'_succ, hg]

/-! ## Slicing a file and putting the slices back together -/

theorem filterMap_eq_map_of {α β : Type} (f : α → Option β) (g : α → β) :
    ∀ (l : List α), (∀ x ∈ l, f x = some (g x)) → l.filterMap f = l.map g := by
  intro l
  induction l with
  | nil => intro _; rfl
  | cons a l ih =>
    intro h
    rw [List.filterMap_cons, h a (List.mem_cons_self a l)]
    simp only [List.map_cons]
    rw [ih (fun x hx => h x (List.mem_cons_of_mem a hx))]

theorem ceilDiv_mul_ge (a b : Nat) (hb : 0 < b) : a ≤ ceilDiv a b * b := by
  unfold ceilDiv
  have h1 := Nat.div_add_mod (a + b - 1) b
  have h2 := Nat.mod_lt (a + b - 1) hb
  have h3 : (a + b - 1) / b * b = b * ((a + b - 1) / b) := Nat.mul_comm _ _
  omega

theorem ceilDiv_pred_mul_lt (a b : Nat) (ha : 0 < a) (hb : 0 < b) :
    (ceilDiv a b - 1) * b < a := by
  unfold ceilDiv
  have h1 := Nat.div_add_mod (a + b - 1) b
  have h3 : (a + b - 1) / b * b = b * ((a + b - 1) / b) := Nat.mul_comm _ _
  have h4 : 1 ≤ (a + b - 1) / b := (Nat.one_le_div_iff hb).mpr (by omega)
  have h5 : ((a + b - 1) / b - 1) * b = (a + b - 1) / b * b - b := by
    rw [Nat.sub_mul, Nat.one_mul]
  have h6 : b ≤ (a + b - 1) / b * b := Nat.le_mul_of_pos_left b h4
  omega

theorem slice_eq_take_drop (file : JSFile) (chunkSize j : Nat) :
    file.slice (j * chunkSize) (min (j * chunkSize + chunkSize) file.size) =
      (file.data.drop (j * chunkSize)).take chunkSize := by
  unfold JSFile.slice JSFile.size
  by_cases h : j * chunkSize + chunkSize ≤ file.data.length
  · rw [Nat.min_eq_left h, Nat.add_sub_cancel_left]
  · rw [Nat.min_eq_right (by omega)]
    rw [List.take_of_length_le (by rw [List.length_drop]),
      List.take_of_length_le (by rw [List.length_drop]; omega)]

theorem slice_length (file : JSFile) (chunkSize j : Nat) :
    (file.slice (j * chunkSize) (min (j * chunkSize + chunkSize) file.size)).length =
      min (j * chunkSize + chunkSize) file.size - j * chunkSize := by
  unfold JSFile.slice JSFile.size
  rw [List.length_take, List.length_drop]
  omega

theorem flatten_slices (file : JSFile) (chunkSize : Nat) :
    ∀ n : Nat,
      ((List.range n).map (fun j =>
        file.slice (j * chunkSize) (min (j * chunkSize + chunkSize) file.size))).flatten =
        file.data.take (n * chunkSize) := by
  intro n
  induction n with
  | zero => simp
  | succ n ih =>
    rw [List.range_succ, List.map_append, List.flatten_append, ih]
    simp only [List.map_cons, List.map_nil, List.flatten_cons, List.flatten_nil,
      List.append_nil]
    rw [slice_eq_take_drop, Nat.succ_mul, List.take_add]

/-- A successful run of `storeFileAsChunks` in closed form. -/
theorem storeFileAsChunks_ok (env : Env) (chunkSize : Nat) (db : DB) (file : JSFile)
    (gameId name region : String)
    (hread : ∀ j, j < ceilDiv file.size chunkSize →
      env.ok (.readSlice (j * chunkSize) (min (j * chunkSize + chunkSize) file.size)) = true)
    (hwrite : ∀ j, j < ceilDiv file.size chunkSize → env.ok (.putChunk gameId j) = true)
    (hsave : env.ok (.putGame gameId) = true) :
    storeFileAsChunks env chunkSize db file gameId name region =
      ({ localGames := putGame db.localGames
            (chunkedGameData env chunkSize file gameId name region),
         gameChunks := chunksWritten env chunkSize file gameId db.gameChunks 0
            (ceilDiv file.size chunkSize) },
        .ok (chunkedGameData env chunkSize file gameId name region)) := by
  unfold storeFileAsChunks
  simp only []
  rw [storeLoop_ok env chunkSize file gameId _ 0 db []
    (fun j _ h => ⟨hread j (by omega), hwrite j (by omega)⟩)]
  simp [saveGame, hsave, chunkedGameData, List.range_eq_range']

/-- Assembling after the writes of `storeFileAsChunks` gives back the bytes of the file. -/
theorem loadChunkedFile_chunksWritten (env envL : Env) (chunkSize : Nat) (file : JSFile)
    (gameId : String) (games : List GameData) (chunks : List ChunkRecord)
    (hC : 0 < chunkSize)
    (hget : ∀ j, j < ceilDiv file.size chunkSize → envL.ok (.getChunk gameId j) = true) :
    loadChunkedFile envL
      { localGames := games,
        gameChunks := chunksWritten env chunkSize file gameId chunks 0
          (ceilDiv file.size chunkSize) }
      gameId (ceilDiv file.size chunkSize) = .ok file.data := by
  unfold loadChunkedFile
  rw [loadChunks_ok envL _ gameId _ 0 [] (fun j _ h => hget j (by omega))]
  simp only [List.nil_append]
  rw [filterMap_eq_map_of _ (fun j =>
    file.slice (j * chunkSize) (min (j * chunkSize + chunkSize) file.size))]
  · rw [← List.range_eq_range', flatten_slices]
    rw [List.take_of_length_le (ceilDiv_mul_ge file.size chunkSize hC)]
  · intro j hj
    have hj2 : j < ceilDiv file.size chunkSize := by
      have := List.mem_range'_1.mp hj
      omega
    rw [getChunk_chunksWritten, if_pos ⟨rfl, Nat.zero_le j, by omega⟩]
    simp [chunkRecordAt]

/-! ## C1, C2: large non-archive install -/

/-- C1: round trip of a large non-archive install. For every file and every chunk size
`C ≥ 1`, when the slice reads, the chunk writes and the record write of
`storeFileAsChunks` succeed (whatever the chunk store held before), the install returns a
record, that record carries a `totalChunks` in its `chunkInfo`, and
`loadChunkedFile(id, totalChunks)` on the resulting store returns exactly the bytes of the
file. -/
theorem storeFileAsChunks_roundtrip (env envL : Env) (chunkSize : Nat) (db : DB)
    (file : JSFile) (gameId name region : String) (hC : 1 ≤ chunkSize)
    (hread : ∀ j, j < ceilDiv file.size chunkSize →
      env.ok (.readSlice (j * chunkSize) (min (j * chunkSize + chunkSize) file.size)) = true)
    (hwrite : ∀ j, j < ceilDiv file.size chunkSize → env.ok (.putChunk gameId j) = true)
    (hsave : env.ok (.putGame gameId) = true)
    (hget : ∀ j, j < ceilDiv file.size chunkSize → envL.ok (.getChunk gameId j) = true) :
    ∃ (db1 : DB) (g : GameData) (totalChunks : Nat),
      storeFileAsChunks env chunkSize db file gameId name region = (db1, .ok g) ∧
      recordedTotalChunks g = some totalChunks ∧
      loadChunkedFile envL db1 gameId totalChunks = .ok file.data := by
  refine ⟨_, _, ceilDiv file.size chunkSize,
    storeFileAsChunks_ok env chunkSize db file gameId name region hread hwrite hsave, ?_, ?_⟩
  · simp [recordedTotalChunks, chunkedGameData]
  · exact loadChunkedFile_chunksWritten env envL chunkSize file gameId _ _ hC hget

/-- Five bytes stored in chunks of two are read back unchanged. -/
theorem storeFileAsChunks_roundtrip_witness :
    ∃ (db1 : DB) (g : GameData) (totalChunks : Nat),
      storeFileAsChunks okEnv 2 emptyDB fiveBytes "local_1_a" "Game" "EU" = (db1, .ok g) ∧
      recordedTotalChunks g = some totalChunks ∧
      loadChunkedFile okEnv db1 "local_1_a" totalChunks = .ok [1, 2, 3, 4, 5] :=
  storeFileAsChunks_roundtrip okEnv okEnv 2 emptyDB fiveBytes "local_1_a" "Game" "EU"
    (by decide) (fun _ _ => rfl) (fun _ _ => rfl) rfl (fun _ _ => rfl)

/-- C2: chunk layout of a large non-archive install. For a file of size `S ≥ 1` and a
chunk size `C ≥ 1`, a successful `storeFileAsChunks` into a store without a chunk for the
id leaves for that id one chunk at each index `0, ..., N - 1` with `N = ceil(S / C)` and no
other; a chunk that is not the last has length `C`, the last has length `S - (N - 1) * C`,
the lengths sum to `S`, and `S` is the size declared in the chunked file entry. -/
theorem storeFileAsChunks_layout (env : Env) (chunkSize : Nat) (db : DB)
    (file : JSFile) (gameId name region : String) (hS : 1 ≤ file.size) (hC : 1 ≤ chunkSize)
    (hnone : chunksOf db.gameChunks gameId = [])
    (hread : ∀ j, j < ceilDiv file.size chunkSize →
      env.ok (.readSlice (j * chunkSize) (min (j * chunkSize + chunkSize) file.size)) = true)
    (hwrite : ∀ j, j < ceilDiv file.size chunkSize → env.ok (.putChunk gameId j) = true)
    (hsave : env.ok (.putGame gameId) = true) :
    ∃ (db1 : DB) (g : GameData),
      storeFileAsChunks env chunkSize db file gameId name region = (db1, .ok g) ∧
      (chunksOf db1.gameChunks gameId).map (fun c => c.chunkIndex) =
        List.range (ceilDiv file.size chunkSize) ∧
      (∀ c ∈ chunksOf db1.gameChunks gameId,
        c.chunkIndex + 1 < ceilDiv file.size chunkSize → c.data.length = chunkSize) ∧
      (∀ c ∈ chunksOf db1.gameChunks gameId,
        c.chunkIndex + 1 = ceilDiv file.size chunkSize →
          c.data.length = file.size - (ceilDiv file.size chunkSize - 1) * chunkSize) ∧
      ((chunksOf db1.gameChunks gameId).map (fun c => c.data.length)).sum = file.size ∧
      (g.files.getD []).map (fun f => (f.isChunked, f.size)) = [(true, file.size)] := by
  have hlist : chunksOf (chunksWritten env chunkSize file gameId db.gameChunks 0
      (ceilDiv file.size chunkSize)) gameId =
      (List.range (ceilDiv file.size chunkSize)).map
        (chunkRecordAt env chunkSize file gameId) := by
    rw [chunksOf_chunksWritten env chunkSize file gameId _ 0 db.gameChunks
      (by rw [hnone]; intro c hc; cases hc), hnone, List.nil_append, List.range_eq_range']
  have hlast := ceilDiv_pred_mul_lt file.size chunkSize hS hC
  have hcover := ceilDiv_mul_ge file.size chunkSize hC
  refine ⟨_, _,
    storeFileAsChunks_ok env chunkSize db file gameId name region hread hwrite hsave,
    ?_, ?_, ?_, ?_, ?_⟩
  · simp only [hlist, List.map_map]
    have : ((fun c : ChunkRecord => c.chunkIndex) ∘ chunkRecordAt env chunkSize file gameId)
        = id := by
      funext j
      simp [chunkRecordAt]
    rw [this, List.map_id]
  · intro c hc hlt
    simp only [hlist, List.mem_map, List.mem_range] at hc
    obtain ⟨j, _, rfl⟩ := hc
    simp only [chunkRecordAt] at hlt ⊢
    rw [slice_length]
    have h1 : (j + 1) * chunkSize ≤ (ceilDiv file.size chunkSize - 1) * chunkSize :=
      Nat.mul_le_mul_right _ (by omega)
    rw [Nat.succ_mul] at h1
    omega
  · intro c hc heq
    simp only [hlist, List.mem_map, List.mem_range] at hc
    obtain ⟨j, _, rfl⟩ := hc
    simp only [chunkRecordAt] at heq ⊢
    rw [slice_length]
    have h1 : ceilDiv file.size chunkSize * chunkSize = j * chunkSize + chunkSize := by
      rw [← heq, Nat.succ_mul]
    have h2 : ceilDiv file.size chunkSize - 1 = j := by omega
    rw [h2]
    omega
  · simp only [hlist, List.map_map]
    have hfun : ((fun c : ChunkRecord => c.data.length) ∘
        chunkRecordAt env chunkSize file gameId) =
        (List.length ∘ fun j =>
          file.slice (j * chunkSize) (min (j * chunkSize + chunkSize) file.size)) := by
      funext j
      simp [chunkRecordAt]
    rw [hfun, ← List.map_map, ← List.length_flatten, flatten_slices,
      List.take_of_length_le hcover]
    rfl
  · simp [chunkedGameData]

/-- Five bytes in chunks of two: three chunks, of lengths 2, 2 and 1. -/
theorem storeFileAsChunks_layout_witness :
    ∃ (db1 : DB) (g : GameData),
      storeFileAsChunks okEnv 2 emptyDB fiveBytes "local_1_a" "Game" "EU" = (db1, .ok g) ∧
      (chunksOf db1.gameChunks "local_1_a").map (fun c => c.chunkIndex) =
        List.range (ceilDiv fiveBytes.size 2) ∧
      (∀ c ∈ chunksOf db1.gameChunks "local_1_a",
        c.chunkIndex + 1 < ceilDiv fiveBytes.size 2 → c.data.length = 2) ∧
      (∀ c ∈ chunksOf db1.gameChunks "local_1_a",
        c.chunkIndex + 1 = ceilDiv fiveBytes.size 2 →
          c.data.length = fiveBytes.size - (ceilDiv fiveBytes.size 2 - 1) * 2) ∧
      ((chunksOf db1.gameChunks "local_1_a").map (fun c => c.data.length)).sum =
        fiveBytes.size ∧
      (g.files.getD []).map (fun f => (f.isChunked, f.size)) = [(true, fiveBytes.size)] :=
  storeFileAsChunks_layout okEnv 2 emptyDB fiveBytes "local_1_a" "Game" "EU"
    (by decide) (by decide) rfl (fun _ _ => rfl) (fun _ _ => rfl) rfl

/-! ## C3: small non-archive install -/

theorem selectMainFile_singleton (f : FileEntry) : selectMainFile [f] = some f := by
  cases h : f.type <;> simp [selectMainFile, List.find?, h, Option.orElse]

/-- A successful `installSmallFile` of a source whose name does not end in `.zip`, in
closed form. -/
theorem installSmallFile_direct (env : Env) (db : DB) (file : JSFile) (name region : String)
    (hzip : endsWithLower file.name ".zip" = false)
    (hread : env.ok .readFile = true)
    (hsave : env.ok (.putGame (newGameId env)) = true) :
    installSmallFile env db file name region =
      ({ db with localGames := putGame db.localGames (directGameData env file name region) },
        .ok (directGameData env file name region)) := by
  unfold installSmallFile
  simp only [hread, hzip, if_true, Bool.false_and, Bool.false_eq_true, if_false]
  by_cases hm : isMainType (getFileType file.name) = true
  · simp [saveGame, hsave, List.filter, hm, directGameData]
  · simp [saveGame, hsave, List.filter, hm, directGameData]

theorem installGameFromFile_small (env : Env) (chunkSize : Nat) (db : DB) (file : JSFile)
    (name region : String) (hsize : file.size ≤ 100 * 1024 * 1024) :
    installGameFromFile env chunkSize db file name region =
      installSmallFile env db file name region := by
  unfold installGameFromFile
  simp only [decide_eq_true_eq]
  rw [if_neg (by omega)]

theorem installGameFromFile_large (env : Env) (chunkSize : Nat) (db : DB) (file : JSFile)
    (name region : String) (hsize : 100 * 1024 * 1024 < file.size) :
    installGameFromFile env chunkSize db file name region =
      installLargeFile env chunkSize db file name region := by
  unfold installGameFromFile
  simp only [decide_eq_true_eq]
  rw [if_pos (by omega)]

/-- C3: round trip of a small non-archive install. For every source whose name does not
end in `.zip` and whose size is at most 100 MiB, `installGameFromFile` takes the
`installSmallFile` path; when its read and its record write succeed it returns a record,
and `playGame` on that record's id (its requests succeeding, `window.openFile` present)
hands over the source's file name and exactly the source's bytes. -/
theorem installSmallFile_playGame_roundtrip (env envP : Env) (chunkSize : Nat) (db : DB)
    (file : JSFile) (name region : String)
    (hzip : endsWithLower file.name ".zip" = false)
    (hsize : file.size ≤ 100 * 1024 * 1024)
    (hread : env.ok .readFile = true)
    (hsave : env.ok (.putGame (newGameId env)) = true)
    (hload : envP.ok (.getGame (newGameId env)) = true)
    (hstat : envP.ok (.putGame (newGameId env)) = true)
    (hopen : envP.hasOpenFile = true) :
    ∃ (db1 : DB) (g : GameData),
      installGameFromFile env chunkSize db file name region = (db1, .ok g) ∧
      installSmallFile env db file name region = (db1, .ok g) ∧
      (playGame envP db1 g.id).2 = .launched file.name file.data := by
  have hinst := installSmallFile_direct env db file name region hzip hread hsave
  refine ⟨_, _, (installGameFromFile_small env chunkSize db file name region hsize).trans hinst,
    hinst, ?_⟩
  unfold playGame
  have hid : (directGameData env file name region).id = newGameId env := rfl
  simp only [loadGame, hid, hload, if_true, getGame_putGame]
  simp only [directGameData, Bool.false_and, Bool.false_eq_true, if_false,
    selectMainFile_singleton, launch, saveGame, hstat, if_true, hopen]

/-- A five-byte `game.bin` installed by the small path is played back unchanged. -/
theorem installSmallFile_playGame_roundtrip_witness :
    ∃ (db1 : DB) (g : GameData),
      installGameFromFile okEnv defaultChunkSize emptyDB fiveBytes "Game" "EU" = (db1, .ok g) ∧
      installSmallFile okEnv emptyDB fiveBytes "Game" "EU" = (db1, .ok g) ∧
      (playGame okEnv db1 g.id).2 = .launched "game.bin" [1, 2, 3, 4, 5] :=
  installSmallFile_playGame_roundtrip okEnv okEnv defaultChunkSize emptyDB fiveBytes
    "Game" "EU" (by decide) (by decide) rfl rfl rfl rfl rfl

/-! ## C4, C5, C6: a chunk write fails -/

/-- A run of `storeFileAsChunks` in which the write of chunk `k` is the first request to
fail, in closed form: the promise rejects, the chunks `0, ..., k - 1` have been written,
the catalog has not been touched. -/
theorem storeFileAsChunks_fail (env : Env) (chunkSize : Nat) (db : DB) (file : JSFile)
    (gameId name region : String) (k : Nat) (hk : k < ceilDiv file.size chunkSize)
    (hput : ∀ j, j < k → env.ok (.putChunk gameId j) = true)
    (hread : ∀ j, j ≤ k →
      env.ok (.readSlice (j * chunkSize) (min (j * chunkSize + chunkSize) file.size)) = true)
    (hfail : env.ok (.putChunk gameId k) = false) :
    storeFileAsChunks env chunkSize db file gameId name region =
      ({ db with gameChunks := chunksWritten env chunkSize file gameId db.gameChunks 0 k },
        .error "saveChunk: request error") := by
  unfold storeFileAsChunks
  simp only []
  rw [storeLoop_fail env chunkSize file gameId k _ 0 db [] (Nat.zero_le k) (by omega)
    (fun j _ h => hput j h) (fun j _ h => hread j h) hfail]
  simp

theorem installGameFromFile_large_direct (env : Env) (chunkSize : Nat) (db : DB)
    (file : JSFile) (name region : String) (hsize : 100 * 1024 * 1024 < file.size)
    (hzip : endsWithLower file.name ".zip" = false) :
    installGameFromFile env chunkSize db file name region =
      storeFileAsChunks env chunkSize db file (newGameId env) name region := by
  rw [installGameFromFile_large env chunkSize db file name region hsize]
  unfold installLargeFile
  simp [hzip]

theorem bigFile_size : bigFile.size = 100 * 1024 * 1024 + 1 :=
  List.length_replicate _ _

theorem bigZip_size : bigZip.size = 100 * 1024 * 1024 + 1 :=
  List.length_replicate _ _

/-- The archive branch of `installLargeFile` up to its two writes, in closed form. -/
theorem installLargeFile_archive (env : Env) (chunkSize : Nat) (db : DB)
    (file : JSFile) (name region : String) (zipData : List ZipEntry) (entry : ZipEntry)
    (fileData : Bytes)
    (hzip : endsWithLower file.name ".zip" = true)
    (hread : env.ok .readFile = true) (hjs : env.hasJSZip = true)
    (hdec : env.loadAsync file.data = some zipData)
    (hmain : findMainFileEntry zipData = some entry)
    (hdata : entry.data = some fileData)
    (hsave : env.ok (.putGame (newGameId env)) = true) :
    installLargeFile env chunkSize db file name region =
      match saveChunk env
        { db with
          localGames :=
            putGame db.localGames
              (archiveGameData env chunkSize file name region entry.name fileData) }
        (newGameId env) 0 fileData with
      | (db2, .error e) => (db2, .error e)
      | (db2, .ok _) =>
        (db2, .ok (archiveGameData env chunkSize file name region entry.name fileData)) := by
  unfold installLargeFile
  simp only [hzip, Bool.not_true, Bool.false_eq_true, if_false, readFileAsArrayBuffer, hread,
    if_true, hjs, hdec, hmain, hdata, saveGame, hsave, archiveGameData]

/-- C4 (the large-archive path breaks the rule): for every archive of more than 100 MiB
whose directory decodes and holds a main entry, `installGameFromFile` saves the record
before the chunk; when that chunk write fails, the install rejects and leaves in the
catalog a record with `useChunks = true` and `totalChunks = 1` whose chunk 0 is not in the
chunk store. -/
theorem installLargeFile_archive_record_without_chunk (env : Env) (chunkSize : Nat) (db : DB)
    (file : JSFile) (name region : String) (zipData : List ZipEntry) (entry : ZipEntry)
    (fileData : Bytes)
    (hsize : 100 * 1024 * 1024 < file.size)
    (hzip : endsWithLower file.name ".zip" = true)
    (hread : env.ok .readFile = true) (hjs : env.hasJSZip = true)
    (hdec : env.loadAsync file.data = some zipData)
    (hmain : findMainFileEntry zipData = some entry)
    (hdata : entry.data = some fileData)
    (hsave : env.ok (.putGame (newGameId env)) = true)
    (hfail : env.ok (.putChunk (newGameId env) 0) = false)
    (hnone : getChunk db.gameChunks (newGameId env) 0 = none) :
    ∃ (db1 : DB) (msg : String) (g : GameData),
      installGameFromFile env chunkSize db file name region = (db1, .error msg) ∧
      getGame db1.localGames (newGameId env) = some g ∧
      g.useChunks = true ∧ recordedTotalChunks g = some 1 ∧
      getChunk db1.gameChunks (newGameId env) 0 = none := by
  rw [installGameFromFile_large env chunkSize db file name region hsize,
    installLargeFile_archive env chunkSize db file name region zipData entry fileData hzip
      hread hjs hdec hmain hdata hsave]
  simp only [saveChunk, hfail, Bool.false_eq_true, if_false]
  refine ⟨_, _, archiveGameData env chunkSize file name region entry.name fileData,
    rfl, ?_, rfl, rfl, hnone⟩
  have hid : (archiveGameData env chunkSize file name region entry.name fileData).id =
      newGameId env := rfl
  rw [getGame_putGame, if_pos hid]

/-- A large archive with a `.bin` entry, into empty stores, the chunk write failing. -/
theorem installLargeFile_archive_record_without_chunk_witness :
    ∃ (db1 : DB) (msg : String) (g : GameData),
      installGameFromFile zipFailChunk defaultChunkSize emptyDB bigZip "Game" "EU" =
        (db1, .error msg) ∧
      getGame db1.localGames (newGameId zipFailChunk) = some g ∧
      g.useChunks = true ∧ recordedTotalChunks g = some 1 ∧
      getChunk db1.gameChunks (newGameId zipFailChunk) 0 = none :=
  installLargeFile_archive_record_without_chunk zipFailChunk defaultChunkSize emptyDB bigZip
    "Game" "EU" threeEntries { name := "game/game.bin", dir := false, data := some [7, 8] }
    [7, 8] (by rw [bigZip_size]; decide) (by decide) rfl rfl rfl (by decide) rfl rfl
    (by decide) rfl

/-- C5 as stated fails: in the install of `bigFile` (100 MiB + 1 byte, not an archive) with
the default chunk size, the write of chunk 0 succeeds and the write of chunk 1 fails; the
install rejects and the chunk store still holds a chunk for the title id. -/
theorem chunk_cleanup_counterexample :
    failSecondWrite.ok (.putChunk (newGameId failSecondWrite) 0) = true ∧
    failSecondWrite.ok (.putChunk (newGameId failSecondWrite) 1) = false ∧
    ∃ (db1 : DB) (msg : String),
      installGameFromFile failSecondWrite defaultChunkSize emptyDB bigFile "Game" "EU" =
        (db1, .error msg) ∧
      chunksOf db1.gameChunks (newGameId failSecondWrite) ≠ [] := by
  have h := (installGameFromFile_large_direct failSecondWrite defaultChunkSize emptyDB bigFile
      "Game" "EU" (by rw [bigFile_size]; decide) (by decide)).trans
    (storeFileAsChunks_fail failSecondWrite defaultChunkSize emptyDB bigFile
      (newGameId failSecondWrite) "Game" "EU" 1 (by rw [bigFile_size]; decide)
      (fun j hj => by
        have h0 : j = 0 := by omega
        subst h0
        decide)
      (fun _ _ => rfl) (by decide))
  refine ⟨by decide, by decide, _, _, h, ?_⟩
  simp only []
  rw [chunksOf_chunksWritten failSecondWrite defaultChunkSize bigFile
    (newGameId failSecondWrite) 1 0 emptyDB.gameChunks (by
      intro c hc
      cases hc)]
  simp [List.range'_succ]

/-- C5 (amended): in every install of a non-archive source of more than 100 MiB in which
the write of chunk `k` is the first request to fail, the install rejects and no cleanup
runs: when the store held no chunk for the title id before, it holds afterwards exactly
the chunks `0, ..., k - 1` written before the failure. -/
theorem chunk_write_failure_keeps_chunks (env : Env) (chunkSize : Nat) (db : DB)
    (file : JSFile) (name region : String) (k : Nat)
    (hsize : 100 * 1024 * 1024 < file.size)
    (hzip : endsWithLower file.name ".zip" = false)
    (hk : k < ceilDiv file.size chunkSize)
    (hput : ∀ j, j < k → env.ok (.putChunk (newGameId env) j) = true)
    (hread : ∀ j, j ≤ k →
      env.ok (.readSlice (j * chunkSize) (min (j * chunkSize + chunkSize) file.size)) = true)
    (hfail : env.ok (.putChunk (newGameId env) k) = false)
    (hnone : chunksOf db.gameChunks (newGameId env) = []) :
    ∃ (db1 : DB) (msg : String),
      installGameFromFile env chunkSize db file name region = (db1, .error msg) ∧
      chunksOf db1.gameChunks (newGameId env) =
        (List.range k).map (chunkRecordAt env chunkSize file (newGameId env)) := by
  have h := (installGameFromFile_large_direct env chunkSize db file name region hsize
      hzip).trans
    (storeFileAsChunks_fail env chunkSize db file (newGameId env) name region k hk hput
      hread hfail)
  refine ⟨_, _, h, ?_⟩
  simp only []
  rw [chunksOf_chunksWritten env chunkSize file (newGameId env) k 0 db.gameChunks (by
      rw [hnone]
      intro c hc
      cases hc), hnone, List.nil_append, List.range_eq_range']

/-- The install of `bigFile` whose second chunk write fails keeps chunk 0. -/
theorem chunk_write_failure_keeps_chunks_witness :
    ∃ (db1 : DB) (msg : String),
      installGameFromFile failSecondWrite defaultChunkSize emptyDB bigFile "Game" "EU" =
        (db1, .error msg) ∧
      chunksOf db1.gameChunks (newGameId failSecondWrite) =
        (List.range 1).map
          (chunkRecordAt failSecondWrite defaultChunkSize bigFile (newGameId failSecondWrite)) :=
  chunk_write_failure_keeps_chunks failSecondWrite defaultChunkSize emptyDB bigFile
    "Game" "EU" 1 (by rw [bigFile_size]; decide) (by decide) (by rw [bigFile_size]; decide)
    (fun j hj => by
      have h0 : j = 0 := by omega
      subst h0
      decide)
    (fun _ _ => rfl) (by decide) rfl

/-- C6: catalog atomicity on a chunk-write failure. In every install of a non-archive
source of more than 100 MiB in which the write of chunk `k` is the first request to fail,
the install returns an error, the catalog is exactly as before, and the chunk store is
unchanged at every key of another title and at every index `≥ k` of this title (so no
chunk of index greater than `k` is written). -/
theorem chunk_write_failure_catalog_unchanged (env : Env) (chunkSize : Nat) (db : DB)
    (file : JSFile) (name region : String) (k : Nat)
    (hsize : 100 * 1024 * 1024 < file.size)
    (hzip : endsWithLower file.name ".zip" = false)
    (hk : k < ceilDiv file.size chunkSize)
    (hput : ∀ j, j < k → env.ok (.putChunk (newGameId env) j) = true)
    (hread : ∀ j, j ≤ k →
      env.ok (.readSlice (j * chunkSize) (min (j * chunkSize + chunkSize) file.size)) = true)
    (hfail : env.ok (.putChunk (newGameId env) k) = false) :
    ∃ (db1 : DB) (msg : String),
      installGameFromFile env chunkSize db file name region = (db1, .error msg) ∧
      db1.localGames = db.localGames ∧
      (∀ (gid : String) (j : Nat), gid ≠ newGameId env ∨ k ≤ j →
        getChunk db1.gameChunks gid j = getChunk db.gameChunks gid j) := by
  have h := (installGameFromFile_large_direct env chunkSize db file name region hsize
      hzip).trans
    (storeFileAsChunks_fail env chunkSize db file (newGameId env) name region k hk hput
      hread hfail)
  refine ⟨_, _, h, rfl, ?_⟩
  intro gid j hj
  simp only []
  rw [getChunk_chunksWritten, if_neg]
  rintro ⟨e1, _, e3⟩
  rcases hj with hj | hj
  · exact hj e1
  · omega

/-- The install of `bigFile` whose second chunk write fails leaves the catalog empty. -/
theorem chunk_write_failure_catalog_unchanged_witness :
    ∃ (db1 : DB) (msg : String),
      installGameFromFile failSecondWrite defaultChunkSize emptyDB bigFile "Game" "EU" =
        (db1, .error msg) ∧
      db1.localGames = [] ∧
      (∀ (gid : String) (j : Nat), gid ≠ newGameId failSecondWrite ∨ 1 ≤ j →
        getChunk db1.gameChunks gid j = getChunk emptyDB.gameChunks gid j) :=
  chunk_write_failure_catalog_unchanged failSecondWrite defaultChunkSize emptyDB bigFile
    "Game" "EU" 1 (by rw [bigFile_size]; decide) (by decide) (by rw [bigFile_size]; decide)
    (fun j hj => by
      have h0 : j = 0 := by omega
      subst h0
      decide)
    (fun _ _ => rfl) (by decide)

/-! ## C7, C8: a chunk is missing at retrieval time -/

theorem getGame_id (games : List GameData) (gameId : String) (g : GameData)
    (h : getGame games gameId = some g) : g.id = gameId := by
  unfold getGame at h
  have := List.find?_some h
  simpa using this

/-- C7 as stated fails: with chunk 1 of 3 missing and every request succeeding,
`loadChunkedFile` returns a buffer made of chunks 0 and 2 instead of failing. -/
theorem loadChunkedFile_missing_counterexample :
    getChunk gappedDB.gameChunks "local_1_a" 1 = none ∧
    loadChunkedFile okEnv gappedDB "local_1_a" 3 = .ok [1, 2, 5] := by
  decide

theorem loadChunkedFile_present (env : Env) (db : DB) (gameId : String)
    (totalChunks : Nat)
    (hget : ∀ j, j < totalChunks → env.ok (.getChunk gameId j) = true) :
    loadChunkedFile env db gameId totalChunks =
      .ok (presentChunks db gameId totalChunks).flatten := by
  unfold loadChunkedFile presentChunks
  rw [loadChunks_ok env db gameId totalChunks 0 [] (fun j _ h => hget j (by omega))]
  simp [List.range_eq_range']

/-- C7 (amended): for every title id, `totalChunks` and chunk store, when the read
requests succeed `loadChunkedFile` does not fail, also when some index below `totalChunks`
has no chunk: it returns the concatenation, in index order, of the chunks that are present
and skips the missing ones. -/
theorem loadChunkedFile_skips_missing (env : Env) (db : DB) (gameId : String)
    (totalChunks : Nat)
    (hget : ∀ j, j < totalChunks → env.ok (.getChunk gameId j) = true) :
    loadChunkedFile env db gameId totalChunks =
      .ok (presentChunks db gameId totalChunks).flatten :=
  loadChunkedFile_present env db gameId totalChunks hget

/-- Chunk 1 of 3 is missing: the assembly is the concatenation of chunks 0 and 2. -/
theorem loadChunkedFile_skips_missing_witness :
    loadChunkedFile okEnv gappedDB "local_1_a" 3 =
      .ok (presentChunks gappedDB "local_1_a" 3).flatten :=
  loadChunkedFile_skips_missing okEnv gappedDB "local_1_a" 3 (fun _ _ => rfl)

/-- C8 as stated fails: `threeChunkGame` has chunk 1 missing, yet `playGame` hands a
file to `window.openFile` and saves the record with new statistics. -/
theorem playGame_missing_chunk_counterexample :
    getChunk gappedDB.gameChunks "local_1_a" 1 = none ∧
    (playGame okEnv gappedDB "local_1_a").2 = .launched "game.bin" [1, 2, 5] ∧
    getGame (playGame okEnv gappedDB "local_1_a").1.localGames "local_1_a" =
      some { threeChunkGame with lastPlayed := some 1700000000000, playCount := some 1 } := by
  decide

/-- C8 (amended): for every chunked title of the catalog, also one with chunks missing
from the chunk store, `playGame` does not fail when its requests succeed and
`window.openFile` exists: it hands over the file name of the first file entry and the
concatenation of the chunks that are present, saves the record with `lastPlayed` and
`playCount` updated, and leaves the chunk store as it was. -/
theorem playGame_chunked_skips_missing (env : Env) (db : DB) (gameId : String)
    (game : GameData) (fileInfo : FileEntry) (rest : List FileEntry) (chunkInfo : ChunkInfo)
    (hgame : getGame db.localGames gameId = some game)
    (hfiles : game.files = some (fileInfo :: rest))
    (huse : game.useChunks = true) (hchunked : fileInfo.isChunked = true)
    (hinfo : fileInfo.chunkInfo = some chunkInfo)
    (hload : env.ok (.getGame gameId) = true)
    (hget : ∀ j, j < chunkInfo.totalChunks → env.ok (.getChunk gameId j) = true)
    (hsave : env.ok (.putGame gameId) = true)
    (hopen : env.hasOpenFile = true) :
    playGame env db gameId =
      ({ db with localGames := putGame db.localGames (played env game) },
        .launched fileInfo.filename
          (presentChunks db gameId chunkInfo.totalChunks).flatten) := by
  have hid : game.id = gameId := getGame_id _ _ _ hgame
  unfold playGame
  simp only [loadGame, hload, if_true, hgame, hfiles, huse, hchunked, Bool.and_self, hinfo,
    loadChunkedFile_present env db gameId chunkInfo.totalChunks hget, launch, saveGame,
    hid, hsave, hopen, played]

/-- The title with chunk 1 missing is launched with chunks 0 and 2. -/
theorem playGame_chunked_skips_missing_witness :
    playGame okEnv gappedDB "local_1_a" =
      ({ gappedDB with localGames := putGame gappedDB.localGames (played okEnv threeChunkGame) },
        .launched "game.bin" (presentChunks gappedDB "local_1_a" 3).flatten) :=
  playGame_chunked_skips_missing okEnv gappedDB "local_1_a" threeChunkGame
    { filename := "game.bin", fullPath := none, data := none, size := 5, type := .bin,
      isChunked := true,
      chunkInfo := some { gameId := "local_1_a", totalChunks := 3, chunkSize := 2,
                          chunks := some ((List.range 3).map (chunkEntryAt 2 fiveBytes)) } }
    [] { gameId := "local_1_a", totalChunks := 3, chunkSize := 2,
         chunks := some ((List.range 3).map (chunkEntryAt 2 fiveBytes)) }
    (by decide) (by decide) rfl rfl rfl rfl (fun _ _ => rfl) rfl rfl

/-! ## What a successful install and a removal change -/

theorem getGame_deleteGame (games : List GameData) (gameId gid : String) :
    getGame (deleteGame games gameId) gid =
      if gid = gameId then none else getGame games gid := by
  unfold getGame deleteGame
  rw [List.find?_filter]
  by_cases h : gid = gameId
  · rw [if_pos h, List.find?_eq_none]
    intro x _
    simp only [Bool.not_eq_true', decide_eq_false_iff_not, decide_eq_true_eq, not_and]
    intro h1 h2
    exact h1 (h2.trans h)
  · rw [if_neg h]
    congr 1
    funext x
    by_cases hx : x.id = gid
    · simp [hx, h]
    · simp [hx]

theorem deleteGame_of_absent (games : List GameData) (gameId : String)
    (h : getGame games gameId = none) : deleteGame games gameId = games := by
  unfold getGame at h
  unfold deleteGame
  rw [List.filter_eq_self]
  intro x hx
  have := List.find?_eq_none.mp h x hx
  simpa using this

theorem chunksOf_filter_ne (chunks : List ChunkRecord) (gameId : String) :
    chunksOf (chunks.filter (fun c => !decide (c.gameId = gameId))) gameId = [] := by
  unfold chunksOf
  rw [List.filter_filter, List.filter_eq_nil_iff]
  intro c _
  by_cases h : c.gameId = gameId <;> simp [h]

theorem chunksOf_filter_other (chunks : List ChunkRecord) (gameId gid : String)
    (h : gid ≠ gameId) :
    chunksOf (chunks.filter (fun c => !decide (c.gameId = gameId))) gid = chunksOf chunks gid := by
  unfold chunksOf
  rw [List.filter_filter]
  apply List.filter_congr
  intro c _
  by_cases hc : c.gameId = gid
  · simp [hc, h]
  · simp [hc]

/-- Whatever the requests do, the loop of `storeFileAsChunks` leaves the catalog and the
chunks of every other title as they were. -/
theorem storeLoop_frame (env : Env) (chunkSize : Nat) (file : JSFile) (gameId : String) :
    ∀ (n i : Nat) (db : DB) (acc : List ChunkEntry),
      (storeLoop env chunkSize file gameId n i db acc).1.localGames = db.localGames ∧
      ∀ gid, gid ≠ gameId →
        chunksOf (storeLoop env chunkSize file gameId n i db acc).1.gameChunks gid =
          chunksOf db.gameChunks gid := by
  intro n
  induction n with
  | zero =>
    intro i db acc
    simp [storeLoop]
  | succ n ih =>
    intro i db acc
    rw [storeLoop]
    simp only [readFileChunk, saveChunk]
    by_cases hr : env.ok (.readSlice (i * chunkSize)
        (min (i * chunkSize + chunkSize) file.size)) = true
    · simp only [hr, if_true]
      by_cases hp : env.ok (.putChunk gameId i) = true
      · simp only [hp, if_true]
        have h := ih (i + 1)
          { db with
            gameChunks :=
              putChunk db.gameChunks
                { gameId := gameId, chunkIndex := i,
                  data := file.slice (i * chunkSize)
                    (min (i * chunkSize + chunkSize) file.size),
                  timestamp := env.now } }
          (acc ++ [{ index := i, start := i * chunkSize,
                     end_ := min (i * chunkSize + chunkSize) file.size,
                     size := (file.slice (i * chunkSize)
                       (min (i * chunkSize + chunkSize) file.size)).length }])
        refine ⟨h.1, fun gid hg => (h.2 gid hg).trans ?_⟩
        exact chunksOf_putChunk_ne _ _ _ (fun e => hg e.symm)
      · simp [hp]
    · simp [hr]

/-- A successful `storeFileAsChunks`: the returned record has the given id and
`useChunks = true`, it is the record put in the catalog, and the chunks of every other
title are untouched. -/
theorem storeFileAsChunks_effect (env : Env) (chunkSize : Nat) (db db1 : DB) (file : JSFile)
    (gameId name region : String) (g : GameData)
    (h : storeFileAsChunks env chunkSize db file gameId name region = (db1, .ok g)) :
    g.id = gameId ∧ g.useChunks = true ∧ db1.localGames = putGame db.localGames g ∧
      ∀ gid, gid ≠ gameId → chunksOf db1.gameChunks gid = chunksOf db.gameChunks gid := by
  have hframe := storeLoop_frame env chunkSize file gameId (ceilDiv file.size chunkSize) 0 db []
  unfold storeFileAsChunks at h
  simp only [saveGame] at h
  cases hs : storeLoop env chunkSize file gameId (ceilDiv file.size chunkSize) 0 db [] with
  | mk dbL r =>
    rw [hs] at h hframe
    cases r with
    | error e =>
      simp at h
    | ok chunks =>
      simp only at h
      by_cases hp : env.ok (.putGame gameId) = true
      · simp only [hp, if_true] at h
        obtain ⟨h1, h2⟩ := Prod.mk.inj h
        have h3 := Except.ok.inj h2
        subst h3
        subst h1
        refine ⟨rfl, rfl, ?_, ?_⟩
        · simp only []
          rw [hframe.1]
        · intro gid hg
          exact hframe.2 gid hg
      · simp [hp] at h

/-- A successful `installSmallFile`: the returned record has the generated id and
`useChunks = false`, it is the record put in the catalog, and no chunk is written. -/
theorem installSmallFile_effect (env : Env) (db db1 : DB) (file : JSFile)
    (name region : String) (g : GameData)
    (h : installSmallFile env db file name region = (db1, .ok g)) :
    g.id = newGameId env ∧ g.useChunks = false ∧ db1.localGames = putGame db.localGames g ∧
      db1.gameChunks = db.gameChunks := by
  unfold installSmallFile at h
  by_cases hr : env.ok .readFile = true
  · by_cases hp : env.ok (.putGame (newGameId env)) = true
    · simp only [hr, if_true, saveGame, hp] at h
      obtain ⟨h1, h2⟩ := Prod.mk.inj h
      have h3 := Except.ok.inj h2
      subst h3
      subst h1
      exact ⟨rfl, rfl, rfl, rfl⟩
    · simp [hr, saveGame, hp] at h
  · simp [hr] at h

/-- A successful archive branch of `installLargeFile`: the returned record has the
generated id and `useChunks = true`, it is the record put in the catalog, and the chunks
of every other title are untouched. -/
theorem installLargeFile_archive_effect (env : Env) (chunkSize : Nat) (db db1 : DB)
    (file : JSFile) (name region : String) (g : GameData)
    (hzip : endsWithLower file.name ".zip" = true)
    (h : installLargeFile env chunkSize db file name region = (db1, .ok g)) :
    g.id = newGameId env ∧ g.useChunks = true ∧ db1.localGames = putGame db.localGames g ∧
      ∀ gid, gid ≠ newGameId env → chunksOf db1.gameChunks gid = chunksOf db.gameChunks gid := by
  unfold installLargeFile at h
  simp only [hzip, Bool.not_true, Bool.false_eq_true, if_false, readFileAsArrayBuffer] at h
  by_cases hr : env.ok .readFile = true
  · by_cases hjs : env.hasJSZip = true
    · simp only [hr, if_true, hjs, Bool.not_true, Bool.false_eq_true, if_false] at h
      cases hd : env.loadAsync file.data with
      | none => simp [hd] at h
      | some zipData =>
        cases hm : findMainFileEntry zipData with
        | none => simp [hd, hm] at h
        | some entry =>
          cases he : entry.data with
          | none => simp [hd, hm, he] at h
          | some fileData =>
            by_cases hp : env.ok (.putGame (newGameId env)) = true
            · by_cases hc : env.ok (.putChunk (newGameId env) 0) = true
              · simp only [hd, hm, he, saveGame, hp, if_true, saveChunk, hc] at h
                obtain ⟨h1, h2⟩ := Prod.mk.inj h
                have h3 := Except.ok.inj h2
                subst h3
                subst h1
                refine ⟨rfl, rfl, rfl, fun gid hg => ?_⟩
                exact chunksOf_putChunk_ne _ _ _ (fun e => hg e.symm)
              · simp [hd, hm, he, saveGame, hp, saveChunk, hc] at h
            · simp [hd, hm, he, saveGame, hp] at h
    · simp [hr, hjs] at h
  · simp [hr] at h

/-- A successful `installGameFromFile`, whichever path it takes: the returned record has
the generated id, it is the record put in the catalog, the chunks of every other title
are untouched, and a record with `useChunks = false` comes with no chunk write at all. -/
theorem installGameFromFile_effect (env : Env) (chunkSize : Nat) (db db1 : DB)
    (file : JSFile) (name region : String) (g : GameData)
    (h : installGameFromFile env chunkSize db file name region = (db1, .ok g)) :
    g.id = newGameId env ∧ db1.localGames = putGame db.localGames g ∧
      (∀ gid, gid ≠ newGameId env →
        chunksOf db1.gameChunks gid = chunksOf db.gameChunks gid) ∧
      (g.useChunks = false → db1.gameChunks = db.gameChunks) := by
  by_cases hsize : 100 * 1024 * 1024 < file.size
  · rw [installGameFromFile_large env chunkSize db file name region hsize] at h
    by_cases hzip : endsWithLower file.name ".zip" = true
    · obtain ⟨h1, h2, h3, h4⟩ :=
        installLargeFile_archive_effect env chunkSize db db1 file name region g hzip h
      exact ⟨h1, h3, h4, fun hu => by rw [h2] at hu; cases hu⟩
    · have hz : endsWithLower file.name ".zip" = false := by simpa using hzip
      have hst : storeFileAsChunks env chunkSize db file (newGameId env) name region =
          (db1, .ok g) := by
        rw [← h]
        unfold installLargeFile
        simp [hz]
      obtain ⟨h1, h2, h3, h4⟩ :=
        storeFileAsChunks_effect env chunkSize db db1 file (newGameId env) name region g hst
      exact ⟨h1, h3, h4, fun hu => by rw [h2] at hu; cases hu⟩
  · rw [installGameFromFile_small env chunkSize db file name region (by omega)] at h
    obtain ⟨h1, h2, h3, h4⟩ := installSmallFile_effect env db db1 file name region g h
    exact ⟨h1, h3, fun gid _ => by rw [h4], fun _ => h4⟩

/-- A run of `removeGame` on a title of the catalog whose requests succeed, in closed form. -/
theorem removeGame_known (env : Env) (db : DB) (gameId : String) (g : GameData)
    (hgame : getGame db.localGames gameId = some g)
    (hload : env.ok (.getGame gameId) = true)
    (hchunks : env.ok (.deleteChunks gameId) = true)
    (hdelete : env.ok (.deleteGame gameId) = true) :
    removeGame env db gameId =
      ({ localGames := deleteGame db.localGames gameId,
         gameChunks := if g.useChunks = true then
             db.gameChunks.filter (fun c => !decide (c.gameId = gameId))
           else db.gameChunks },
        .ok true) := by
  unfold removeGame
  simp only [loadGame, hload, if_true, hgame, Option.map_some', Option.getD_some]
  by_cases hu : g.useChunks = true
  · simp [hu, removeChunks, hchunks, removeMetadata, hdelete]
  · simp [hu, removeMetadata, hdelete]

/-! ## C9, C10: removal -/

/-- C9 as stated fails: the chunk store of `staleDB` holds a chunk under the id that the
install of `fiveBytes` generates. The install (not stored in chunks) and a second install
succeed, `removeGame` of the first title resolves `true`, and the chunk is still there:
`removeGame` removes chunks only for a record with `useChunks`. -/
theorem install_install_remove_counterexample :
    installGameFromFile okEnv defaultChunkSize staleDB fiveBytes "A" "EU" =
      ({ staleDB with localGames := [directGameData okEnv fiveBytes "A" "EU"] },
        .ok (directGameData okEnv fiveBytes "A" "EU")) ∧
    installGameFromFile okEnvLater defaultChunkSize
        { staleDB with localGames := [directGameData okEnv fiveBytes "A" "EU"] }
        sixBytes "B" "US" =
      ({ staleDB with localGames := [directGameData okEnv fiveBytes "A" "EU",
          directGameData okEnvLater sixBytes "B" "US"] },
        .ok (directGameData okEnvLater sixBytes "B" "US")) ∧
    (directGameData okEnv fiveBytes "A" "EU").id ≠
      (directGameData okEnvLater sixBytes "B" "US").id ∧
    removeGame okEnv
        { staleDB with localGames := [directGameData okEnv fiveBytes "A" "EU",
          directGameData okEnvLater sixBytes "B" "US"] }
        (directGameData okEnv fiveBytes "A" "EU").id =
      ({ staleDB with localGames := [directGameData okEnvLater sixBytes "B" "US"] },
        .ok true) ∧
    chunksOf
        (removeGame okEnv
          { staleDB with localGames := [directGameData okEnv fiveBytes "A" "EU",
            directGameData okEnvLater sixBytes "B" "US"] }
          (directGameData okEnv fiveBytes "A" "EU").id).1.gameChunks
        (directGameData okEnv fiveBytes "A" "EU").id =
      [{ gameId := newGameId okEnv, chunkIndex := 0, data := [7], timestamp := 0 }] := by
  decide

/-- C9 (amended): install, install, remove. Let two installs through
`installGameFromFile` (any path) succeed one after the other with records `A` and `B` of
distinct ids, where `A` is stored in chunks or the stores held no chunk under the id of
`A` before. Then the catalog holds both records; and `removeGame(A.id)`, its requests
succeeding, resolves `true` and leaves a catalog that holds the record of `B` and none
for `A`, and a chunk store without any chunk keyed by the id of `A`. -/
theorem install_install_remove (envA envB envR : Env) (chunkSize : Nat) (db0 db1 db2 : DB)
    (fileA fileB : JSFile) (nameA regionA nameB regionB : String) (gA gB : GameData)
    (hA : installGameFromFile envA chunkSize db0 fileA nameA regionA = (db1, .ok gA))
    (hB : installGameFromFile envB chunkSize db1 fileB nameB regionB = (db2, .ok gB))
    (hne : gA.id ≠ gB.id)
    (hfresh : gA.useChunks = true ∨ chunksOf db0.gameChunks gA.id = [])
    (hload : envR.ok (.getGame gA.id) = true)
    (hchunks : envR.ok (.deleteChunks gA.id) = true)
    (hdelete : envR.ok (.deleteGame gA.id) = true) :
    getGame db2.localGames gA.id = some gA ∧
    getGame db2.localGames gB.id = some gB ∧
    (removeGame envR db2 gA.id).2 = .ok true ∧
    getGame (removeGame envR db2 gA.id).1.localGames gB.id = some gB ∧
    getGame (removeGame envR db2 gA.id).1.localGames gA.id = none ∧
    chunksOf (removeGame envR db2 gA.id).1.gameChunks gA.id = [] := by
  obtain ⟨hidA, hcatA, _, hsmallA⟩ :=
    installGameFromFile_effect envA chunkSize db0 db1 fileA nameA regionA gA hA
  obtain ⟨hidB, hcatB, hothersB, _⟩ :=
    installGameFromFile_effect envB chunkSize db1 db2 fileB nameB regionB gB hB
  have hgetA : getGame db2.localGames gA.id = some gA := by
    rw [hcatB, getGame_putGame, if_neg (fun e => hne e.symm), hcatA, getGame_putGame,
      if_pos rfl]
  have hgetB : getGame db2.localGames gB.id = some gB := by
    rw [hcatB, getGame_putGame, if_pos rfl]
  rw [removeGame_known envR db2 gA.id gA hgetA hload hchunks hdelete]
  refine ⟨hgetA, hgetB, rfl, ?_, ?_, ?_⟩
  · simp only []
    rw [getGame_deleteGame, if_neg (fun e => hne e.symm), hgetB]
  · simp only []
    rw [getGame_deleteGame, if_pos rfl]
  · simp only []
    by_cases hu : gA.useChunks = true
    · rw [if_pos hu, chunksOf_filter_ne]
    · rcases hfresh with hf | hf
      · exact absurd hf hu
      · rw [if_neg hu, hothersB gA.id (by rw [← hidB]; exact hne),
          hsmallA (by simpa using hu), hf]

theorem install_bigFile :
    installGameFromFile okEnv defaultChunkSize emptyDB bigFile "Big" "EU" =
      (afterBig, .ok bigGame) :=
  (installGameFromFile_large_direct okEnv defaultChunkSize emptyDB bigFile "Big" "EU"
      (by rw [bigFile_size]; decide) (by decide)).trans
    (storeFileAsChunks_ok okEnv defaultChunkSize emptyDB bigFile (newGameId okEnv)
      "Big" "EU" (fun _ _ => rfl) (fun _ _ => rfl) rfl)

theorem install_fiveBytes :
    installGameFromFile okEnvLater defaultChunkSize afterBig fiveBytes "Small" "US" =
      (afterBoth, .ok smallGame) :=
  (installGameFromFile_small okEnvLater defaultChunkSize afterBig fiveBytes "Small" "US"
      (by decide)).trans
    (installSmallFile_direct okEnvLater afterBig fiveBytes "Small" "US" (by decide) rfl rfl)

/-- A large chunked title, then a small one, into empty stores; the first is removed. -/
theorem install_install_remove_witness :
    getGame afterBoth.localGames bigGame.id = some bigGame ∧
    getGame afterBoth.localGames smallGame.id = some smallGame ∧
    (removeGame okEnv afterBoth bigGame.id).2 = .ok true ∧
    getGame (removeGame okEnv afterBoth bigGame.id).1.localGames smallGame.id =
      some smallGame ∧
    getGame (removeGame okEnv afterBoth bigGame.id).1.localGames bigGame.id = none ∧
    chunksOf (removeGame okEnv afterBoth bigGame.id).1.gameChunks bigGame.id = [] :=
  install_install_remove okEnv okEnvLater okEnv defaultChunkSize emptyDB afterBig afterBoth
    bigFile fiveBytes "Big" "EU" "Small" "US" bigGame smallGame install_bigFile
    install_fiveBytes (by decide) (Or.inr rfl) rfl rfl rfl

/-- C10: removing an unknown title is a no-op. For every store state and every id
without a catalog record, `removeGame(id)`, its two requests succeeding, resolves `true`
and leaves the catalog and the chunk store exactly as they were. -/
theorem removeGame_unknown_noop (env : Env) (db : DB) (gameId : String)
    (hnone : getGame db.localGames gameId = none)
    (hload : env.ok (.getGame gameId) = true)
    (hdelete : env.ok (.deleteGame gameId) = true) :
    removeGame env db gameId = (db, .ok true) := by
  unfold removeGame
  simp only [loadGame, hload, if_true, hnone, Option.map_none', Option.getD_none,
    Bool.false_eq_true, if_false, removeMetadata, hdelete,
    deleteGame_of_absent db.localGames gameId hnone]

/-- Removing an id that the stores of `gappedDB` do not know changes nothing. -/
theorem removeGame_unknown_noop_witness :
    removeGame okEnv gappedDB "local_0_unknown" = (gappedDB, .ok true) :=
  removeGame_unknown_noop okEnv gappedDB "local_0_unknown" (by decide) rfl rfl

/-! ## C11: main entry of a small archive -/

theorem endsWithLower_unique (s a b : String) (hlen : a.toList.length = b.toList.length)
    (ha : endsWithLower s a = true) (hb : endsWithLower s b = true) : a.toList = b.toList := by
  unfold endsWithLower at ha hb
  rw [List.isSuffixOf_iff_suffix] at ha hb
  exact (List.suffix_of_suffix_length_le ha hb (le_of_eq hlen)).eq_of_length hlen

theorem endsWithLower_excl (s a b : String) (hlen : a.toList.length = b.toList.length)
    (hne : a.toList ≠ b.toList) (ha : endsWithLower s a = true) :
    endsWithLower s b = false := by
  cases hb : endsWithLower s b with
  | false => rfl
  | true => exact absurd (endsWithLower_unique s a b hlen ha hb) hne

theorem isBin_eq (n : String) :
    decide (getFileType n = .bin) = endsWithLower n ".bin" := by
  unfold getFileType
  cases h1 : endsWithLower n ".bin" with
  | true => simp
  | false =>
    simp only [Bool.false_eq_true, if_false]
    repeat' split
    all_goals simp

theorem isIso_eq (n : String) :
    decide (getFileType n = .iso) = endsWithLower n ".iso" := by
  unfold getFileType
  cases h2 : endsWithLower n ".iso" with
  | true =>
    have h1 := endsWithLower_excl n ".iso" ".bin" (by decide) (by decide) h2
    simp [h1]
  | false =>
    simp only [Bool.false_eq_true, if_false]
    repeat' split
    all_goals simp

theorem isPbp_eq (n : String) :
    decide (getFileType n = .pbp) = endsWithLower n ".pbp" := by
  unfold getFileType
  cases h5 : endsWithLower n ".pbp" with
  | true =>
    have h1 := endsWithLower_excl n ".pbp" ".bin" (by decide) (by decide) h5
    have h2 := endsWithLower_excl n ".pbp" ".iso" (by decide) (by decide) h5
    have h3 := endsWithLower_excl n ".pbp" ".img" (by decide) (by decide) h5
    have h4 := endsWithLower_excl n ".pbp" ".cue" (by decide) (by decide) h5
    simp [h1, h2, h3, h4]
  | false =>
    simp only [Bool.false_eq_true, if_false]
    repeat' split
    all_goals simp

theorem extractAll_eq_map :
    ∀ (l : List ZipEntry), (∀ e ∈ l, e.data ≠ none) →
      extractAll l = some (l.map (fun e => extractedFile e (e.data.getD []))) := by
  intro l
  induction l with
  | nil => intro _; rfl
  | cons e rest ih =>
    intro h
    have he := h e (List.mem_cons_self e rest)
    cases hd : e.data with
    | none => exact absurd hd he
    | some d =>
      rw [extractAll, ih (fun x hx => h x (List.mem_cons_of_mem e hx))]
      simp [zipEntryToFile, hd, extractedFile]

theorem find?_filter_of_imp {α : Type} (p q : α → Bool) (h : ∀ x, q x = true → p x = true) :
    ∀ l : List α, (l.filter p).find? q = l.find? q := by
  intro l
  induction l with
  | nil => rfl
  | cons a l ih =>
    by_cases hq : q a = true
    · rw [List.filter_cons_of_pos (h a hq), List.find?_cons_of_pos _ hq,
        List.find?_cons_of_pos _ hq]
    · rw [List.find?_cons_of_neg _ hq]
      by_cases hp : p a = true
      · rw [List.filter_cons_of_pos hp, List.find?_cons_of_neg _ hq, ih]
      · rw [List.filter_cons_of_neg hp, ih]

/-- Keeping only the main files when there are some does not change what `playGame`
selects. -/
theorem selectMainFile_gameFilesOf (files : List FileEntry) :
    selectMainFile (gameFilesOf files) = selectMainFile files := by
  unfold gameFilesOf
  by_cases h : (files.filter (fun f => isMainType f.type)).length > 0
  · rw [if_pos h]
    obtain ⟨x, hx⟩ := List.exists_mem_of_length_pos h
    obtain ⟨hxmem, hxmain⟩ := List.mem_filter.mp hx
    unfold selectMainFile
    rw [find?_filter_of_imp _ _ (fun f hf => by
        simp only [decide_eq_true_eq] at hf
        simp [isMainType, hf]),
      find?_filter_of_imp _ _ (fun f hf => by
        simp only [decide_eq_true_eq] at hf
        simp [isMainType, hf]),
      find?_filter_of_imp _ _ (fun f hf => by
        simp only [decide_eq_true_eq] at hf
        simp [isMainType, hf])]
    cases hb : files.find? (fun f => decide (f.type = .bin)) with
    | some b => simp [Option.orElse]
    | none =>
      cases hi : files.find? (fun f => decide (f.type = .iso)) with
      | some b => simp [Option.orElse]
      | none =>
        cases hp : files.find? (fun f => decide (f.type = .pbp)) with
        | some b => simp [Option.orElse]
        | none =>
          exfalso
          have h1 := List.find?_eq_none.mp hb x hxmem
          have h2 := List.find?_eq_none.mp hi x hxmem
          have h3 := List.find?_eq_none.mp hp x hxmem
          simp only [decide_eq_true_eq] at h1 h2 h3
          simp [isMainType, h1, h2, h3] at hxmain
  · rw [if_neg h]

/-- On extracted files, the selection of `playGame` is the main entry of the
specification. -/
theorem selectMainFile_extracted (l : List ZipEntry) :
    selectMainFile (l.map (fun e => extractedFile e (e.data.getD []))) =
      (((l.find? (fun e => endsWithLower e.name ".bin")).orElse fun _ =>
        (l.find? (fun e => endsWithLower e.name ".iso")).orElse fun _ =>
          (l.find? (fun e => endsWithLower e.name ".pbp")).orElse fun _ => l.head?).map
        (fun e => extractedFile e (e.data.getD []))) := by
  unfold selectMainFile
  rw [List.find?_map, List.find?_map, List.find?_map, List.head?_map]
  have e1 : ((fun f : FileEntry => decide (f.type = .bin)) ∘
      fun e : ZipEntry => extractedFile e (e.data.getD [])) =
      fun e => endsWithLower e.name ".bin" := by
    funext e
    simp only [Function.comp, extractedFile]
    exact isBin_eq e.name
  have e2 : ((fun f : FileEntry => decide (f.type = .iso)) ∘
      fun e : ZipEntry => extractedFile e (e.data.getD [])) =
      fun e => endsWithLower e.name ".iso" := by
    funext e
    simp only [Function.comp, extractedFile]
    exact isIso_eq e.name
  have e3 : ((fun f : FileEntry => decide (f.type = .pbp)) ∘
      fun e : ZipEntry => extractedFile e (e.data.getD [])) =
      fun e => endsWithLower e.name ".pbp" := by
    funext e
    simp only [Function.comp, extractedFile]
    exact isPbp_eq e.name
  rw [e1, e2, e3]
  cases l.find? (fun e => endsWithLower e.name ".bin") <;>
    cases l.find? (fun e => endsWithLower e.name ".iso") <;>
      cases l.find? (fun e => endsWithLower e.name ".pbp") <;>
        simp [Option.orElse]

/-- A successful `installSmallFile` of an archive whose directory decodes and whose kept
entries all extract, in closed form. -/
theorem installSmallFile_archive (env : Env) (db : DB) (file : JSFile) (name region : String)
    (zipData : List ZipEntry)
    (hzip : endsWithLower file.name ".zip" = true)
    (hread : env.ok .readFile = true) (hjs : env.hasJSZip = true)
    (hdec : env.loadAsync file.data = some zipData)
    (hdata : ∀ e ∈ allowedEntries zipData, e.data ≠ none)
    (hsave : env.ok (.putGame (newGameId env)) = true) :
    installSmallFile env db file name region =
      ({ db with
         localGames :=
           putGame db.localGames
             (zipGameData env file name region
               (gameFilesOf ((allowedEntries zipData).map
                 (fun e => extractedFile e (e.data.getD []))))) },
        .ok (zipGameData env file name region
          (gameFilesOf ((allowedEntries zipData).map
            (fun e => extractedFile e (e.data.getD [])))))) := by
  have hex := extractAll_eq_map (allowedEntries zipData) hdata
  unfold allowedEntries at hex
  unfold installSmallFile
  simp only [hread, hzip, hjs, if_true, Bool.and_self, hdec, hex, saveGame, hsave,
    zipGameData, gameFilesOf, allowedEntries]

/-- A run of `playGame` on a title that is not chunked, in closed form. -/
theorem playGame_plain (env : Env) (db : DB) (gameId : String) (game : GameData)
    (files : List FileEntry) (mainFile : FileEntry) (fileData : Bytes)
    (hgame : getGame db.localGames gameId = some game)
    (hfiles : game.files = some files) (huse : game.useChunks = false)
    (hsel : selectMainFile files = some mainFile)
    (hdata : mainFile.data = some fileData)
    (hload : env.ok (.getGame gameId) = true)
    (hsave : env.ok (.putGame gameId) = true)
    (hopen : env.hasOpenFile = true) :
    playGame env db gameId =
      ({ db with localGames := putGame db.localGames (played env game) },
        .launched mainFile.filename fileData) := by
  have hid : game.id = gameId := getGame_id _ _ _ hgame
  cases files with
  | nil => simp [selectMainFile, Option.orElse] at hsel
  | cons f rest =>
    unfold playGame
    simp only [loadGame, hload, if_true, hgame, hfiles, huse, Bool.false_and,
      Bool.false_eq_true, if_false, hsel, launch, hdata, saveGame, hid, hsave, hopen, played]

theorem specMainEntry_mem (zipData : List ZipEntry) (e : ZipEntry)
    (h : specMainEntry zipData = some e) : e ∈ allowedEntries zipData := by
  unfold specMainEntry at h
  cases h1 : (allowedEntries zipData).find? (fun e => endsWithLower e.name ".bin") with
  | some x =>
    simp only [h1, Option.orElse] at h
    cases h
    exact List.mem_of_find?_eq_some h1
  | none =>
    cases h2 : (allowedEntries zipData).find? (fun e => endsWithLower e.name ".iso") with
    | some x =>
      simp only [h1, h2, Option.orElse] at h
      cases h
      exact List.mem_of_find?_eq_some h2
    | none =>
      cases h3 : (allowedEntries zipData).find? (fun e => endsWithLower e.name ".pbp") with
      | some x =>
        simp only [h1, h2, h3, Option.orElse] at h
        cases h
        exact List.mem_of_find?_eq_some h3
      | none =>
        simp only [h1, h2, h3, Option.orElse] at h
        exact List.mem_of_mem_head? h

/-- C11: main-entry priority for a small archive. Let a `.zip` source of at most 100 MiB
decode to a directory whose allow-listed entries all extract, and let the main entry in
the words of the specification (a `.bin` entry if one exists, otherwise an `.iso` entry,
otherwise a `.pbp` entry, otherwise the first allow-listed entry) be `e`. Then the install
succeeds and `playGame` on the new title hands over the last path segment of the name of
`e` and the bytes of `e`; and `e` is not a directory and is on the allow-list. -/
theorem small_archive_main_entry (env envP : Env) (chunkSize : Nat) (db : DB) (file : JSFile)
    (name region : String) (zipData : List ZipEntry) (e : ZipEntry) (fileData : Bytes)
    (hzip : endsWithLower file.name ".zip" = true)
    (hsize : file.size ≤ 100 * 1024 * 1024)
    (hread : env.ok .readFile = true) (hjs : env.hasJSZip = true)
    (hdec : env.loadAsync file.data = some zipData)
    (hdata : ∀ x ∈ allowedEntries zipData, x.data ≠ none)
    (hsave : env.ok (.putGame (newGameId env)) = true)
    (hmain : specMainEntry zipData = some e)
    (hbytes : e.data = some fileData)
    (hload : envP.ok (.getGame (newGameId env)) = true)
    (hstat : envP.ok (.putGame (newGameId env)) = true)
    (hopen : envP.hasOpenFile = true) :
    ∃ (db1 : DB) (g : GameData),
      installGameFromFile env chunkSize db file name region = (db1, .ok g) ∧
      (playGame envP db1 g.id).2 = .launched (lastSegment e.name) fileData ∧
      e.dir = false ∧ acceptedPath e.name = true := by
  have hinst := (installGameFromFile_small env chunkSize db file name region hsize).trans
    (installSmallFile_archive env db file name region zipData hzip hread hjs hdec hdata hsave)
  have hmem := specMainEntry_mem zipData e hmain
  have hallowed : e.dir = false ∧ acceptedPath e.name = true := by
    have := (List.mem_filter.mp hmem).2
    simpa using this
  refine ⟨_, _, hinst, ?_, hallowed.1, hallowed.2⟩
  have hsel : selectMainFile (gameFilesOf ((allowedEntries zipData).map
      (fun e => extractedFile e (e.data.getD [])))) =
      some (extractedFile e fileData) := by
    rw [selectMainFile_gameFilesOf, selectMainFile_extracted]
    unfold specMainEntry at hmain
    rw [hmain]
    simp [hbytes]
  have hid : (zipGameData env file name region (gameFilesOf ((allowedEntries zipData).map
      (fun e => extractedFile e (e.data.getD []))))).id = newGameId env := rfl
  rw [hid, playGame_plain envP _ (newGameId env) _ _ (extractedFile e fileData) fileData
    (by
      simp only []
      rw [getGame_putGame, if_pos hid])
    rfl rfl hsel rfl hload hstat hopen]
  rfl

/-- The example of the specification: from `game.cue`, `game.bin`, `readme.txt` the entry
played is `game.bin`. -/
theorem small_archive_main_entry_witness :
    ∃ (db1 : DB) (g : GameData),
      installGameFromFile cueBinReadmeEnv defaultChunkSize emptyDB smallZip "Game" "EU" =
        (db1, .ok g) ∧
      (playGame okEnv db1 g.id).2 = .launched (lastSegment "game.bin") [7, 8] ∧
      false = false ∧ acceptedPath "game.bin" = true :=
  small_archive_main_entry cueBinReadmeEnv okEnv defaultChunkSize emptyDB smallZip
    "Game" "EU" cueBinReadme { name := "game.bin", dir := false, data := some [7, 8] } [7, 8]
    (by decide) (by decide) rfl rfl rfl (by decide) rfl (by decide) rfl rfl rfl rfl

/-! ## C12: main entry of a large archive -/

theorem findMainFileEntry_eq (zipData : List ZipEntry) :
    findMainFileEntry zipData = zipData.find? mainCandidate := rfl

/-- C12 as stated fails: the directory `cueImg` of a large archive has allow-listed
entries (the specification's choice is `game.cue`), yet `installLargeFile` chooses none
and the install fails. -/
theorem large_archive_fallback_counterexample :
    specMainEntry cueImg = some { name := "game.cue", dir := false, data := some [9] } ∧
    installGameFromFile cueImgEnv defaultChunkSize emptyDB bigZip "Game" "EU" =
      (emptyDB, .error "Nenhum arquivo BIN/ISO encontrado no ZIP") := by
  refine ⟨by decide, ?_⟩
  rw [installGameFromFile_large cueImgEnv defaultChunkSize emptyDB bigZip "Game" "EU"
    (by rw [bigZip_size]; decide)]
  unfold installLargeFile
  have hz : endsWithLower bigZip.name ".zip" = true := by decide
  have hm : findMainFileEntry cueImg = none := by decide
  have hd : cueImgEnv.loadAsync bigZip.data = some cueImg := rfl
  have hr : cueImgEnv.ok .readFile = true := rfl
  have hj : cueImgEnv.hasJSZip = true := rfl
  simp only [hz, Bool.not_true, Bool.false_eq_true, if_false, readFileAsArrayBuffer, hr,
    if_true, hj, hd, hm]

/-- In a large archive the first of the `.bin`, `.iso`, `.pbp` entries in directory order
is taken: with `game.iso` before `game.bin` the installed file is `game.iso`. -/
theorem large_archive_directory_order_example :
    ∃ (db1 : DB) (g : GameData),
      installGameFromFile isoThenBinEnv defaultChunkSize emptyDB bigZip "Game" "EU" =
        (db1, .ok g) ∧
      (g.files.getD []).map (fun f => f.filename) = ["game.iso"] := by
  have h := (installGameFromFile_large isoThenBinEnv defaultChunkSize emptyDB bigZip "Game" "EU"
      (by rw [bigZip_size]; decide)).trans
    (installLargeFile_archive isoThenBinEnv defaultChunkSize emptyDB bigZip "Game" "EU"
      isoThenBin { name := "game.iso", dir := false, data := some [1, 2] } [1, 2]
      (by decide) rfl rfl rfl (by decide) rfl rfl)
  have hc : isoThenBinEnv.ok (.putChunk (newGameId isoThenBinEnv) 0) = true := rfl
  simp only [saveChunk, hc, if_true] at h
  refine ⟨_, _, h, ?_⟩
  decide

/-- C12 (amended): for every archive of more than 100 MiB whose directory decodes,
`installLargeFile` only ever chooses a non-directory entry whose name ends in `.bin`,
`.iso` or `.pbp`. When the directory holds such entries, they extract and the two writes
succeed, the install succeeds and its single file entry is one of them (file name the last
path segment of the entry name, data the bytes of the entry). When the directory holds
none, also when it holds other allow-listed entries, the install fails with the error
`Nenhum arquivo BIN/ISO encontrado no ZIP` and both stores are as before. -/
theorem large_archive_main_entry (env : Env) (chunkSize : Nat) (db : DB) (file : JSFile)
    (name region : String) (zipData : List ZipEntry)
    (hsize : 100 * 1024 * 1024 < file.size)
    (hzip : endsWithLower file.name ".zip" = true)
    (hread : env.ok .readFile = true) (hjs : env.hasJSZip = true)
    (hdec : env.loadAsync file.data = some zipData) :
    ((∃ e ∈ zipData, mainCandidate e = true) →
      (∀ e ∈ zipData, mainCandidate e = true → e.data ≠ none) →
      env.ok (.putGame (newGameId env)) = true →
      env.ok (.putChunk (newGameId env) 0) = true →
      ∃ (db1 : DB) (g : GameData) (e : ZipEntry) (fileData : Bytes),
        installGameFromFile env chunkSize db file name region = (db1, .ok g) ∧
        e ∈ zipData ∧ mainCandidate e = true ∧ e.data = some fileData ∧
        (g.files.getD []).map (fun f => (f.filename, f.data)) =
          [(lastSegment e.name, some fileData)]) ∧
    ((∀ e ∈ zipData, mainCandidate e = false) →
      installGameFromFile env chunkSize db file name region =
        (db, .error "Nenhum arquivo BIN/ISO encontrado no ZIP")) := by
  rw [installGameFromFile_large env chunkSize db file name region hsize]
  constructor
  · intro hex hdata hsave hchunk
    have hsome : (findMainFileEntry zipData).isSome = true := by
      rw [findMainFileEntry_eq, List.find?_isSome]
      exact hex
    obtain ⟨e, he⟩ := Option.isSome_iff_exists.mp hsome
    have hmem : e ∈ zipData := List.mem_of_find?_eq_some he
    have hcand : mainCandidate e = true := by
      rw [findMainFileEntry_eq] at he
      exact List.find?_some he
    cases hd : e.data with
    | none => exact absurd hd (hdata e hmem hcand)
    | some fileData =>
      have h := installLargeFile_archive env chunkSize db file name region zipData e fileData
        hzip hread hjs hdec he hd hsave
      simp only [saveChunk, hchunk, if_true] at h
      exact ⟨_, _, e, fileData, h, hmem, hcand, hd, rfl⟩
  · intro hnone
    have hm : findMainFileEntry zipData = none := by
      rw [findMainFileEntry_eq, List.find?_eq_none]
      intro x hx
      rw [hnone x hx]
      decide
    unfold installLargeFile
    simp only [hzip, Bool.not_true, Bool.false_eq_true, if_false, readFileAsArrayBuffer, hread,
      if_true, hjs, hdec, hm]

/-- A large archive with `game.cue`, `game.bin`, `readme.txt` installs `game.bin`; one
with `game.cue` and `game.img` only fails. -/
theorem large_archive_main_entry_witness :
    (∃ (db1 : DB) (g : GameData) (e : ZipEntry) (fileData : Bytes),
        installGameFromFile threeEntriesEnv defaultChunkSize emptyDB bigZip "Game" "EU" =
          (db1, .ok g) ∧
        e ∈ threeEntries ∧ mainCandidate e = true ∧ e.data = some fileData ∧
        (g.files.getD []).map (fun f => (f.filename, f.data)) =
          [(lastSegment e.name, some fileData)]) ∧
    installGameFromFile cueImgEnv defaultChunkSize emptyDB bigZip "Game" "EU" =
      (emptyDB, .error "Nenhum arquivo BIN/ISO encontrado no ZIP") :=
  ⟨(large_archive_main_entry threeEntriesEnv defaultChunkSize emptyDB bigZip "Game" "EU"
      threeEntries (by rw [bigZip_size]; decide) (by decide) rfl rfl rfl).1
      (by decide) (by decide) rfl rfl,
   (large_archive_main_entry cueImgEnv defaultChunkSize emptyDB bigZip "Game" "EU"
      cueImg (by rw [bigZip_size]; decide) (by decide) rfl rfl rfl).2 (by decide)⟩

/-! ## C13: an archive that fails to decode -/

/-- The fallback of `installSmallFile` when `zip.loadAsync` rejects, in closed form: one
file entry of type `direct` around the bytes read. -/
theorem installSmallFile_decode_failure (env : Env) (db : DB) (file : JSFile)
    (name region : String)
    (hzip : endsWithLower file.name ".zip" = true)
    (hread : env.ok .readFile = true) (hjs : env.hasJSZip = true)
    (hdec : env.loadAsync file.data = none)
    (hsave : env.ok (.putGame (newGameId env)) = true) :
    installSmallFile env db file name region =
      ({ db with
         localGames :=
           putGame db.localGames
             (zipGameData env file name region
               [{ filename := file.name, fullPath := none, data := some file.data,
                  size := file.size, type := .direct, isChunked := false,
                  chunkInfo := none }]) },
        .ok (zipGameData env file name region
          [{ filename := file.name, fullPath := none, data := some file.data,
             size := file.size, type := .direct, isChunked := false,
             chunkInfo := none }])) := by
  unfold installSmallFile
  simp [hread, hzip, hjs, hdec, saveGame, hsave, zipGameData, isMainType, JSFile.size]

/-- A large archive that fails to decode makes `installLargeFile` fail: the error of
`zip.loadAsync` is rethrown and no store is touched. -/
theorem installLargeFile_decode_failure (env : Env) (chunkSize : Nat) (db : DB)
    (file : JSFile) (name region : String)
    (hzip : endsWithLower file.name ".zip" = true)
    (hread : env.ok .readFile = true) (hjs : env.hasJSZip = true)
    (hdec : env.loadAsync file.data = none) :
    installLargeFile env chunkSize db file name region =
      (db, .error "loadAsync: corrupted zip") := by
  unfold installLargeFile
  simp only [hzip, Bool.not_true, Bool.false_eq_true, if_false, readFileAsArrayBuffer, hread,
    if_true, hjs, hdec]

/-- C13 as stated fails: the small archive `smallZip` does not decode, the install
completes, and the single file entry has type `direct`, not `other`. -/
theorem decode_failure_type_counterexample :
    okEnv.loadAsync smallZip.data = none ∧
    ∃ (db1 : DB) (g : GameData),
      installGameFromFile okEnv defaultChunkSize emptyDB smallZip "Game" "EU" = (db1, .ok g) ∧
      (g.files.getD []).map (fun f => f.type) = [FileType.direct] ∧
      (g.files.getD []).map (fun f => f.type) ≠ [FileType.other] := by
  have h := (installGameFromFile_small okEnv defaultChunkSize emptyDB smallZip "Game" "EU"
      (by decide)).trans
    (installSmallFile_decode_failure okEnv emptyDB smallZip "Game" "EU" (by decide) rfl rfl
      rfl rfl)
  exact ⟨rfl, _, _, h, by decide, by decide⟩

/-- C13 (amended): for every source named `.zip` of at most 100 MiB whose container fails
to decode, the install does not fail (its read and its record write succeeding): it
completes with a record, present in the catalog, whose files list is a single entry
wrapping the original bytes (file name the source file name, size the byte length of the
source) with type `direct`. -/
theorem small_archive_decode_failure_degrades (env : Env) (chunkSize : Nat) (db : DB)
    (file : JSFile) (name region : String)
    (hzip : endsWithLower file.name ".zip" = true)
    (hsize : file.size ≤ 100 * 1024 * 1024)
    (hread : env.ok .readFile = true) (hjs : env.hasJSZip = true)
    (hdec : env.loadAsync file.data = none)
    (hsave : env.ok (.putGame (newGameId env)) = true) :
    ∃ (db1 : DB) (g : GameData),
      installGameFromFile env chunkSize db file name region = (db1, .ok g) ∧
      getGame db1.localGames g.id = some g ∧
      g.files = some [{ filename := file.name, fullPath := none, data := some file.data,
                        size := file.data.length, type := .direct, isChunked := false,
                        chunkInfo := none }] := by
  have h := (installGameFromFile_small env chunkSize db file name region hsize).trans
    (installSmallFile_decode_failure env db file name region hzip hread hjs hdec hsave)
  refine ⟨_, _, h, ?_, rfl⟩
  simp only []
  rw [getGame_putGame, if_pos rfl]

/-- The small archive `smallZip`, which does not decode, is installed as one `direct`
entry. -/
theorem small_archive_decode_failure_degrades_witness :
    ∃ (db1 : DB) (g : GameData),
      installGameFromFile okEnv defaultChunkSize emptyDB smallZip "Game" "EU" = (db1, .ok g) ∧
      getGame db1.localGames g.id = some g ∧
      g.files = some [{ filename := "game.zip", fullPath := none, data := some [80, 75, 3, 4],
                        size := 4, type := .direct, isChunked := false,
                        chunkInfo := none }] :=
  small_archive_decode_failure_degrades okEnv defaultChunkSize emptyDB smallZip "Game" "EU"
    (by decide) (by decide) rfl rfl rfl rfl

/-! ## C14: an archive without a playable entry -/

/-- C14 (the small path misses the check): for every `.zip` source of at most 100 MiB
whose directory decodes and holds no allow-listed entry, `installSmallFile` does not fail:
it saves, and returns, a record whose files list is empty, a record that `playGame`
then refuses as not found or corrupted. -/
theorem small_archive_without_entry_is_installed (env envP : Env) (chunkSize : Nat) (db : DB)
    (file : JSFile) (name region : String) (zipData : List ZipEntry)
    (hzip : endsWithLower file.name ".zip" = true)
    (hsize : file.size ≤ 100 * 1024 * 1024)
    (hread : env.ok .readFile = true) (hjs : env.hasJSZip = true)
    (hdec : env.loadAsync file.data = some zipData)
    (hnone : allowedEntries zipData = [])
    (hsave : env.ok (.putGame (newGameId env)) = true)
    (hload : envP.ok (.getGame (newGameId env)) = true) :
    ∃ (db1 : DB) (g : GameData),
      installGameFromFile env chunkSize db file name region = (db1, .ok g) ∧
      g.files = some [] ∧
      getGame db1.localGames g.id = some g ∧
      playGame envP db1 g.id = (db1, .failed "Jogo não encontrado ou corrompido") := by
  have h := (installGameFromFile_small env chunkSize db file name region hsize).trans
    (installSmallFile_archive env db file name region zipData hzip hread hjs hdec
      (by rw [hnone]; intro e he; cases he) hsave)
  rw [hnone] at h
  have hg : gameFilesOf (List.map (fun e : ZipEntry => extractedFile e (e.data.getD [])) []) =
      [] := by decide
  rw [hg] at h
  have hid : (zipGameData env file name region []).id = newGameId env := rfl
  have hget : getGame (putGame db.localGames (zipGameData env file name region []))
      (newGameId env) = some (zipGameData env file name region []) := by
    rw [getGame_putGame, if_pos hid]
  refine ⟨_, _, h, rfl, ?_, ?_⟩
  · simp only [hid]
    exact hget
  · unfold playGame
    simp only [hid, loadGame, hload, if_true, hget]
    rfl

/-- A small archive that holds only a folder and a text file is installed with no file. -/
theorem small_archive_without_entry_is_installed_witness :
    ∃ (db1 : DB) (g : GameData),
      installGameFromFile readmeOnlyEnv defaultChunkSize emptyDB smallZip "Game" "EU" =
        (db1, .ok g) ∧
      g.files = some [] ∧
      getGame db1.localGames g.id = some g ∧
      playGame okEnv db1 g.id = (db1, .failed "Jogo não encontrado ou corrompido") :=
  small_archive_without_entry_is_installed readmeOnlyEnv okEnv defaultChunkSize emptyDB smallZip
    "Game" "EU" readmeOnly (by decide) (by decide) rfl rfl rfl (by decide) rfl rfl

/-! ## C15: listing order -/

theorem mem_insertSorted {α : Type} (cmp : α → α → Int) (a x : α) :
    ∀ l : List α, x ∈ insertSorted cmp a l ↔ x = a ∨ x ∈ l := by
  intro l
  induction l with
  | nil => simp [insertSorted]
  | cons b l ih =>
    unfold insertSorted
    by_cases h : cmp a b ≤ 0
    · rw [if_pos h]
      simp
    · rw [if_neg h, List.mem_cons, ih, List.mem_cons]
      tauto

theorem perm_insertSorted {α : Type} (cmp : α → α → Int) (a : α) :
    ∀ l : List α, (insertSorted cmp a l).Perm (a :: l) := by
  intro l
  induction l with
  | nil => exact List.Perm.refl _
  | cons b l ih =>
    unfold insertSorted
    by_cases h : cmp a b ≤ 0
    · rw [if_pos h]
    · rw [if_neg h]
      exact (List.Perm.cons b ih).trans (List.Perm.swap a b l)

theorem perm_arraySort {α : Type} (cmp : α → α → Int) :
    ∀ l : List α, (arraySort cmp l).Perm l := by
  intro l
  induction l with
  | nil => exact List.Perm.refl _
  | cons a l ih =>
    unfold arraySort
    exact (perm_insertSorted cmp a _).trans (List.Perm.cons a ih)

theorem pairwise_insertSorted {α : Type} (cmp : α → α → Int) (key : α → Nat) (a : α) :
    ∀ l : List α, (∀ x ∈ l, cmp a x ≤ 0 ↔ key x ≤ key a) →
      l.Pairwise (fun p q => key q ≤ key p) →
      (insertSorted cmp a l).Pairwise (fun p q => key q ≤ key p) := by
  intro l
  induction l with
  | nil =>
    intro _ _
    simp [insertSorted]
  | cons b l ih =>
    intro hcmp hl
    have hb : ∀ {x : α}, x ∈ l → key x ≤ key b := fun hx => List.rel_of_pairwise_cons hl hx
    unfold insertSorted
    by_cases h : cmp a b ≤ 0
    · rw [if_pos h]
      have hab : key b ≤ key a := (hcmp b (List.mem_cons_self b l)).mp h
      refine List.Pairwise.cons ?_ hl
      intro x hx
      rcases List.mem_cons.mp hx with rfl | hx
      · exact hab
      · exact le_trans (hb hx) hab
    · rw [if_neg h]
      have hab : ¬ key b ≤ key a := fun e => h ((hcmp b (List.mem_cons_self b l)).mpr e)
      refine List.Pairwise.cons ?_
        (ih (fun x hx => hcmp x (List.mem_cons_of_mem b hx)) (List.Pairwise.of_cons hl))
      intro x hx
      rcases (mem_insertSorted cmp a x l).mp hx with rfl | hx
      · omega
      · exact hb hx

theorem pairwise_arraySort {α : Type} (cmp : α → α → Int) (key : α → Nat) :
    ∀ l : List α, (∀ x ∈ l, ∀ y ∈ l, cmp x y ≤ 0 ↔ key y ≤ key x) →
      (arraySort cmp l).Pairwise (fun p q => key q ≤ key p) := by
  intro l
  induction l with
  | nil =>
    intro _
    simp [arraySort]
  | cons a l ih =>
    intro h
    unfold arraySort
    apply pairwise_insertSorted
    · intro x hx
      exact h a (List.mem_cons_self a l) x
        (List.mem_cons_of_mem a ((perm_arraySort cmp l).mem_iff.mp hx))
    · exact ih (fun x hx y hy =>
        h x (List.mem_cons_of_mem a hx) y (List.mem_cons_of_mem a hy))

/-! ### Sorting with a consistent comparator -/

theorem consistent_flip {α : Type} (cmp : α → α → Int) (l : List α)
    (h : ConsistentComparator cmp l) (a b : α) (ha : a ∈ l) (hb : b ∈ l)
    (hab : cmp a b < 0) : 0 < cmp b a := by
  obtain ⟨hrefl, _, _, hlt, _⟩ := h a ha b hb a ha
  obtain ⟨_, hsym, _, _, _⟩ := h b hb a ha a ha
  rcases lt_trichotomy (cmp b a) 0 with hba | hba | hba
  · have := hlt hab hba
    omega
  · have := hsym hba
    omega
  · exact hba

theorem consistent_step {α : Type} (cmp : α → α → Int) (l : List α)
    (h : ConsistentComparator cmp l) (a b x : α) (ha : a ∈ l) (hb : b ∈ l) (hx : x ∈ l)
    (hab : cmp a b ≤ 0) (hxb : ¬ cmp x b < 0) : ¬ cmp x a < 0 := by
  intro hxa
  have hax := consistent_flip cmp l h x a hx ha hxa
  obtain ⟨_, _, _, hlt, _⟩ := h x hx a ha b hb
  obtain ⟨_, _, _, _, hgt⟩ := h a ha x hx b hb
  obtain ⟨_, hsym, _, _, _⟩ := h x hx b hb b hb
  obtain ⟨_, _, heq, _, _⟩ := h a ha b hb x hx
  rcases lt_or_eq_of_le hab with hab | hab
  · exact hxb (hlt hxa hab)
  · rcases lt_trichotomy (cmp x b) 0 with hxb1 | hxb1 | hxb1
    · exact hxb hxb1
    · have := heq hab (hsym hxb1)
      omega
    · have := hgt hax hxb1
      omega

theorem sorted_insertSorted {α : Type} (cmp : α → α → Int) (all : List α)
    (h : ConsistentComparator cmp all) (a : α) (ha : a ∈ all) :
    ∀ l : List α, (∀ x ∈ l, x ∈ all) →
      l.Pairwise (fun p q => ¬ cmp q p < 0) →
      (insertSorted cmp a l).Pairwise (fun p q => ¬ cmp q p < 0) := by
  intro l
  induction l with
  | nil =>
    intro _ _
    simp [insertSorted]
  | cons b l ih =>
    intro hmem hl
    have hb : b ∈ all := hmem b (List.mem_cons_self b l)
    have hbl : ∀ {x : α}, x ∈ l → ¬ cmp x b < 0 := fun hx => List.rel_of_pairwise_cons hl hx
    unfold insertSorted
    by_cases hab : cmp a b ≤ 0
    · rw [if_pos hab]
      refine List.Pairwise.cons ?_ hl
      intro x hx
      rcases List.mem_cons.mp hx with rfl | hx
      · intro hxa
        have := consistent_flip cmp all h x a hb ha hxa
        omega
      · exact consistent_step cmp all h a b x ha hb (hmem x (List.mem_cons_of_mem b hx)) hab
          (hbl hx)
    · rw [if_neg hab]
      refine List.Pairwise.cons ?_
        (ih (fun x hx => hmem x (List.mem_cons_of_mem b hx)) (List.Pairwise.of_cons hl))
      intro x hx
      rcases (mem_insertSorted cmp a x l).mp hx with rfl | hx
      · omega
      · exact hbl hx

/-- The insertion sort `arraySort` keeps what the language promises of a sort. -/
theorem arraySort_contract {α : Type} : SortContract (@arraySort α) := by
  intro cmp l
  refine ⟨perm_arraySort cmp l, fun h => ?_⟩
  have key : ∀ l1 : List α, (∀ x ∈ l1, x ∈ l) →
      (arraySort cmp l1).Pairwise (fun p q => ¬ cmp q p < 0) := by
    intro l1
    induction l1 with
    | nil =>
      intro _
      simp [arraySort]
    | cons a l1 ih =>
      intro hmem
      unfold arraySort
      apply sorted_insertSorted cmp l h a (hmem a (List.mem_cons_self a l1))
      · intro x hx
        exact hmem x (List.mem_cons_of_mem a ((perm_arraySort cmp l1).mem_iff.mp hx))
      · exact ih (fun x hx => hmem x (List.mem_cons_of_mem a hx))
  exact key l (fun x hx => hx)

/-- On titles that all have a `lastPlayed` or all lack one, the comparator is the
difference of the two sort keys. -/
theorem compareGames_eq_keys (games : List GameData)
    (hom : (∀ g ∈ games, g.lastPlayed ≠ none) ∨ (∀ g ∈ games, g.lastPlayed = none)) :
    ∀ x ∈ games, ∀ y ∈ games, compareGames x y = (specKey y : Int) - (specKey x : Int) := by
  intro x hx y hy
  rcases hom with h | h
  · cases hx1 : x.lastPlayed with
    | none => exact absurd hx1 (h x hx)
    | some lx =>
      cases hy1 : y.lastPlayed with
      | none => exact absurd hy1 (h y hy)
      | some ly => simp only [compareGames, specKey, hx1, hy1, Option.getD_some]
  · simp only [compareGames, specKey, h x hx, h y hy, Option.getD_none]

theorem compareGames_consistent (games : List GameData)
    (hom : (∀ g ∈ games, g.lastPlayed ≠ none) ∨ (∀ g ∈ games, g.lastPlayed = none)) :
    ConsistentComparator compareGames games := by
  have hkey := compareGames_eq_keys games hom
  intro a ha b hb c hc
  rw [hkey a ha a ha, hkey a ha b hb, hkey b hb a ha, hkey b hb c hc, hkey a ha c hc]
  refine ⟨?_, ?_, ?_, ?_, ?_⟩ <;> omega

/-- The keys of a sorted listing of titles that all have a `lastPlayed` or all lack one
are in descending order, whatever sort the engine runs. -/
theorem sorted_keys (sort : (GameData → GameData → Int) → List GameData → List GameData)
    (hsort : SortContract sort) (games : List GameData)
    (hom : (∀ g ∈ games, g.lastPlayed ≠ none) ∨ (∀ g ∈ games, g.lastPlayed = none)) :
    (sort compareGames games).Pairwise (fun p q => specKey q ≤ specKey p) := by
  obtain ⟨hperm, hsorted⟩ := hsort compareGames games
  have hkey := compareGames_eq_keys games hom
  refine List.Pairwise.imp_of_mem ?_ (hsorted (compareGames_consistent games hom))
  intro p q hp hq hpq
  rw [hkey q (hperm.mem_iff.mp hq) p (hperm.mem_iff.mp hp)] at hpq
  omega

/-- C15 as stated fails: `playedGame` has the later key (it was played after `newerGame`
was installed), yet every sort that keeps what the language promises lists `newerGame`
first, because a title without `lastPlayed` is compared by `installedDate` on both
sides. -/
theorem listing_order_counterexample :
    specKey newerGame < specKey playedGame ∧
    compareGames newerGame playedGame < 0 ∧
    ∀ sort : (GameData → GameData → Int) → List GameData → List GameData,
      SortContract sort →
        loadInstalledGames sort okEnv twoGamesDB = .ok [newerGame, playedGame] := by
  refine ⟨by decide, by decide, fun sort hsort => ?_⟩
  have hrun : loadInstalledGames sort okEnv twoGamesDB =
      .ok (sort compareGames [playedGame, newerGame]) := rfl
  rw [hrun]
  obtain ⟨hperm, hsorted⟩ := hsort compareGames [playedGame, newerGame]
  have hcons : ConsistentComparator compareGames [playedGame, newerGame] := by
    unfold ConsistentComparator
    decide
  have hpair := hsorted hcons
  have hlen := hperm.length_eq
  have hne : playedGame ≠ newerGame := by decide
  have hp : playedGame ∈ sort compareGames [playedGame, newerGame] :=
    hperm.mem_iff.mpr (by simp)
  have hn : newerGame ∈ sort compareGames [playedGame, newerGame] :=
    hperm.mem_iff.mpr (by simp)
  generalize sort compareGames [playedGame, newerGame] = shown at hperm hpair hlen hp hn
  match shown, hlen with
  | [x, y], _ =>
    have hx : x = playedGame ∨ x = newerGame := by
      have := hperm.mem_iff.mp (List.mem_cons_self x [y])
      simpa using this
    rcases hx with hx | hx
    · exfalso
      subst hx
      have hy : y = newerGame := by
        rcases List.mem_cons.mp hn with h | h
        · exact absurd h.symm hne
        · exact (List.mem_singleton.mp h).symm
      subst hy
      have := List.rel_of_pairwise_cons hpair (List.mem_singleton_self _)
      exact this (by decide)
    · subst hx
      have hy : y = playedGame := by
        rcases List.mem_cons.mp hp with h | h
        · exact absurd h hne
        · exact (List.mem_singleton.mp h).symm
      subst hy
      rfl

/-- C15 (amended): for every catalog the sequence that `loadInstalledGames` renders is a
permutation of the catalog; when every title has a `lastPlayed` or no title has one, it
is sorted in descending order of the key (`lastPlayed` when present, otherwise
`installedDate`), so of two titles the one with the strictly later key comes first; a
title with a `lastPlayed` and a title without one are compared by `installedDate` alone.
The sort is any sort that keeps what the language promises. -/
theorem listing_order
    (sort : (GameData → GameData → Int) → List GameData → List GameData)
    (hsort : SortContract sort) (env : Env) (db : DB)
    (hall : env.ok .getAllGames = true) :
    ∃ shown : List GameData,
      loadInstalledGames sort env db = .ok shown ∧
      shown.Perm db.localGames ∧
      (((∀ g ∈ db.localGames, g.lastPlayed ≠ none) ∨
          (∀ g ∈ db.localGames, g.lastPlayed = none)) →
        shown.Pairwise (fun p q => specKey q ≤ specKey p)) ∧
      (∀ a b : GameData, a.lastPlayed = none ∨ b.lastPlayed = none →
        compareGames a b = (b.installedDate : Int) - (a.installedDate : Int)) := by
  refine ⟨sort compareGames db.localGames, ?_, (hsort _ _).1, ?_, ?_⟩
  · simp [loadInstalledGames, loadAllGames, hall]
  · intro h
    exact sorted_keys sort hsort db.localGames h
  · intro a b h
    rcases h with h | h
    · simp [compareGames, h]
    · cases ha : a.lastPlayed <;> simp [compareGames, h, ha]

/-- The catalog `allPlayedDB`, in which every title has a `lastPlayed`: the three titles
are listed in descending order of `lastPlayed`, which is neither the order of the
catalog nor the order of `installedDate`. -/
theorem listing_order_witness :
    (∀ g ∈ allPlayedDB.localGames, g.lastPlayed ≠ none) ∧
    loadInstalledGames arraySort okEnv allPlayedDB =
      .ok [playedGame, lastPlayedGame, latestInstalled] ∧
    [playedGame, lastPlayedGame, latestInstalled].Perm allPlayedDB.localGames ∧
    [playedGame, lastPlayedGame, latestInstalled].Pairwise
      (fun p q => specKey q ≤ specKey p) ∧
    specKey latestInstalled < specKey lastPlayedGame ∧
    specKey lastPlayedGame < specKey playedGame ∧
    lastPlayedGame.installedDate < latestInstalled.installedDate := by
  obtain ⟨shown, hrun, hperm, hsorted, _⟩ :=
    listing_order arraySort arraySort_contract okEnv allPlayedDB rfl
  have hom : ∀ g ∈ allPlayedDB.localGames, g.lastPlayed ≠ none := by decide
  have hval : loadInstalledGames arraySort okEnv allPlayedDB =
      .ok [playedGame, lastPlayedGame, latestInstalled] := by decide
  have hshown : shown = [playedGame, lastPlayedGame, latestInstalled] :=
    Except.ok.inj (hrun.symm.trans hval)
  rw [hshown] at hperm hsorted
  exact ⟨hom, hval, hperm, hsorted (Or.inl hom), by decide, by decide, by decide⟩

/-! ## C16: what `playGame` changes -/

theorem launch_launched (env : Env) (db : DB) (game : GameData) (mainFileData : Option Bytes)
    (mainFileName fileName : String) (data : Bytes)
    (h : (launch env db game mainFileData mainFileName).2 = .launched fileName data) :
    (launch env db game mainFileData mainFileName).1 =
      { db with localGames := putGame db.localGames (played env game) } := by
  unfold launch at h ⊢
  cases mainFileData with
  | none => simp at h
  | some bytes =>
    simp only [saveGame] at h ⊢
    by_cases hs : env.ok (.putGame game.id) = true
    · simp only [hs, if_true, played]
      split <;> rfl
    · simp [hs] at h

/-- A run of `playGame` that reaches `window.openFile` has saved the record of the title
with new statistics and has done nothing else to the stores. -/
theorem playGame_launched_effect (env : Env) (db : DB) (gameId fileName : String)
    (data : Bytes) (h : (playGame env db gameId).2 = .launched fileName data) :
    ∃ game : GameData, getGame db.localGames gameId = some game ∧
      (playGame env db gameId).1 =
        { db with localGames := putGame db.localGames (played env game) } := by
  unfold playGame at h ⊢
  simp only [loadGame] at h ⊢
  by_cases hl : env.ok (.getGame gameId) = true
  · simp only [hl, if_true] at h ⊢
    cases hg : getGame db.localGames gameId with
    | none => simp [hg] at h
    | some game =>
      refine ⟨game, rfl, ?_⟩
      simp only [hg] at h ⊢
      cases hf : game.files with
      | none => simp [hf] at h
      | some files =>
        cases files with
        | nil => simp [hf] at h
        | cons fileInfo rest =>
          simp only [hf] at h ⊢
          by_cases hc : (game.useChunks && fileInfo.isChunked) = true
          · simp only [hc, if_true] at h ⊢
            cases hi : fileInfo.chunkInfo with
            | none => simp [hi] at h
            | some chunkInfo =>
              simp only [hi] at h ⊢
              cases hd : loadChunkedFile env db gameId chunkInfo.totalChunks with
              | error e => simp [hd] at h
              | ok bytes =>
                simp only [hd] at h ⊢
                exact launch_launched env db game _ _ fileName data h
          · simp only [hc, Bool.false_eq_true, if_false] at h ⊢
            cases hs : selectMainFile (fileInfo :: rest) with
            | none => simp [hs] at h
            | some mainFile =>
              simp only [hs] at h ⊢
              exact launch_launched env db game _ _ fileName data h
  · simp [hl] at h

/-- C16: play updates only the play statistics. Whenever `playGame` loads a title and
hands it to `window.openFile`, the catalog record of the title afterwards is the record
from before with `lastPlayed` set to the clock reading and `playCount` increased by one
(an absent `playCount` counting as 0) and every other field as it was; every other
catalog record is as before; and the chunk store is exactly as before. -/
theorem playGame_updates_statistics (env : Env) (db : DB) (gameId fileName : String)
    (data : Bytes) (h : (playGame env db gameId).2 = .launched fileName data) :
    ∃ game : GameData, getGame db.localGames gameId = some game ∧
      getGame (playGame env db gameId).1.localGames gameId =
        some { game with lastPlayed := some env.now,
                         playCount := some (game.playCount.getD 0 + 1) } ∧
      (∀ gid, gid ≠ gameId →
        getGame (playGame env db gameId).1.localGames gid = getGame db.localGames gid) ∧
      (playGame env db gameId).1.gameChunks = db.gameChunks := by
  obtain ⟨game, hgame, heff⟩ := playGame_launched_effect env db gameId fileName data h
  have hid : (played env game).id = gameId := getGame_id _ _ game hgame
  refine ⟨game, hgame, ?_, ?_, ?_⟩
  · rw [heff]
    simp only []
    rw [getGame_putGame, if_pos hid]
    rfl
  · intro gid hne
    rw [heff]
    simp only []
    rw [getGame_putGame, if_neg (fun e => hne (e.symm.trans hid).symm.symm)]
  · rw [heff]

/-- Playing `newerGame` of `twoGamesDB` changes its statistics and nothing else. -/
theorem playGame_updates_statistics_witness :
    ∃ game : GameData, getGame twoGamesDB.localGames newerGame.id = some game ∧
      getGame (playGame okEnv twoGamesDB newerGame.id).1.localGames newerGame.id =
        some { game with lastPlayed := some okEnv.now,
                         playCount := some (game.playCount.getD 0 + 1) } ∧
      (∀ gid, gid ≠ newerGame.id →
        getGame (playGame okEnv twoGamesDB newerGame.id).1.localGames gid =
          getGame twoGamesDB.localGames gid) ∧
      (playGame okEnv twoGamesDB newerGame.id).1.gameChunks = twoGamesDB.gameChunks :=
  playGame_updates_statistics okEnv twoGamesDB newerGame.id "game.bin" [1, 2, 3, 4, 5]
    (by decide)

/-! ## C17: progress reports -/

/-- C17 (the large-archive path breaks it): for every archive of more than 100 MiB, the
first report is `0.1` and the second is `loaded / total * 0.4` of the first reader event;
when that event has read less than a quarter of the file the second report is below the
first, so the sequence of reports decreases. -/
theorem large_archive_progress_decreases (env : Env) (chunkSize : Nat) (file : JSFile)
    (loaded total : Nat) (events : List (Nat × Nat))
    (hsize : 100 * 1024 * 1024 < file.size)
    (hzip : endsWithLower file.name ".zip" = true)
    (htotal : 0 < total) (hlow : 4 * loaded < total) :
    (installProgress env chunkSize file ((loaded, total) :: events)).take 2 =
        [0.1, (loaded : ℚ) / (total : ℚ) * 0.4] ∧
      (loaded : ℚ) / (total : ℚ) * 0.4 < 0.1 := by
  constructor
  · unfold installProgress
    rw [if_pos hsize]
    simp [hzip, archiveProgress, readerProgress]
  · have ht : (0 : ℚ) < (total : ℚ) := by exact_mod_cast htotal
    have hl : (4 : ℚ) * (loaded : ℚ) < (total : ℚ) := by exact_mod_cast hlow
    rw [div_mul_eq_mul_div, div_lt_iff₀ ht]
    norm_num
    linarith

/-- A large archive of which the first 10 MiB have been read: the reports start with
`0.1` and go down to about `0.04`. -/
theorem large_archive_progress_decreases_witness :
    (installProgress okEnv defaultChunkSize bigZip
        [(10485760, 104857601), (104857601, 104857601)]).take 2 =
        [0.1, ((10485760 : Nat) : ℚ) / ((104857601 : Nat) : ℚ) * 0.4] ∧
      ((10485760 : Nat) : ℚ) / ((104857601 : Nat) : ℚ) * 0.4 < 0.1 :=
  large_archive_progress_decreases okEnv defaultChunkSize bigZip 10485760 104857601
    [(104857601, 104857601)] (by rw [bigZip_size]; decide) (by decide) (by decide) (by decide)

theorem readerProgress_bounds (total : Nat) (events : List (Nat × Nat)) (scale : ℚ)
    (hscale : 0 ≤ scale) (hv : validEvents total events) :
    (∀ x ∈ readerProgress events scale, 0 ≤ x ∧ x ≤ scale) ∧
      (readerProgress events scale).Pairwise (fun a b => a ≤ b) := by
  obtain ⟨htotal, hev, hmono⟩ := hv
  have ht : (0 : ℚ) < (total : ℚ) := by exact_mod_cast htotal
  constructor
  · intro x hx
    obtain ⟨ev, hmem, rfl⟩ := List.mem_map.mp hx
    obtain ⟨h2, h1⟩ := hev ev hmem
    have hl : ((ev.1 : Nat) : ℚ) ≤ (total : ℚ) := by exact_mod_cast h1
    rw [h2]
    constructor
    · positivity
    · have : ((ev.1 : Nat) : ℚ) / (total : ℚ) ≤ 1 := (div_le_one ht).mpr hl
      calc ((ev.1 : Nat) : ℚ) / (total : ℚ) * scale ≤ 1 * scale :=
            mul_le_mul_of_nonneg_right this hscale
        _ = scale := one_mul _
  · unfold readerProgress
    rw [List.pairwise_map]
    refine List.Pairwise.imp_of_mem ?_ hmono
    intro a b ha hb hab
    rw [(hev a ha).1, (hev b hb).1]
    have hl : ((a.1 : Nat) : ℚ) ≤ ((b.1 : Nat) : ℚ) := by exact_mod_cast hab
    exact mul_le_mul_of_nonneg_right (div_le_div_of_nonneg_right hl ht.le) hscale

theorem storeLoopProgress_bounds (env : Env) (chunkSize : Nat) (file : JSFile)
    (gameId : String) (totalChunks : Nat) (htotal : 0 < totalChunks) :
    ∀ (n i : Nat),
      (∀ x ∈ storeLoopProgress env chunkSize file gameId totalChunks n i,
        ((i : ℚ) + 1) / (totalChunks : ℚ) ≤ x ∧
          x ≤ ((i : ℚ) + (n : ℚ)) / (totalChunks : ℚ)) ∧
      (storeLoopProgress env chunkSize file gameId totalChunks n i).Pairwise
        (fun a b => a ≤ b) := by
  have ht : (0 : ℚ) < (totalChunks : ℚ) := by exact_mod_cast htotal
  intro n
  induction n with
  | zero =>
    intro i
    simp [storeLoopProgress]
  | succ n ih =>
    intro i
    unfold storeLoopProgress
    split
    · obtain ⟨hb, hp⟩ := ih (i + 1)
      have hstep : ((i : ℚ) + 1) / (totalChunks : ℚ) ≤
          (((i + 1 : Nat) : ℚ) + 1) / (totalChunks : ℚ) := by
        apply div_le_div_of_nonneg_right _ ht.le
        push_cast
        linarith
      have hend : (((i + 1 : Nat) : ℚ) + (n : ℚ)) / (totalChunks : ℚ) =
          ((i : ℚ) + ((n + 1 : Nat) : ℚ)) / (totalChunks : ℚ) := by
        push_cast
        ring_nf
      constructor
      · intro x hx
        rcases List.mem_cons.mp hx with rfl | hx
        · refine ⟨le_refl _, ?_⟩
          apply div_le_div_of_nonneg_right _ ht.le
          push_cast
          have : (0 : ℚ) ≤ (n : ℚ) := Nat.cast_nonneg n
          linarith
        · obtain ⟨h1, h2⟩ := hb x hx
          exact ⟨le_trans hstep h1, by rw [← hend]; exact h2⟩
      · refine List.Pairwise.cons ?_ hp
        intro x hx
        exact le_trans hstep (hb x hx).1
    · simp

theorem smallSteps_bounds (env : Env) (file : JSFile) :
    (∀ x ∈ smallSteps env file, 0.3 ≤ x ∧ x ≤ 1) ∧
      (smallSteps env file).Pairwise (fun a b => a ≤ b) := by
  unfold smallSteps
  generalize env.ok .readFile = b1
  generalize (endsWithLower file.name ".zip" && env.hasJSZip) = b2
  generalize env.loadAsync file.data = o
  generalize env.ok (.putGame (newGameId env)) = b4
  cases b1 <;> cases b2 <;> cases o <;> cases b4 <;> simp <;> norm_num

/-- In the two other paths (a source of at most 100 MiB, or a large source that is not an
archive) the reports lie in `[0, 1]` and never decrease. -/
theorem progress_monotone_elsewhere (env : Env) (chunkSize : Nat) (file : JSFile)
    (total : Nat) (events : List (Nat × Nat)) (hv : validEvents total events)
    (hpath : file.size ≤ 100 * 1024 * 1024 ∨ endsWithLower file.name ".zip" = false) :
    (∀ x ∈ installProgress env chunkSize file events, 0 ≤ x ∧ x ≤ 1) ∧
      (installProgress env chunkSize file events).Pairwise (fun a b => a ≤ b) := by
  unfold installProgress
  by_cases hsize : file.size > 100 * 1024 * 1024
  · have hz : endsWithLower file.name ".zip" = false := by
      rcases hpath with h | h
      · omega
      · exact h
    rw [if_pos hsize]
    simp only [hz, Bool.not_false, if_true]
    by_cases h0 : 0 < ceilDiv file.size chunkSize
    · have ht : (0 : ℚ) < (ceilDiv file.size chunkSize : ℚ) := by exact_mod_cast h0
      obtain ⟨hb, hp⟩ := storeLoopProgress_bounds env chunkSize file (newGameId env)
        (ceilDiv file.size chunkSize) h0 (ceilDiv file.size chunkSize) 0
      refine ⟨fun x hx => ?_, hp⟩
      obtain ⟨h1, h2⟩ := hb x hx
      constructor
      · refine le_trans ?_ h1
        positivity
      · refine le_trans h2 ?_
        rw [div_le_one ht]
        push_cast
        linarith
    · have hz0 : ceilDiv file.size chunkSize = 0 := by omega
      rw [hz0]
      simp [storeLoopProgress]
  · rw [if_neg hsize]
    obtain ⟨hb, hp⟩ := readerProgress_bounds total events 0.3 (by norm_num) hv
    obtain ⟨hsb, hsp⟩ := smallSteps_bounds env file
    unfold smallProgress
    constructor
    · intro x hx
      rcases List.mem_append.mp hx with hx | hx
      · obtain ⟨h1, h2⟩ := hb x hx
        exact ⟨h1, le_trans h2 (by norm_num)⟩
      · obtain ⟨h1, h2⟩ := hsb x hx
        exact ⟨le_trans (by norm_num) h1, h2⟩
    · rw [List.pairwise_append]
      exact ⟨hp, hsp, fun a ha b hb2 => le_trans (hb a ha).2 (hsb b hb2).1⟩

/-! ## C18: the 250 MiB scenario -/

theorem file250_size : file250.size = 262144000 :=
  List.length_replicate _ _

/-- The 250 MiB scenario in closed form: 25 chunks of 10 MiB each. -/
theorem install_250MiB (env : Env) (db : DB) (file : JSFile) (name region : String)
    (hsz : file.size = 262144000)
    (hzip : endsWithLower file.name ".zip" = false)
    (hnone : chunksOf db.gameChunks (newGameId env) = [])
    (hread : ∀ j, j < 25 →
      env.ok (.readSlice (j * 10485760) (min (j * 10485760 + 10485760) file.size)) = true)
    (hwrite : ∀ j, j < 25 → env.ok (.putChunk (newGameId env) j) = true)
    (hsave : env.ok (.putGame (newGameId env)) = true) :
    ∃ (db1 : DB) (g : GameData),
      installGameFromFile env 10485760 db file name region = (db1, .ok g) ∧
      chunksOf db1.gameChunks (newGameId env) =
        (List.range 25).map (chunkRecordAt env 10485760 file (newGameId env)) ∧
      g.useChunks = true ∧ g.fileSize = some 262144000 := by
  have hN : ceilDiv file.size 10485760 = 25 := by
    rw [hsz]
    decide
  have h := (installGameFromFile_large_direct env 10485760 db file name region
      (by rw [hsz]; decide) hzip).trans
    (storeFileAsChunks_ok env 10485760 db file (newGameId env) name region
      (by rw [hN]; exact hread) (by rw [hN]; exact hwrite) hsave)
  refine ⟨_, _, h, ?_, rfl, ?_⟩
  · simp only []
    rw [chunksOf_chunksWritten env 10485760 file (newGameId env) _ 0 db.gameChunks
      (by rw [hnone]; intro c hc; cases hc), hnone, List.nil_append, hN,
      List.range_eq_range']
  · simp only [chunkedGameData, hsz]

/-- C18 as stated fails: in the scenario the 25th chunk (index 24) has 10,485,760 bytes,
not 5,242,880, because 262,144,000 is exactly 25 times 10,485,760. -/
theorem scenario_last_chunk_counterexample :
    ∃ (db1 : DB) (g : GameData),
      installGameFromFile okEnv 10485760 emptyDB file250 "Game" "EU" = (db1, .ok g) ∧
      (chunksOf db1.gameChunks (newGameId okEnv)).length = 25 ∧
      (getChunk db1.gameChunks (newGameId okEnv) 24).map (fun c => c.data.length) =
        some 10485760 ∧
      (getChunk db1.gameChunks (newGameId okEnv) 24).map (fun c => c.data.length) ≠
        some 5242880 := by
  have hN : ceilDiv file250.size 10485760 = 25 := by
    rw [file250_size]
    decide
  have h := (installGameFromFile_large_direct okEnv 10485760 emptyDB file250 "Game" "EU"
      (by rw [file250_size]; decide) (by decide)).trans
    (storeFileAsChunks_ok okEnv 10485760 emptyDB file250 (newGameId okEnv) "Game" "EU"
      (fun _ _ => rfl) (fun _ _ => rfl) rfl)
  have hlen : (getChunk (chunksWritten okEnv 10485760 file250 (newGameId okEnv)
      emptyDB.gameChunks 0 (ceilDiv file250.size 10485760)) (newGameId okEnv) 24).map
      (fun c => c.data.length) = some 10485760 := by
    rw [getChunk_chunksWritten, if_pos ⟨rfl, by omega, by rw [hN]; omega⟩]
    simp only [Option.map_some', chunkRecordAt]
    rw [slice_length, file250_size]
    decide
  have hempty : chunksOf emptyDB.gameChunks (newGameId okEnv) = [] := rfl
  refine ⟨_, _, h, ?_, ?_, ?_⟩
  · simp only []
    rw [chunksOf_chunksWritten okEnv 10485760 file250 (newGameId okEnv)
      (ceilDiv file250.size 10485760) 0 emptyDB.gameChunks
      (by rw [hempty]; intro c hc; cases hc), hN, hempty, List.nil_append, List.length_map,
      List.length_range']
  · simp only []
    exact hlen
  · simp only []
    rw [hlen]
    decide

/-- C18 (amended): installing a 262,144,000-byte non-archive source with a chunk size of
10,485,760 (reads and writes succeeding, no chunk under the new id before) produces 25
chunks, at the indices 0 to 24, every one of them of exactly 10,485,760 bytes, the 25th
included; the resulting record has `useChunks = true` and `fileSize = 262144000`. -/
theorem scenario_250MiB (env : Env) (db : DB) (file : JSFile) (name region : String)
    (hsz : file.size = 262144000)
    (hzip : endsWithLower file.name ".zip" = false)
    (hnone : chunksOf db.gameChunks (newGameId env) = [])
    (hread : ∀ j, j < 25 →
      env.ok (.readSlice (j * 10485760) (min (j * 10485760 + 10485760) file.size)) = true)
    (hwrite : ∀ j, j < 25 → env.ok (.putChunk (newGameId env) j) = true)
    (hsave : env.ok (.putGame (newGameId env)) = true) :
    ∃ (db1 : DB) (g : GameData),
      installGameFromFile env 10485760 db file name region = (db1, .ok g) ∧
      (chunksOf db1.gameChunks (newGameId env)).map (fun c => c.chunkIndex) = List.range 25 ∧
      (∀ c ∈ chunksOf db1.gameChunks (newGameId env), c.data.length = 10485760) ∧
      g.useChunks = true ∧ g.fileSize = some 262144000 := by
  obtain ⟨db1, g, h, hchunks, huse, hfs⟩ :=
    install_250MiB env db file name region hsz hzip hnone hread hwrite hsave
  refine ⟨db1, g, h, ?_, ?_, huse, hfs⟩
  · rw [hchunks, List.map_map]
    have : ((fun c : ChunkRecord => c.chunkIndex) ∘
        chunkRecordAt env 10485760 file (newGameId env)) = id := by
      funext j
      simp [chunkRecordAt]
    rw [this, List.map_id]
  · intro c hc
    rw [hchunks] at hc
    obtain ⟨j, hj, rfl⟩ := List.mem_map.mp hc
    have hj2 : j < 25 := List.mem_range.mp hj
    simp only [chunkRecordAt]
    rw [slice_length, hsz]
    omega

/-- The scenario on `file250` in the browser `okEnv`. -/
theorem scenario_250MiB_witness :
    ∃ (db1 : DB) (g : GameData),
      installGameFromFile okEnv 10485760 emptyDB file250 "Game" "EU" = (db1, .ok g) ∧
      (chunksOf db1.gameChunks (newGameId okEnv)).map (fun c => c.chunkIndex) =
        List.range 25 ∧
      (∀ c ∈ chunksOf db1.gameChunks (newGameId okEnv), c.data.length = 10485760) ∧
      g.useChunks = true ∧ g.fileSize = some 262144000 :=
  scenario_250MiB okEnv emptyDB file250 "Game" "EU" file250_size (by decide) rfl
    (fun _ _ => rfl) (fun _ _ => rfl) rfl

/-! ## C19: size classification -/

theorem exactly100_size : exactly100.size = 100 * 1024 * 1024 :=
  List.length_replicate _ _

theorem installLargeFile_useChunks (env : Env) (chunkSize : Nat) (db db1 : DB)
    (file : JSFile) (name region : String) (g : GameData)
    (h : installLargeFile env chunkSize db file name region = (db1, .ok g)) :
    g.useChunks = true := by
  by_cases hzip : endsWithLower file.name ".zip" = true
  · exact (installLargeFile_archive_effect env chunkSize db db1 file name region g hzip h).2.1
  · have hz : endsWithLower file.name ".zip" = false := by simpa using hzip
    have hst : storeFileAsChunks env chunkSize db file (newGameId env) name region =
        (db1, .ok g) := by
      rw [← h]
      unfold installLargeFile
      simp [hz]
    exact (storeFileAsChunks_effect env chunkSize db db1 file (newGameId env) name region g
      hst).2.1

/-- C19: size classification. For every successful `installGameFromFile`, the install
went through `installSmallFile` (the whole source read at once) and the record has
`useChunks = false` exactly when `file.size ≤ 104,857,600`, and it went through
`installLargeFile` and the record has `useChunks = true` exactly when
`file.size > 104,857,600`; a source of exactly 100 MiB is on the small side. -/
theorem size_classification (env : Env) (chunkSize : Nat) (db db1 : DB) (file : JSFile)
    (name region : String) (g : GameData)
    (h : installGameFromFile env chunkSize db file name region = (db1, .ok g)) :
    (g.useChunks = false ↔ file.size ≤ 104857600) ∧
    (g.useChunks = true ↔ 104857600 < file.size) ∧
    (file.size ≤ 104857600 → installSmallFile env db file name region = (db1, .ok g)) ∧
    (104857600 < file.size →
      installLargeFile env chunkSize db file name region = (db1, .ok g)) := by
  by_cases hsize : file.size ≤ 104857600
  · have hs : installSmallFile env db file name region = (db1, .ok g) := by
      rw [← h, installGameFromFile_small env chunkSize db file name region (by omega)]
    have hu := (installSmallFile_effect env db db1 file name region g hs).2.1
    refine ⟨⟨fun _ => hsize, fun _ => hu⟩, ⟨fun e => ?_, fun e => ?_⟩, fun _ => hs, fun e => ?_⟩
    · rw [hu] at e
      cases e
    · omega
    · omega
  · have hl : installLargeFile env chunkSize db file name region = (db1, .ok g) := by
      rw [← h, installGameFromFile_large env chunkSize db file name region (by omega)]
    have hu := installLargeFile_useChunks env chunkSize db db1 file name region g hl
    refine ⟨⟨fun e => ?_, fun e => ?_⟩, ⟨fun _ => by omega, fun _ => hu⟩, fun e => ?_,
      fun _ => hl⟩
    · rw [hu] at e
      cases e
    · omega
    · omega

/-- A source of exactly 100 MiB is installed by the small path, `useChunks = false`. -/
theorem size_classification_witness :
    ((directGameData okEnv exactly100 "Game" "EU").useChunks = false ↔
      exactly100.size ≤ 104857600) ∧
    ((directGameData okEnv exactly100 "Game" "EU").useChunks = true ↔
      104857600 < exactly100.size) ∧
    (exactly100.size ≤ 104857600 →
      installSmallFile okEnv emptyDB exactly100 "Game" "EU" =
        ({ emptyDB with
           localGames := putGame emptyDB.localGames (directGameData okEnv exactly100 "Game" "EU") },
          .ok (directGameData okEnv exactly100 "Game" "EU"))) ∧
    (104857600 < exactly100.size →
      installLargeFile okEnv defaultChunkSize emptyDB exactly100 "Game" "EU" =
        ({ emptyDB with
           localGames := putGame emptyDB.localGames (directGameData okEnv exactly100 "Game" "EU") },
          .ok (directGameData okEnv exactly100 "Game" "EU"))) :=
  size_classification okEnv defaultChunkSize emptyDB _ exactly100 "Game" "EU" _
    ((installGameFromFile_small okEnv defaultChunkSize emptyDB exactly100 "Game" "EU"
        (by rw [exactly100_size])).trans
      (installSmallFile_direct okEnv emptyDB exactly100 "Game" "EU" (by decide) rfl rfl))

/-! ## C20: statistics -/

theorem foldl_addGame (games : List GameData) :
    ∀ acc : StorageTotals,
      (games.foldl addGame acc).totalSize =
          acc.totalSize + (games.map (fun g => g.fileSize.getD 0)).sum ∧
      (games.foldl addGame acc).fileCount =
          acc.fileCount + (games.map (fun g => (g.files.map List.length).getD 0)).sum ∧
      (games.foldl addGame acc).chunkedCount =
          acc.chunkedCount + games.countP (fun g => g.useChunks) := by
  induction games with
  | nil =>
    intro acc
    simp
  | cons g rest ih =>
    intro acc
    obtain ⟨h1, h2, h3⟩ := ih (addGame acc g)
    rw [List.foldl_cons, h1, h2, h3]
    refine ⟨?_, ?_, ?_⟩
    · simp only [addGame, List.map_cons, List.sum_cons]
      omega
    · cases hf : g.files <;>
        (simp only [addGame, hf, List.map_cons, List.sum_cons, Option.map_none',
          Option.map_some', Option.getD_none, Option.getD_some]
         omega)
    · cases hu : g.useChunks <;>
        (simp only [addGame, hu, List.countP_cons, Bool.false_eq_true, if_false, if_true]
         omega)

/-- C20: statistics. For every catalog that can be read, `getStorageInfo` returns
`gameCount` equal to the number of records, `totalSize` equal to the sum of their
`fileSize` (an absent one counting as 0), `fileCount` equal to the sum of the lengths of
their `files` lists (an absent list counting as 0) and `chunkedCount` equal to the number
of records with `useChunks` true; and it leaves both stores as they were. -/
theorem getStorageInfo_aggregates (env : Env) (db : DB)
    (hall : env.ok .getAllGames = true) :
    ∃ info : StorageInfo,
      getStorageInfo env db = (db, some info) ∧
      info.gameCount = db.localGames.length ∧
      info.totalSize = (db.localGames.map (fun g => g.fileSize.getD 0)).sum ∧
      info.fileCount =
        (db.localGames.map (fun g => (g.files.map List.length).getD 0)).sum ∧
      info.chunkedCount = db.localGames.countP (fun g => g.useChunks) := by
  obtain ⟨h1, h2, h3⟩ := foldl_addGame db.localGames
    { totalSize := 0, fileCount := 0, chunkedCount := 0 }
  have hrun : getStorageInfo env db =
      (db, some
        { gameCount := db.localGames.length,
          totalSize := (db.localGames.foldl addGame
            { totalSize := 0, fileCount := 0, chunkedCount := 0 }).totalSize,
          totalSizeMB := (2 * (db.localGames.foldl addGame
            { totalSize := 0, fileCount := 0, chunkedCount := 0 }).totalSize + 1024 * 1024) /
              (2 * (1024 * 1024)),
          fileCount := (db.localGames.foldl addGame
            { totalSize := 0, fileCount := 0, chunkedCount := 0 }).fileCount,
          chunkedCount := (db.localGames.foldl addGame
            { totalSize := 0, fileCount := 0, chunkedCount := 0 }).chunkedCount }) := by
    simp only [getStorageInfo, loadAllGames, hall, if_true]
  refine ⟨_, hrun, rfl, ?_, ?_, ?_⟩
  · simp only [h1, Nat.zero_add]
  · simp only [h2, Nat.zero_add]
  · simp only [h3, Nat.zero_add]

/-- The statistics of the stores that hold the chunked `bigGame` and the small
`smallGame`. -/
theorem getStorageInfo_aggregates_witness :
    ∃ info : StorageInfo,
      getStorageInfo okEnv afterBoth = (afterBoth, some info) ∧
      info.gameCount = afterBoth.localGames.length ∧
      info.totalSize = (afterBoth.localGames.map (fun g => g.fileSize.getD 0)).sum ∧
      info.fileCount =
        (afterBoth.localGames.map (fun g => (g.files.map List.length).getD 0)).sum ∧
      info.chunkedCount = afterBoth.localGames.countP (fun g => g.useChunks) :=
  getStorageInfo_aggregates okEnv afterBoth rfl

/-! ## C22: allow-list extraction -/

/-- C22: allow-list extraction. For every directory that `zip.loadAsync` decodes for a
small `.zip` source and whose kept entries extract, the files that `installSmallFile`
extracts are exactly the non-directory entries whose lower-cased path ends in `.bin`,
`.iso`, `.img`, `.cue`, `.ecm` or `.pbp`, in directory order, each as `filename` the last
path segment, `fullPath` the path, `data` the bytes, `size` the length of the bytes and
`type` the value of `getFileType(path)`; the record's `files` are built from that list
(narrowed to the main files when there are some). -/
theorem allow_list_extraction (env : Env) (db : DB) (file : JSFile) (name region : String)
    (zipData : List ZipEntry)
    (hzip : endsWithLower file.name ".zip" = true)
    (hread : env.ok .readFile = true) (hjs : env.hasJSZip = true)
    (hdec : env.loadAsync file.data = some zipData)
    (hdata : ∀ e ∈ zipData, e.dir = false → acceptedPath e.name = true → e.data ≠ none)
    (hsave : env.ok (.putGame (newGameId env)) = true) :
    ∃ (db1 : DB) (g : GameData) (extractedFiles : List FileEntry),
      installSmallFile env db file name region = (db1, .ok g) ∧
      extractAll (zipData.filter (fun e => !e.dir && acceptedPath e.name)) =
        some extractedFiles ∧
      extractedFiles =
        (zipData.filter (fun e => !e.dir &&
            (endsWithLower e.name ".bin" || endsWithLower e.name ".iso" ||
             endsWithLower e.name ".img" || endsWithLower e.name ".cue" ||
             endsWithLower e.name ".ecm" || endsWithLower e.name ".pbp"))).map
          (fun e =>
            { filename := lastSegment e.name, fullPath := some e.name,
              data := some (e.data.getD []), size := (e.data.getD []).length,
              type := getFileType e.name, isChunked := false, chunkInfo := none }) ∧
      g.files = some (gameFilesOf extractedFiles) := by
  have hd : ∀ e ∈ allowedEntries zipData, e.data ≠ none := by
    intro e he
    obtain ⟨hmem, hp⟩ := List.mem_filter.mp he
    simp only [Bool.and_eq_true, Bool.not_eq_true'] at hp
    exact hdata e hmem hp.1 hp.2
  exact ⟨_, _, _,
    installSmallFile_archive env db file name region zipData hzip hread hjs hdec hd hsave,
    extractAll_eq_map (allowedEntries zipData) hd, rfl, rfl⟩

/-- From `game.cue`, `game.bin`, `readme.txt` the cue sheet and the disc image are
extracted, in that order. -/
theorem allow_list_extraction_witness :
    ∃ (db1 : DB) (g : GameData) (extractedFiles : List FileEntry),
      installSmallFile cueBinReadmeEnv emptyDB smallZip "Game" "EU" = (db1, .ok g) ∧
      extractAll (cueBinReadme.filter (fun e => !e.dir && acceptedPath e.name)) =
        some extractedFiles ∧
      extractedFiles =
        (cueBinReadme.filter (fun e => !e.dir &&
            (endsWithLower e.name ".bin" || endsWithLower e.name ".iso" ||
             endsWithLower e.name ".img" || endsWithLower e.name ".cue" ||
             endsWithLower e.name ".ecm" || endsWithLower e.name ".pbp"))).map
          (fun e =>
            { filename := lastSegment e.name, fullPath := some e.name,
              data := some (e.data.getD []), size := (e.data.getD []).length,
              type := getFileType e.name, isChunked := false, chunkInfo := none }) ∧
      g.files = some (gameFilesOf extractedFiles) :=
  allow_list_extraction cueBinReadmeEnv emptyDB smallZip "Game" "EU" cueBinReadme
    (by decide) rfl rfl rfl (by decide) rfl

/-! ## C25: the bounds listed in `chunkInfo` -/

/-- C25: `chunkInfo` lists the bounds of every slice. For every successful install of a
non-archive source of more than 100 MiB, of size `S`, with a chunk size `C ≥ 1` and
`N = ceil(S / C)`: `chunkInfo.totalChunks` is `N`, `chunkInfo.chunks` has exactly `N`
entries, entry `i` has `index = i`, `start = i * C`, `end = min((i + 1) * C, S)` and
`size = end - start`; the end of each entry but the last is the start of the next, the
first entry starts at 0 and the last ends at `S`, so the intervals partition `[0, S)`. -/
theorem chunkInfo_bounds (env : Env) (chunkSize : Nat) (db : DB) (file : JSFile)
    (name region : String)
    (hsize : 100 * 1024 * 1024 < file.size)
    (hzip : endsWithLower file.name ".zip" = false)
    (hC : 1 ≤ chunkSize)
    (hread : ∀ j, j < ceilDiv file.size chunkSize →
      env.ok (.readSlice (j * chunkSize) (min (j * chunkSize + chunkSize) file.size)) = true)
    (hwrite : ∀ j, j < ceilDiv file.size chunkSize →
      env.ok (.putChunk (newGameId env) j) = true)
    (hsave : env.ok (.putGame (newGameId env)) = true) :
    ∃ (db1 : DB) (g : GameData) (chunks : List ChunkEntry),
      installGameFromFile env chunkSize db file name region = (db1, .ok g) ∧
      recordedTotalChunks g = some (ceilDiv file.size chunkSize) ∧
      recordedChunks g = some chunks ∧
      chunks.length = ceilDiv file.size chunkSize ∧
      (∀ i, i < ceilDiv file.size chunkSize →
        chunks[i]? = some { index := i, start := i * chunkSize,
                            end_ := min ((i + 1) * chunkSize) file.size,
                            size := min ((i + 1) * chunkSize) file.size - i * chunkSize }) ∧
      (∀ i, i + 1 < ceilDiv file.size chunkSize →
        min ((i + 1) * chunkSize) file.size = (i + 1) * chunkSize) ∧
      min (ceilDiv file.size chunkSize * chunkSize) file.size = file.size := by
  have h := (installGameFromFile_large_direct env chunkSize db file name region hsize
      hzip).trans
    (storeFileAsChunks_ok env chunkSize db file (newGameId env) name region hread hwrite
      hsave)
  have hpred := ceilDiv_pred_mul_lt file.size chunkSize (by omega) hC
  have hcover := ceilDiv_mul_ge file.size chunkSize hC
  refine ⟨_, _, (List.range (ceilDiv file.size chunkSize)).map (chunkEntryAt chunkSize file),
    h, rfl, rfl, ?_, ?_, ?_, ?_⟩
  · rw [List.length_map, List.length_range]
  · intro i hi
    rw [List.getElem?_map, List.getElem?_range hi]
    simp only [Option.map_some', chunkEntryAt, slice_length, Nat.succ_mul]
  · intro i hi
    have h1 : (i + 1) * chunkSize ≤ (ceilDiv file.size chunkSize - 1) * chunkSize :=
      Nat.mul_le_mul_right _ (by omega)
    omega
  · omega

/-- The bounds recorded for `bigFile` with the default chunk size. -/
theorem chunkInfo_bounds_witness :
    ∃ (db1 : DB) (g : GameData) (chunks : List ChunkEntry),
      installGameFromFile okEnv defaultChunkSize emptyDB bigFile "Game" "EU" = (db1, .ok g) ∧
      recordedTotalChunks g = some (ceilDiv bigFile.size defaultChunkSize) ∧
      recordedChunks g = some chunks ∧
      chunks.length = ceilDiv bigFile.size defaultChunkSize ∧
      (∀ i, i < ceilDiv bigFile.size defaultChunkSize →
        chunks[i]? = some { index := i, start := i * defaultChunkSize,
                            end_ := min ((i + 1) * defaultChunkSize) bigFile.size,
                            size := min ((i + 1) * defaultChunkSize) bigFile.size -
                              i * defaultChunkSize }) ∧
      (∀ i, i + 1 < ceilDiv bigFile.size defaultChunkSize →
        min ((i + 1) * defaultChunkSize) bigFile.size = (i + 1) * defaultChunkSize) ∧
      min (ceilDiv bigFile.size defaultChunkSize * defaultChunkSize) bigFile.size =
        bigFile.size :=
  chunkInfo_bounds okEnv defaultChunkSize emptyDB bigFile "Game" "EU"
    (by rw [bigFile_size]; decide) (by decide) (by decide) (fun _ _ => rfl) (fun _ _ => rfl)
    rfl

/-! ## C27: a large archive is stored as one chunk -/

theorem chunksOf_putChunk_same (chunks : List ChunkRecord) (r : ChunkRecord) :
    chunksOf (putChunk chunks r) r.gameId =
      (chunksOf chunks r.gameId).filter (fun c => !decide (c.chunkIndex = r.chunkIndex)) ++
        [r] := by
  unfold chunksOf putChunk
  rw [List.filter_append, List.filter_filter, List.filter_filter]
  have h1 : List.filter (fun c => decide (c.gameId = r.gameId)) [r] = [r] := by simp
  rw [h1]
  congr 1
  apply List.filter_congr
  intro c _
  by_cases hg : c.gameId = r.gameId <;> simp [hg]

/-- The run of a successful install of a large archive, in closed form. -/
theorem installGameFromFile_archive (env : Env) (chunkSize : Nat) (db : DB)
    (file : JSFile) (name region : String) (zipData : List ZipEntry) (e : ZipEntry)
    (fileData : Bytes)
    (hsize : 100 * 1024 * 1024 < file.size)
    (hzip : endsWithLower file.name ".zip" = true)
    (hread : env.ok .readFile = true) (hjs : env.hasJSZip = true)
    (hdec : env.loadAsync file.data = some zipData)
    (hmain : findMainFileEntry zipData = some e)
    (hdata : e.data = some fileData)
    (hsave : env.ok (.putGame (newGameId env)) = true)
    (hchunk : env.ok (.putChunk (newGameId env) 0) = true) :
    installGameFromFile env chunkSize db file name region =
      ({ localGames :=
           putGame db.localGames (archiveGameData env chunkSize file name region e.name fileData),
         gameChunks :=
           putChunk db.gameChunks
             { gameId := newGameId env, chunkIndex := 0, data := fileData,
               timestamp := env.now } },
        .ok (archiveGameData env chunkSize file name region e.name fileData)) := by
  have h := (installGameFromFile_large env chunkSize db file name region hsize).trans
    (installLargeFile_archive env chunkSize db file name region zipData e fileData hzip hread
      hjs hdec hmain hdata hsave)
  simp only [saveChunk, hchunk, if_true] at h
  exact h

/-- C27 as stated fails: the chunk store of `staleIndexOneDB` holds a chunk at index 1
under the id that the install generates; after the successful install of the large
archive `bigZip` the chunk store holds two chunks for the new title, the old one at index
1 and the new one at index 0. -/
theorem large_archive_single_chunk_counterexample :
    (installGameFromFile threeEntriesEnv defaultChunkSize staleIndexOneDB bigZip
        "Game" "EU").2 =
      .ok (archiveGameData threeEntriesEnv defaultChunkSize bigZip "Game" "EU"
        "game/game.bin" [7, 8]) ∧
    chunksOf
        (installGameFromFile threeEntriesEnv defaultChunkSize staleIndexOneDB bigZip
          "Game" "EU").1.gameChunks
        (newGameId threeEntriesEnv) =
      [{ gameId := newGameId threeEntriesEnv, chunkIndex := 1, data := [9], timestamp := 0 },
       { gameId := newGameId threeEntriesEnv, chunkIndex := 0, data := [7, 8],
         timestamp := threeEntriesEnv.now }] := by
  rw [installGameFromFile_archive threeEntriesEnv defaultChunkSize staleIndexOneDB bigZip
    "Game" "EU" threeEntries { name := "game/game.bin", dir := false, data := some [7, 8] }
    [7, 8] (by rw [bigZip_size]; decide) (by decide) rfl rfl rfl (by decide) rfl rfl rfl]
  exact ⟨rfl, by decide⟩

/-- C27 (amended): a large archive is stored as one chunk. For every install of an archive
of more than 100 MiB that succeeds (directory decoded, main entry `e` extracted to
`fileData`, both writes succeeding) into a chunk store that holds no chunk under the new
id at an index other than 0, the chunk store holds for the new title exactly one chunk,
at index 0, whose bytes are `fileData`; `chunkInfo.totalChunks` is 1; the size of the
chunked file entry is the length of that chunk; and `loadChunkedFile` with the recorded
`totalChunks` returns exactly these bytes. -/
theorem large_archive_single_chunk (env envL : Env) (chunkSize : Nat) (db : DB)
    (file : JSFile) (name region : String) (zipData : List ZipEntry) (e : ZipEntry)
    (fileData : Bytes)
    (hsize : 100 * 1024 * 1024 < file.size)
    (hzip : endsWithLower file.name ".zip" = true)
    (hread : env.ok .readFile = true) (hjs : env.hasJSZip = true)
    (hdec : env.loadAsync file.data = some zipData)
    (hmain : findMainFileEntry zipData = some e)
    (hdata : e.data = some fileData)
    (hsave : env.ok (.putGame (newGameId env)) = true)
    (hchunk : env.ok (.putChunk (newGameId env) 0) = true)
    (hnone : ∀ c ∈ chunksOf db.gameChunks (newGameId env), c.chunkIndex = 0)
    (hget : envL.ok (.getChunk (newGameId env) 0) = true) :
    ∃ (db1 : DB) (g : GameData),
      installGameFromFile env chunkSize db file name region = (db1, .ok g) ∧
      chunksOf db1.gameChunks (newGameId env) =
        [{ gameId := newGameId env, chunkIndex := 0, data := fileData,
           timestamp := env.now }] ∧
      recordedTotalChunks g = some 1 ∧
      (g.files.getD []).map (fun f => (f.isChunked, f.size)) = [(true, fileData.length)] ∧
      loadChunkedFile envL db1 (newGameId env) 1 = .ok fileData := by
  have h := installGameFromFile_archive env chunkSize db file name region zipData e fileData
    hsize hzip hread hjs hdec hmain hdata hsave hchunk
  have hone := chunksOf_putChunk_same db.gameChunks
    { gameId := newGameId env, chunkIndex := 0, data := fileData, timestamp := env.now }
  simp only [] at hone
  have hempty : (chunksOf db.gameChunks (newGameId env)).filter
      (fun c => !decide (c.chunkIndex = 0)) = [] := by
    rw [List.filter_eq_nil_iff]
    intro c hc
    simp [hnone c hc]
  rw [hempty, List.nil_append] at hone
  refine ⟨_, _, h, ?_, rfl, rfl, ?_⟩
  · simp only []
    exact hone
  · rw [loadChunkedFile_present envL _ (newGameId env) 1 (fun j hj => by
      have h0 : j = 0 := by omega
      rw [h0]
      exact hget)]
    simp [presentChunks, getChunk_putChunk, List.range_succ]

/-- The large archive `bigZip` with the directory `threeEntries`, installed into
`staleIndexZeroDB`: the chunk that was stored at index 0 under the new id is replaced,
and the title has the single chunk `[7, 8]`, the bytes of `game/game.bin`. -/
theorem large_archive_single_chunk_witness :
    chunksOf staleIndexZeroDB.gameChunks (newGameId threeEntriesEnv) =
      [{ gameId := newGameId threeEntriesEnv, chunkIndex := 0, data := [9],
         timestamp := 0 }] ∧
    ∃ (db1 : DB) (g : GameData),
      installGameFromFile threeEntriesEnv defaultChunkSize staleIndexZeroDB bigZip
          "Game" "EU" = (db1, .ok g) ∧
      chunksOf db1.gameChunks (newGameId threeEntriesEnv) =
        [{ gameId := newGameId threeEntriesEnv, chunkIndex := 0, data := [7, 8],
           timestamp := threeEntriesEnv.now }] ∧
      recordedTotalChunks g = some 1 ∧
      (g.files.getD []).map (fun f => (f.isChunked, f.size)) = [(true, [7, 8].length)] ∧
      loadChunkedFile okEnv db1 (newGameId threeEntriesEnv) 1 = .ok [7, 8] :=
  ⟨by decide,
    large_archive_single_chunk threeEntriesEnv okEnv defaultChunkSize staleIndexZeroDB bigZip
      "Game" "EU" threeEntries { name := "game/game.bin", dir := false, data := some [7, 8] }
      [7, 8] (by rw [bigZip_size]; decide) (by decide) rfl rfl rfl (by decide) rfl rfl rfl
      (by decide) rfl⟩

/-! ## C24: operations on different titles -/

theorem Untouched.refl (B : String) (db : DB) : Untouched B db db := ⟨rfl, rfl⟩

theorem Untouched.trans {B : String} {db db1 db2 : DB} (h1 : Untouched B db db1)
    (h2 : Untouched B db1 db2) : Untouched B db db2 :=
  ⟨h2.1.trans h1.1, h2.2.trans h1.2⟩

theorem saveGame_untouched (env : Env) (db : DB) (g : GameData) (B : String)
    (h : B ≠ g.id) : Untouched B db (saveGame env db g).1 := by
  unfold saveGame
  by_cases hp : env.ok (.putGame g.id) = true
  · simp only [hp, if_true]
    refine ⟨?_, rfl⟩
    simp only []
    rw [getGame_putGame, if_neg (fun e => h e.symm)]
  · simp only [hp, Bool.false_eq_true, if_false]
    exact Untouched.refl B db

theorem saveChunk_untouched (env : Env) (db : DB) (gameId : String) (chunkIndex : Nat)
    (chunkData : Bytes) (B : String) (h : B ≠ gameId) :
    Untouched B db (saveChunk env db gameId chunkIndex chunkData).1 := by
  unfold saveChunk
  by_cases hp : env.ok (.putChunk gameId chunkIndex) = true
  · simp only [hp, if_true]
    refine ⟨rfl, ?_⟩
    simp only []
    exact chunksOf_putChunk_ne _ _ _ (fun e => h e.symm)
  · simp only [hp, Bool.false_eq_true, if_false]
    exact Untouched.refl B db

theorem storeFileAsChunks_untouched (env : Env) (chunkSize : Nat) (db : DB) (file : JSFile)
    (gameId name region B : String) (h : B ≠ gameId) :
    Untouched B db (storeFileAsChunks env chunkSize db file gameId name region).1 := by
  have hframe := storeLoop_frame env chunkSize file gameId (ceilDiv file.size chunkSize) 0 db []
  unfold storeFileAsChunks
  simp only []
  cases hs : storeLoop env chunkSize file gameId (ceilDiv file.size chunkSize) 0 db [] with
  | mk dbL r =>
    rw [hs] at hframe
    have hL : Untouched B db dbL := ⟨by rw [hframe.1], hframe.2 B h⟩
    cases r with
    | error e => exact hL
    | ok chunks =>
      simp only []
      have hS := saveGame_untouched env dbL
        { id := gameId, name := name, region := region, originalFilename := file.name,
          fileSize := some file.size, fileType := getFileType file.name,
          files := some [{ filename := file.name, fullPath := none, data := none,
                           size := file.size, type := getFileType file.name, isChunked := true,
                           chunkInfo := some { gameId := gameId,
                                               totalChunks := ceilDiv file.size chunkSize,
                                               chunkSize := chunkSize, chunks := some chunks } }],
          installedDate := env.now, lastPlayed := none, playCount := some 0,
          isCompressed := false, useChunks := true, mainFileName := none } B h
      split
      · next db2 e heq =>
        rw [heq] at hS
        exact hL.trans hS
      · next db2 u heq =>
        rw [heq] at hS
        exact hL.trans hS

theorem saveGame_untouched_of_eq (env : Env) (db db1 : DB) (g : GameData) (B : String)
    (r : Except String String) (heq : saveGame env db g = (db1, r)) (h : B ≠ g.id) :
    Untouched B db db1 := by
  have hS := saveGame_untouched env db g B h
  rw [heq] at hS
  exact hS

theorem saveChunk_untouched_of_eq (env : Env) (db db1 : DB) (gameId : String)
    (chunkIndex : Nat) (chunkData : Bytes) (B : String) (r : Except String Unit)
    (heq : saveChunk env db gameId chunkIndex chunkData = (db1, r)) (h : B ≠ gameId) :
    Untouched B db db1 := by
  have hS := saveChunk_untouched env db gameId chunkIndex chunkData B h
  rw [heq] at hS
  exact hS

theorem installSmallFile_untouched (env : Env) (db : DB) (file : JSFile)
    (name region B : String) (h : B ≠ newGameId env) :
    Untouched B db (installSmallFile env db file name region).1 := by
  unfold installSmallFile
  by_cases hr : env.ok .readFile = true
  · simp only [hr, if_true]
    split
    · next db1 e heq => exact saveGame_untouched_of_eq env db db1 _ B _ heq h
    · next db1 u heq => exact saveGame_untouched_of_eq env db db1 _ B _ heq h
  · simp only [hr, Bool.false_eq_true, if_false]
    exact Untouched.refl B db

theorem installLargeFile_untouched (env : Env) (chunkSize : Nat) (db : DB) (file : JSFile)
    (name region B : String) (h : B ≠ newGameId env) :
    Untouched B db (installLargeFile env chunkSize db file name region).1 := by
  unfold installLargeFile
  by_cases hzip : endsWithLower file.name ".zip" = true
  · simp only [hzip, Bool.not_true, Bool.false_eq_true, if_false, readFileAsArrayBuffer]
    by_cases hr : env.ok .readFile = true
    · by_cases hjs : env.hasJSZip = true
      · simp only [hr, if_true, hjs, Bool.not_true, Bool.false_eq_true, if_false]
        cases hd : env.loadAsync file.data with
        | none => exact Untouched.refl B db
        | some zipData =>
          simp only []
          cases hm : findMainFileEntry zipData with
          | none => exact Untouched.refl B db
          | some entry =>
            simp only []
            cases he : entry.data with
            | none => exact Untouched.refl B db
            | some fileData =>
              simp only []
              split
              · next db1 e heq => exact saveGame_untouched_of_eq env db db1 _ B _ heq h
              · next db1 u heq =>
                have hS := saveGame_untouched_of_eq env db db1 _ B _ heq h
                split
                · next db2 e heq2 =>
                  exact hS.trans (saveChunk_untouched_of_eq env db1 db2 _ _ _ B _ heq2 h)
                · next db2 u2 heq2 =>
                  exact hS.trans (saveChunk_untouched_of_eq env db1 db2 _ _ _ B _ heq2 h)
      · have hj : env.hasJSZip = false := by simpa using hjs
        simp only [hr, if_true, hj, Bool.not_false]
        exact Untouched.refl B db
    · simp only [hr, Bool.false_eq_true, if_false]
      exact Untouched.refl B db
  · have hz : endsWithLower file.name ".zip" = false := by simpa using hzip
    simp only [hz, Bool.not_false, if_true]
    exact storeFileAsChunks_untouched env chunkSize db file (newGameId env) name region B h

theorem installGameFromFile_untouched (env : Env) (chunkSize : Nat) (db : DB) (file : JSFile)
    (name region B : String) (h : B ≠ newGameId env) :
    Untouched B db (installGameFromFile env chunkSize db file name region).1 := by
  unfold installGameFromFile
  by_cases hs : file.size > 100 * 1024 * 1024
  · simp only [hs, decide_True, if_true]
    exact installLargeFile_untouched env chunkSize db file name region B h
  · simp only [hs, decide_False, Bool.false_eq_true, if_false]
    exact installSmallFile_untouched env db file name region B h

theorem launch_untouched (env : Env) (db : DB) (game : GameData) (mainFileData : Option Bytes)
    (mainFileName B : String) (h : B ≠ game.id) :
    Untouched B db (launch env db game mainFileData mainFileName).1 := by
  unfold launch
  cases mainFileData with
  | none => exact Untouched.refl B db
  | some data =>
    simp only []
    have hS := saveGame_untouched env db
      { game with lastPlayed := some env.now, playCount := some (game.playCount.getD 0 + 1) }
      B h
    split
    · next db1 e heq =>
      rw [heq] at hS
      exact hS
    · next db1 u heq =>
      rw [heq] at hS
      split
      · exact hS
      · exact hS

theorem playGame_untouched (env : Env) (db : DB) (A B : String) (h : B ≠ A) :
    Untouched B db (playGame env db A).1 := by
  unfold playGame
  simp only [loadGame]
  by_cases hl : env.ok (.getGame A) = true
  · simp only [hl, if_true]
    cases hg : getGame db.localGames A with
    | none => exact Untouched.refl B db
    | some game =>
      have hid : B ≠ game.id := by
        rw [getGame_id db.localGames A game hg]
        exact h
      simp only []
      cases hf : game.files with
      | none => exact Untouched.refl B db
      | some files =>
        cases files with
        | nil => exact Untouched.refl B db
        | cons fileInfo rest =>
          simp only []
          by_cases hc : (game.useChunks && fileInfo.isChunked) = true
          · simp only [hc, if_true]
            cases hi : fileInfo.chunkInfo with
            | none => exact Untouched.refl B db
            | some chunkInfo =>
              simp only []
              cases hd : loadChunkedFile env db A chunkInfo.totalChunks with
              | error e => exact Untouched.refl B db
              | ok bytes => exact launch_untouched env db game _ _ B hid
          · simp only [hc, Bool.false_eq_true, if_false]
            cases hs : selectMainFile (fileInfo :: rest) with
            | none => exact Untouched.refl B db
            | some mainFile => exact launch_untouched env db game _ _ B hid
  · simp only [hl, Bool.false_eq_true, if_false]
    exact Untouched.refl B db

theorem removeChunks_untouched (env : Env) (db : DB) (A B : String) (h : B ≠ A) :
    Untouched B db (removeChunks env db A).1 := by
  unfold removeChunks
  by_cases hp : env.ok (.deleteChunks A) = true
  · simp only [hp, if_true]
    exact ⟨rfl, chunksOf_filter_other _ _ _ h⟩
  · simp only [hp, Bool.false_eq_true, if_false]
    exact Untouched.refl B db

theorem removeMetadata_untouched (env : Env) (db : DB) (A B : String) (h : B ≠ A) :
    Untouched B db (removeMetadata env db A).1 := by
  unfold removeMetadata
  by_cases hp : env.ok (.deleteGame A) = true
  · simp only [hp, if_true]
    refine ⟨?_, rfl⟩
    simp only []
    rw [getGame_deleteGame, if_neg h]
  · simp only [hp, Bool.false_eq_true, if_false]
    exact Untouched.refl B db

theorem removeGame_untouched (env : Env) (db : DB) (A B : String) (h : B ≠ A) :
    Untouched B db (removeGame env db A).1 := by
  unfold removeGame
  cases hl : loadGame env db A with
  | error e => exact Untouched.refl B db
  | ok game =>
    simp only []
    by_cases hu : (game.map (fun g => g.useChunks)).getD false = true
    · simp only [hu, if_true]
      have hC := removeChunks_untouched env db A B h
      split
      · next db1 e heq =>
        rw [heq] at hC
        exact hC
      · next db1 u heq =>
        rw [heq] at hC
        exact hC.trans (removeMetadata_untouched env db1 A B h)
    · simp only [hu, Bool.false_eq_true, if_false]
      exact removeMetadata_untouched env db A B h

/-- C24: operations on different titles do not interfere. For every store state `db` and
distinct title ids `A` and `B`, whatever the requests do: an install that generates the
id `A`, `playGame` on `A` and `removeGame` on `A` each leave the catalog record of `B`
and the list of chunks keyed by `B` exactly as they were. -/
theorem operations_on_other_titles (env envP envR : Env) (chunkSize : Nat) (db : DB)
    (file : JSFile) (name region A B : String) (hA : newGameId env = A) (hAB : A ≠ B) :
    Untouched B db (installGameFromFile env chunkSize db file name region).1 ∧
    Untouched B db (playGame envP db A).1 ∧
    Untouched B db (removeGame envR db A).1 :=
  ⟨installGameFromFile_untouched env chunkSize db file name region B
      (fun e => hAB (e.trans hA).symm),
    playGame_untouched envP db A B (fun e => hAB e.symm),
    removeGame_untouched envR db A B (fun e => hAB e.symm)⟩

/-- In the stores `afterBoth` the titles `bigGame` and `smallGame` are installed; a second
install under the id of `bigGame`, playing it and removing it leave `smallGame` alone. -/
theorem operations_on_other_titles_witness :
    Untouched (newGameId okEnvLater) afterBoth
      (installGameFromFile okEnv defaultChunkSize afterBoth fiveBytes "Again" "EU").1 ∧
    Untouched (newGameId okEnvLater) afterBoth (playGame okEnv afterBoth (newGameId okEnv)).1 ∧
    Untouched (newGameId okEnvLater) afterBoth
      (removeGame okEnv afterBoth (newGameId okEnv)).1 :=
  operations_on_other_titles okEnv okEnv okEnv defaultChunkSize afterBoth fiveBytes "Again" "EU"
    (newGameId okEnv) (newGameId okEnvLater) rfl (by decide)

/-! ## C23: the order of the two steps of `removeGame` -/

/-- C23 as stated fails: `installedChunked` holds `threeChunkGame` with all three chunks
and every request succeeds, yet the state between the two steps of `removeGame` holds the
catalog row with every one of its chunks missing; no state of the run holds orphaned
chunks. -/
theorem removal_order_counterexample :
    installedChunked.localGames = [threeChunkGame] ∧
    danglingRow installedChunked "local_1_a" = false ∧
    removeGameStates okEnv installedChunked "local_1_a" =
      [installedChunked, { installedChunked with gameChunks := [] }, emptyDB] ∧
    danglingRow { installedChunked with gameChunks := [] } "local_1_a" = true ∧
    missingChunks { installedChunked with gameChunks := [] } threeChunkGame = [0, 1, 2] ∧
    (removeGameStates okEnv installedChunked "local_1_a").all
      (fun s => !orphanedChunks s "local_1_a") = true := by
  decide

/-- C23 (amended): `removeGame` deletes the chunks first and the catalog row second. For
every chunked title of the catalog whose requests succeed, the run passes through exactly
one intermediate state; in it the catalog row is still present and the chunk store holds
no chunk of the title, so that a row with a positive recorded chunk count has its chunks
missing; the last state is the one `removeGame` ends in and holds neither the row nor a
chunk; and no state of the run holds chunks of the title without its catalog row. -/
theorem removal_order (env : Env) (db : DB) (gameId : String) (g : GameData)
    (hgame : getGame db.localGames gameId = some g)
    (hchunked : g.useChunks = true)
    (hload : env.ok (.getGame gameId) = true)
    (hchunks : env.ok (.deleteChunks gameId) = true)
    (hdelete : env.ok (.deleteGame gameId) = true) :
    ∃ mid fin : DB,
      removeGameStates env db gameId = [db, mid, fin] ∧
      fin = (removeGame env db gameId).1 ∧
      getGame mid.localGames gameId = some g ∧
      chunksOf mid.gameChunks gameId = [] ∧
      (0 < (recordedTotalChunks g).getD 0 → danglingRow mid gameId = true) ∧
      getGame fin.localGames gameId = none ∧
      chunksOf fin.gameChunks gameId = [] ∧
      ∀ s ∈ removeGameStates env db gameId, orphanedChunks s gameId = false := by
  have hstates : removeGameStates env db gameId =
      [db, { db with gameChunks := db.gameChunks.filter (fun c => !decide (c.gameId = gameId)) },
        { localGames := deleteGame db.localGames gameId,
          gameChunks := db.gameChunks.filter (fun c => !decide (c.gameId = gameId)) }] := by
    unfold removeGameStates
    simp [loadGame, hload, hgame, hchunked, removeChunks, hchunks, removeMetadata, hdelete]
  have hfin := removeGame_known env db gameId g hgame hload hchunks hdelete
  rw [if_pos hchunked] at hfin
  have hid : g.id = gameId := getGame_id db.localGames gameId g hgame
  have hnone : ∀ i, getChunk (db.gameChunks.filter (fun c => !decide (c.gameId = gameId)))
      gameId i = none := by
    intro i
    unfold getChunk
    rw [List.find?_eq_none]
    intro c hc
    have := (List.mem_filter.mp hc).2
    simp only [Bool.not_eq_true', decide_eq_false_iff_not] at this
    simp [this]
  refine ⟨_, _, hstates, ?_, hgame, chunksOf_filter_ne _ _, ?_, ?_, chunksOf_filter_ne _ _, ?_⟩
  · rw [hfin]
  · intro hpos
    unfold danglingRow
    simp only [hgame, hchunked, Bool.true_and]
    unfold missingChunks
    rw [hid]
    simp only [hnone, Option.isNone_none, List.filter_true]
    cases hn : (recordedTotalChunks g).getD 0 with
    | zero => omega
    | succ n => simp [List.range_succ_eq_map]
  · simp only []
    rw [getGame_deleteGame, if_pos rfl]
  · intro s hs
    rw [hstates] at hs
    simp only [List.mem_cons, List.mem_singleton, List.not_mem_nil, or_false] at hs
    unfold orphanedChunks
    rcases hs with h | h | h
    · rw [h, hgame]
      rfl
    · rw [h]
      simp only [hgame]
      rfl
    · rw [h]
      simp only []
      rw [chunksOf_filter_ne]
      simp

/-- The removal of `threeChunkGame` from `installedChunked` in the browser `okEnv`. -/
theorem removal_order_witness :
    ∃ mid fin : DB,
      removeGameStates okEnv installedChunked "local_1_a" = [installedChunked, mid, fin] ∧
      fin = (removeGame okEnv installedChunked "local_1_a").1 ∧
      getGame mid.localGames "local_1_a" = some threeChunkGame ∧
      chunksOf mid.gameChunks "local_1_a" = [] ∧
      (0 < (recordedTotalChunks threeChunkGame).getD 0 →
        danglingRow mid "local_1_a" = true) ∧
      getGame fin.localGames "local_1_a" = none ∧
      chunksOf fin.gameChunks "local_1_a" = [] ∧
      ∀ s ∈ removeGameStates okEnv installedChunked "local_1_a",
        orphanedChunks s "local_1_a" = false :=
  removal_order okEnv installedChunked "local_1_a" threeChunkGame (by decide) (by decide)
    rfl rfl rfl

/-! ## C26: an id without a catalog record -/

/-- C26 as stated fails: the catalog of `gappedDB` holds no record under `local_0_unknown`
and the request succeeds, yet `loadGame` completes normally with `undefined` and
`playGame` completes with its error caught and only reported. -/
theorem unknown_id_counterexample :
    getGame gappedDB.localGames "local_0_unknown" = none ∧
    loadGame okEnv gappedDB "local_0_unknown" = .ok none ∧
    playGame okEnv gappedDB "local_0_unknown" =
      (gappedDB, .failed "Jogo não encontrado ou corrompido") := by
  decide

/-- C26 (amended): for every store state and every id that has no catalog record,
`playGame` leaves both stores as they were, whatever the request does (`loadGame` only
reads); when the read request succeeds, `loadGame` completes normally with `undefined`
and `playGame` ends in its `catch` block, which reports the message
`Jogo não encontrado ou corrompido` and does not hand an error to the caller. -/
theorem unknown_id_outcomes (env : Env) (db : DB) (gameId : String)
    (hnone : getGame db.localGames gameId = none) :
    (playGame env db gameId).1 = db ∧
    (env.ok (.getGame gameId) = true →
      loadGame env db gameId = .ok none ∧
      (playGame env db gameId).2 = .failed "Jogo não encontrado ou corrompido") := by
  unfold playGame loadGame
  by_cases hl : env.ok (.getGame gameId) = true
  · simp [hl, hnone]
  · simp [hl]

/-- The id `local_0_unknown` in the stores `gappedDB`. -/
theorem unknown_id_outcomes_witness :
    (playGame okEnv gappedDB "local_0_unknown").1 = gappedDB ∧
    (okEnv.ok (.getGame "local_0_unknown") = true →
      loadGame okEnv gappedDB "local_0_unknown" = .ok none ∧
      (playGame okEnv gappedDB "local_0_unknown").2 =
        .failed "Jogo não encontrado ou corrompido") :=
  unknown_id_outcomes okEnv gappedDB "local_0_unknown" (by decide)

/-! ## C21: title ids -/

theorem digitChar_toNat (k : Nat) (h : k < 10) : (Nat.digitChar k).toNat - 48 = k := by
  interval_cases k <;> rfl

theorem digitChar_ne_underscore (k : Nat) (h : k < 10) : Nat.digitChar k ≠ '_' := by
  interval_cases k <;> decide

theorem digitsValue_toDigitsCore :
    ∀ (fuel n : Nat) (ds : List Char), n < fuel →
      digitsValue 0 (Nat.toDigitsCore 10 fuel n ds) = digitsValue n ds := by
  intro fuel
  induction fuel with
  | zero => intro n ds h; omega
  | succ fuel ih =>
    intro n ds h
    rw [Nat.toDigitsCore]
    by_cases h0 : n / 10 = 0
    · rw [if_pos h0]
      have hn : n < 10 := by omega
      unfold digitsValue
      rw [List.foldl_cons, Nat.mod_eq_of_lt hn, digitChar_toNat n hn]
      simp
    · rw [if_neg h0]
      rw [ih (n / 10) _ (by omega)]
      unfold digitsValue
      rw [List.foldl_cons, digitChar_toNat _ (Nat.mod_lt n (by decide))]
      congr 1
      omega

/-- The decimal digits of a number determine the number. -/
theorem toDigits_injective (a b : Nat) (h : Nat.toDigits 10 a = Nat.toDigits 10 b) : a = b := by
  unfold Nat.toDigits at h
  have h2 := congrArg (digitsValue 0) h
  rw [digitsValue_toDigitsCore _ _ _ (Nat.lt_succ_self a),
    digitsValue_toDigitsCore _ _ _ (Nat.lt_succ_self b)] at h2
  simpa [digitsValue] using h2

theorem toDigitsCore_no_underscore :
    ∀ (fuel n : Nat) (ds : List Char), (∀ c ∈ ds, c ≠ '_') →
      ∀ c ∈ Nat.toDigitsCore 10 fuel n ds, c ≠ '_' := by
  intro fuel
  induction fuel with
  | zero => intro n ds h; simpa [Nat.toDigitsCore] using h
  | succ fuel ih =>
    intro n ds h
    rw [Nat.toDigitsCore]
    have hcons : ∀ c ∈ Nat.digitChar (n % 10) :: ds, c ≠ '_' := by
      intro c hc
      rcases List.mem_cons.mp hc with hc | hc
      · rw [hc]
        exact digitChar_ne_underscore _ (Nat.mod_lt n (by decide))
      · exact h c hc
    by_cases h0 : n / 10 = 0
    · rw [if_pos h0]
      exact hcons
    · rw [if_neg h0]
      exact ih _ _ hcons

/-- Two lists that agree and are each cut at the first occurrence of `x` have the same
two parts. -/
theorem split_at_first {α : Type} (x : α) :
    ∀ (l1 l2 r1 r2 : List α), x ∉ l1 → x ∉ l2 → l1 ++ x :: r1 = l2 ++ x :: r2 →
      l1 = l2 ∧ r1 = r2 := by
  intro l1
  induction l1 with
  | nil =>
    intro l2 r1 r2 _ h2 h
    cases l2 with
    | nil => simpa using h
    | cons b l2 =>
      simp only [List.nil_append, List.cons_append, List.cons.injEq] at h
      exact absurd (h.1 ▸ List.mem_cons_self _ _) h2
  | cons a l1 ih =>
    intro l2 r1 r2 h1 h2 h
    cases l2 with
    | nil =>
      simp only [List.nil_append, List.cons_append, List.cons.injEq] at h
      exact absurd (h.1 ▸ List.mem_cons_self _ _) h1
    | cons b l2 =>
      simp only [List.cons_append, List.cons.injEq] at h
      obtain ⟨hl, hr⟩ := ih l2 r1 r2 (fun m => h1 (List.mem_cons_of_mem _ m))
        (fun m => h2 (List.mem_cons_of_mem _ m)) h.2
      exact ⟨by rw [h.1, hl], hr⟩

/-- The id is built from the clock reading and the random suffix without loss: equal ids
come from equal readings and equal suffixes. -/
theorem newGameId_injective (env1 env2 : Env) (h : newGameId env1 = newGameId env2) :
    env1.now = env2.now ∧ env1.rnd = env2.rnd := by
  have hd := congrArg String.data h
  unfold newGameId at hd
  simp only [String.data_append, List.append_assoc] at hd
  have hd1 := List.append_cancel_left hd
  have hrepr : ∀ n : Nat, (toString n).data = Nat.toDigits 10 n := fun n => rfl
  rw [hrepr, hrepr] at hd1
  simp only [List.singleton_append] at hd1
  have hno : ∀ n : Nat, '_' ∉ Nat.toDigits 10 n := by
    intro n hmem
    exact toDigitsCore_no_underscore (n + 1) n [] (fun c hc => by cases hc) '_' hmem rfl
  obtain ⟨h1, h2⟩ := split_at_first '_' _ _ _ _ (hno env1.now) (hno env2.now) hd1
  exact ⟨toDigits_injective _ _ h1, String.ext h2⟩

/-- C21 (the id of a title is not unique): the id is made of the clock reading and of the
nine characters kept of the random draw, and nothing compares it with the catalog. For
every two installs that succeed one after the other, read the same clock value and keep
the same nine characters, the two records have the same id, and the second install
replaces the catalog record of the first: the catalog held the first record under the id
and holds the second one afterwards. -/
theorem id_collision_overwrites (env1 env2 : Env) (chunkSize : Nat) (db db1 db2 : DB)
    (file1 file2 : JSFile) (name1 region1 name2 region2 : String) (g1 g2 : GameData)
    (hnow : env1.now = env2.now) (hrnd : env1.rnd = env2.rnd)
    (h1 : installGameFromFile env1 chunkSize db file1 name1 region1 = (db1, .ok g1))
    (h2 : installGameFromFile env2 chunkSize db1 file2 name2 region2 = (db2, .ok g2)) :
    g1.id = g2.id ∧
    getGame db1.localGames g1.id = some g1 ∧
    getGame db2.localGames g1.id = some g2 := by
  obtain ⟨hid1, hcat1, _, _⟩ :=
    installGameFromFile_effect env1 chunkSize db db1 file1 name1 region1 g1 h1
  obtain ⟨hid2, hcat2, _, _⟩ :=
    installGameFromFile_effect env2 chunkSize db1 db2 file2 name2 region2 g2 h2
  have hsame : newGameId env1 = newGameId env2 := by
    unfold newGameId
    rw [hnow, hrnd]
  have hids : g1.id = g2.id := by rw [hid1, hid2, hsame]
  refine ⟨hids, ?_, ?_⟩
  · rw [hcat1, getGame_putGame, if_pos rfl]
  · rw [hcat2, getGame_putGame, if_pos hids.symm]

/-- Two installs in the browser `okEnv` (clock reading 1700000000000, suffix `k3x9q2m7p`):
`game.bin` as `First`, then `other.iso` as `Second`. Both get the id
`local_1700000000000_k3x9q2m7p`, and the record of `First`, a different record, is gone
from the catalog. -/
theorem id_collision_overwrites_witness :
    newGameId okEnv = "local_1700000000000_k3x9q2m7p" ∧
    directGameData okEnv fiveBytes "First" "EU" ≠
      directGameData okEnv sixBytes "Second" "US" ∧
    (directGameData okEnv fiveBytes "First" "EU").id =
      (directGameData okEnv sixBytes "Second" "US").id ∧
    getGame afterFirst.localGames (directGameData okEnv fiveBytes "First" "EU").id =
      some (directGameData okEnv fiveBytes "First" "EU") ∧
    getGame
        ({ localGames := [directGameData okEnv sixBytes "Second" "US"],
           gameChunks := [] } : DB).localGames
        (directGameData okEnv fiveBytes "First" "EU").id =
      some (directGameData okEnv sixBytes "Second" "US") :=
  ⟨by decide, by decide,
    id_collision_overwrites okEnv okEnv defaultChunkSize emptyDB afterFirst
      { localGames := [directGameData okEnv sixBytes "Second" "US"], gameChunks := [] }
      fiveBytes sixBytes "First" "EU" "Second" "US"
      (directGameData okEnv fiveBytes "First" "EU")
      (directGameData okEnv sixBytes "Second" "US") rfl rfl (by decide) (by decide)⟩

/-- Two installs whose clock readings differ or whose random suffixes differ get different
ids, and then the later install, however it ends, leaves the catalog record and the
chunks of the earlier title as they were. -/
theorem ids_differ (env1 env2 : Env) (chunkSize : Nat) (db : DB) (file : JSFile)
    (name region : String)
    (hdiff : env1.now ≠ env2.now ∨ env1.rnd ≠ env2.rnd) :
    newGameId env1 ≠ newGameId env2 ∧
    Untouched (newGameId env1) db
      (installGameFromFile env2 chunkSize db file name region).1 := by
  have hne : newGameId env1 ≠ newGameId env2 := by
    intro e
    have := newGameId_injective env1 env2 e
    rcases hdiff with hd | hd
    · exact hd this.1
    · exact hd this.2
  exact ⟨hne, installGameFromFile_untouched env2 chunkSize db file name region _ hne⟩

/-! ## C29: the comparator of the listing -/

theorem mem_insertAfter {α : Type} (cmp : α → α → Int) (a x : α) :
    ∀ l : List α, x ∈ insertAfter cmp a l ↔ x = a ∨ x ∈ l := by
  intro l
  induction l with
  | nil => simp [insertAfter]
  | cons b l ih =>
    unfold insertAfter
    by_cases h : cmp a b < 0
    · rw [if_pos h]
      simp
    · rw [if_neg h, List.mem_cons, ih, List.mem_cons]
      tauto

theorem perm_insertAfter {α : Type} (cmp : α → α → Int) (a : α) :
    ∀ l : List α, (insertAfter cmp a l).Perm (a :: l) := by
  intro l
  induction l with
  | nil => exact List.Perm.refl _
  | cons b l ih =>
    unfold insertAfter
    by_cases h : cmp a b < 0
    · rw [if_pos h]
    · rw [if_neg h]
      exact (List.Perm.cons b ih).trans (List.Perm.swap a b l)

theorem sorted_insertAfter {α : Type} (cmp : α → α → Int) (all : List α)
    (h : ConsistentComparator cmp all) (a : α) (ha : a ∈ all) :
    ∀ l : List α, (∀ x ∈ l, x ∈ all) →
      l.Pairwise (fun p q => ¬ cmp q p < 0) →
      (insertAfter cmp a l).Pairwise (fun p q => ¬ cmp q p < 0) := by
  intro l
  induction l with
  | nil =>
    intro _ _
    simp [insertAfter]
  | cons b l ih =>
    intro hmem hl
    have hb : b ∈ all := hmem b (List.mem_cons_self b l)
    have hbl : ∀ {x : α}, x ∈ l → ¬ cmp x b < 0 := fun hx => List.rel_of_pairwise_cons hl hx
    unfold insertAfter
    by_cases hab : cmp a b < 0
    · rw [if_pos hab]
      refine List.Pairwise.cons ?_ hl
      intro x hx
      rcases List.mem_cons.mp hx with rfl | hx
      · intro hxa
        have := consistent_flip cmp all h x a hb ha hxa
        omega
      · exact consistent_step cmp all h a b x ha hb (hmem x (List.mem_cons_of_mem b hx))
          (le_of_lt hab) (hbl hx)
    · rw [if_neg hab]
      refine List.Pairwise.cons ?_
        (ih (fun x hx => hmem x (List.mem_cons_of_mem b hx)) (List.Pairwise.of_cons hl))
      intro x hx
      rcases (mem_insertAfter cmp a x l).mp hx with rfl | hx
      · exact hab
      · exact hbl hx

/-- The insertion sort from the left keeps what the language promises of a sort. -/
theorem arraySortLeft_contract {α : Type} : SortContract (@arraySortLeft α) := by
  intro cmp l
  have key : ∀ (rest sorted : List α),
      (List.foldl (fun sorted a => insertAfter cmp a sorted) sorted rest).Perm
        (sorted ++ rest) ∧
      (ConsistentComparator cmp l → (∀ x ∈ rest, x ∈ l) → (∀ x ∈ sorted, x ∈ l) →
        sorted.Pairwise (fun p q => ¬ cmp q p < 0) →
        (List.foldl (fun sorted a => insertAfter cmp a sorted) sorted rest).Pairwise
          (fun p q => ¬ cmp q p < 0)) := by
    intro rest
    induction rest with
    | nil =>
      intro sorted
      exact ⟨by simp, fun _ _ _ hs => hs⟩
    | cons a rest ih =>
      intro sorted
      rw [List.foldl_cons]
      obtain ⟨hperm, hsorted⟩ := ih (insertAfter cmp a sorted)
      refine ⟨?_, fun hc hrest hin hs => ?_⟩
      · refine hperm.trans ?_
        refine ((perm_insertAfter cmp a sorted).append_right rest).trans ?_
        simp only [List.cons_append]
        exact List.perm_middle.symm
      · have ha : a ∈ l := hrest a (List.mem_cons_self a rest)
        refine hsorted hc (fun x hx => hrest x (List.mem_cons_of_mem a hx)) ?_
          (sorted_insertAfter cmp l hc a ha sorted hin hs)
        intro x hx
        rcases (mem_insertAfter cmp a x sorted).mp hx with rfl | hx
        · exact ha
        · exact hin x hx
  obtain ⟨hperm, hsorted⟩ := key l []
  refine ⟨by simpa using hperm, fun hc => ?_⟩
  exact hsorted hc (fun x hx => hx) (fun x hx => by cases hx) List.Pairwise.nil

/-- C29 as stated fails: the comparator places `latestInstalled` before `neverPlayed` and
`neverPlayed` before `lastPlayedGame` (by `installedDate`), yet it places
`lastPlayedGame` before `latestInstalled` (by `lastPlayed`). It is not a consistent
comparator for the three records, so the language leaves the order of the sorted result
to the engine. -/
theorem comparator_counterexample :
    compareGames latestInstalled neverPlayed < 0 ∧
    compareGames neverPlayed lastPlayedGame < 0 ∧
    ¬ compareGames latestInstalled lastPlayedGame < 0 ∧
    compareGames lastPlayedGame latestInstalled < 0 ∧
    ¬ ConsistentComparator compareGames [latestInstalled, neverPlayed, lastPlayedGame] := by
  refine ⟨by decide, by decide, by decide, by decide, fun h => ?_⟩
  have h1 := (h latestInstalled (by simp) neverPlayed (by simp) lastPlayedGame (by simp)).2.2.2.1
  exact absurd (h1 (by decide) (by decide)) (by decide)

/-- C29 (amended): on a collection of records that all have a `lastPlayed` or all lack
one, the comparator is a consistent ordering: if it places `a` before `b` and `b` before
`c` then it places `a` before `c`, it is a consistent comparator in the sense of the
language, and the sequence of sort keys of the sorted result is the same for every sort
that keeps what the language promises and for every input order; for all records,
swapping the arguments negates the result. -/
theorem comparator_consistency (games : List GameData)
    (hom : (∀ g ∈ games, g.lastPlayed ≠ none) ∨ (∀ g ∈ games, g.lastPlayed = none)) :
    (∀ a ∈ games, ∀ b ∈ games, ∀ c ∈ games,
      compareGames a b < 0 → compareGames b c < 0 → compareGames a c < 0) ∧
    (∀ a b : GameData, compareGames b a = - compareGames a b) ∧
    ConsistentComparator compareGames games ∧
    (∀ sort1 sort2 : (GameData → GameData → Int) → List GameData → List GameData,
      SortContract sort1 → SortContract sort2 →
      ∀ l : List GameData, l.Perm games →
        (sort1 compareGames l).map specKey = (sort2 compareGames games).map specKey) := by
  have hkey := compareGames_eq_keys games hom
  refine ⟨?_, ?_, compareGames_consistent games hom, ?_⟩
  · intro a ha b hb c hc hab hbc
    rw [hkey a ha b hb] at hab
    rw [hkey b hb c hc] at hbc
    rw [hkey a ha c hc]
    omega
  · intro a b
    unfold compareGames
    cases a.lastPlayed <;> cases b.lastPlayed <;> simp only [] <;> omega
  · intro sort1 sort2 h1 h2 l hl
    have homl : (∀ g ∈ l, g.lastPlayed ≠ none) ∨ (∀ g ∈ l, g.lastPlayed = none) := by
      rcases hom with h | h
      · exact Or.inl (fun g hg => h g (hl.mem_iff.mp hg))
      · exact Or.inr (fun g hg => h g (hl.mem_iff.mp hg))
    have hs1 : ((sort1 compareGames l).map specKey).Pairwise (fun p q => q ≤ p) := by
      rw [List.pairwise_map]
      exact sorted_keys sort1 h1 l homl
    have hs2 : ((sort2 compareGames games).map specKey).Pairwise (fun p q => q ≤ p) := by
      rw [List.pairwise_map]
      exact sorted_keys sort2 h2 games hom
    have hperm : ((sort1 compareGames l).map specKey).Perm
        ((sort2 compareGames games).map specKey) :=
      (((h1 compareGames l).1.trans hl).trans (h2 compareGames games).1.symm).map specKey
    exact List.eq_of_perm_of_sorted hperm hs1 hs2

/-- The three played titles of `allPlayedDB`, with three different keys: the comparator
places `playedGame` before `lastPlayedGame` and `lastPlayedGame` before
`latestInstalled`, hence `playedGame` before `latestInstalled`; and two sorts, run on two
orders of the three records, give the same sequence of keys. -/
theorem comparator_consistency_witness :
    compareGames playedGame lastPlayedGame < 0 ∧
    compareGames lastPlayedGame latestInstalled < 0 ∧
    compareGames playedGame latestInstalled < 0 ∧
    (arraySort compareGames [playedGame, latestInstalled, lastPlayedGame]).map specKey =
      (arraySortLeft compareGames [latestInstalled, lastPlayedGame, playedGame]).map
        specKey ∧
    (arraySortLeft compareGames [latestInstalled, lastPlayedGame, playedGame]).map
      specKey = [1700000900000, 5, 4] := by
  have h := comparator_consistency [latestInstalled, lastPlayedGame, playedGame]
    (Or.inl (by decide))
  refine ⟨by decide, by decide, ?_, ?_, by decide⟩
  · exact h.1 playedGame (by simp) lastPlayedGame (by simp) latestInstalled (by simp)
      (by decide) (by decide)
  · exact h.2.2.2 arraySort arraySortLeft arraySort_contract arraySortLeft_contract
      [playedGame, latestInstalled, lastPlayedGame]
      (List.perm_append_comm :
        ([playedGame] ++ [latestInstalled, lastPlayedGame]).Perm
          ([latestInstalled, lastPlayedGame] ++ [playedGame]))

end LocalGameManager

namespace VirtualGamepad

/-! ## Bits of a device byte -/

theorem toUint32_natCast (n : Nat) (h : n < 4294967296) : toUint32 (n : Int) = n := by
  unfold toUint32
  rw [Int.emod_eq_of_lt (Int.natCast_nonneg n) (by exact_mod_cast h)]
  exact Int.toNat_natCast n

theorem toInt32_small (n : Nat) (h : n < 2147483648) : toInt32 n = (n : Int) := by
  unfold toInt32
  rw [if_pos h]

theorem mask_eq (b : ButtonId) : (buttonMap b).mask = ((2 ^ bitIndex b : Nat) : Int) := by
  cases b <;> rfl

theorem bitIndex_lt (b : ButtonId) : bitIndex b < 8 := by
  cases b <;> decide

theorem buttonMap_injective (b c : ButtonId) (hbyte : (buttonMap b).byte = (buttonMap c).byte)
    (hbit : bitIndex b = bitIndex c) : b = c := by
  cases b <;> cases c <;> first | rfl | (exact absurd hbyte (by decide)) | (exact absurd hbit (by decide))

theorem two_pow_lt (k : Nat) (hk : k < 8) : 2 ^ k < 256 := by
  have : 2 ^ k < 2 ^ 8 := Nat.pow_lt_pow_right (by decide) hk
  simpa using this

theorem and_two_pow_eq_zero (n k : Nat) : n &&& 2 ^ k = 0 ↔ n.testBit k = false := by
  constructor
  · intro h
    have := Nat.testBit_and n (2 ^ k) k
    rw [h, Nat.zero_testBit, Nat.testBit_two_pow_self, Bool.and_true] at this
    exact this.symm
  · intro h
    apply Nat.eq_of_testBit_eq
    intro i
    rw [Nat.testBit_and, Nat.zero_testBit, Nat.testBit_two_pow]
    by_cases hki : k = i
    · rw [← hki, h]
      rfl
    · simp [hki]

theorem testBit_clear (n k j : Nat) (hj : j < 32) :
    (n &&& (4294967295 ^^^ 2 ^ k)).testBit j = (n.testBit j && !decide (k = j)) := by
  have h32 : (4294967295 : Nat) = 2 ^ 32 - 1 := by norm_num
  rw [Nat.testBit_and, Nat.testBit_xor, h32, Nat.testBit_two_pow_sub_one, Nat.testBit_two_pow]
  simp [hj]

theorem testBit_raise (n k j : Nat) :
    (n ||| 2 ^ k).testBit j = (n.testBit j || decide (k = j)) := by
  rw [Nat.testBit_or, Nat.testBit_two_pow]

theorem andNot_small (n k : Nat) (hn : n < 256) (hk : k < 8) :
    andNot (n : Int) ((2 ^ k : Nat) : Int) = ((n &&& (4294967295 ^^^ 2 ^ k) : Nat) : Int) ∧
      n &&& (4294967295 ^^^ 2 ^ k) < 256 := by
  have hle : n &&& (4294967295 ^^^ 2 ^ k) ≤ n := Nat.and_le_left
  have hk2 := two_pow_lt k hk
  refine ⟨?_, by omega⟩
  unfold andNot
  rw [toUint32_natCast n (by omega), toUint32_natCast (2 ^ k) (by omega),
    toInt32_small _ (by omega)]

theorem orMask_small (n k : Nat) (hn : n < 256) (hk : k < 8) :
    orMask (n : Int) ((2 ^ k : Nat) : Int) = ((n ||| 2 ^ k : Nat) : Int) ∧
      n ||| 2 ^ k < 256 := by
  have hk2 := two_pow_lt k hk
  have hlt : n ||| 2 ^ k < 2 ^ 8 := Nat.or_lt_two_pow (by simpa using hn) (by simpa using hk2)
  have hlt2 : n ||| 2 ^ k < 256 := by simpa using hlt
  refine ⟨?_, hlt2⟩
  unfold orMask
  rw [toUint32_natCast n (by omega), toUint32_natCast (2 ^ k) (by omega),
    toInt32_small _ (by omega)]

theorem get_set (dev : Device) (byte other : ByteName) (value : Int) :
    (dev.set byte value).get other = if other = byte then some value else dev.get other := by
  cases byte <;> cases other <;> rfl

theorem pressButton_small (handleGamePads : Device → Device)
    (hkeep : ∀ dev, handleGamePads dev = dev) (dev : Device) (byte : ByteName) (n k : Nat)
    (hget : dev.get byte = some (n : Int)) (hn : n < 256) (hk : k < 8) :
    pressButton handleGamePads dev (some byte) (some ((2 ^ k : Nat) : Int)) =
      dev.set byte ((n &&& (4294967295 ^^^ 2 ^ k) : Nat) : Int) := by
  unfold pressButton ensureInit
  simp only [Device.read, Device.write, hget, hkeep, Option.getD_some]
  rw [if_neg (by simp), hget, Option.getD_some, (andNot_small n k hn hk).1]

theorem releaseButton_small (handleGamePads : Device → Device)
    (hkeep : ∀ dev, handleGamePads dev = dev) (dev : Device) (byte : ByteName) (n k : Nat)
    (hget : dev.get byte = some (n : Int)) (hn : n < 256) (hk : k < 8) :
    releaseButton handleGamePads dev (some byte) (some ((2 ^ k : Nat) : Int)) =
      dev.set byte ((n ||| 2 ^ k : Nat) : Int) := by
  unfold releaseButton ensureInit
  simp only [Device.read, Device.write, hget, hkeep, Option.getD_some]
  rw [if_neg (by simp), hget, Option.getD_some, (orMask_small n k hn hk).1]

/-- A press with an `undefined` byte name writes the property named `undefined` and
leaves the three bytes as they are. -/
theorem pressButton_undefined (handleGamePads : Device → Device)
    (hkeep : ∀ dev, handleGamePads dev = dev) (dev : Device) (mask : Option Int)
    (byte : ByteName) :
    (pressButton handleGamePads dev none mask).get byte = dev.get byte := by
  unfold pressButton ensureInit
  simp only [Device.read, Device.write, hkeep]
  cases dev.undefinedKey <;> cases byte <;> rfl

theorem releaseButton_undefined (handleGamePads : Device → Device)
    (hkeep : ∀ dev, handleGamePads dev = dev) (dev : Device) (mask : Option Int)
    (byte : ByteName) :
    (releaseButton handleGamePads dev none mask).get byte = dev.get byte := by
  unfold releaseButton ensureInit
  simp only [Device.read, Device.write, hkeep]
  cases dev.undefinedKey <;> cases byte <;> rfl

theorem bitCleared_iff (dev : Device) (b : ButtonId) (n : Nat) (hn : n < 256)
    (hget : dev.get (buttonMap b).byte = some (n : Int)) :
    bitCleared dev b = true ↔ n.testBit (bitIndex b) = false := by
  unfold bitCleared
  rw [hget]
  simp only [decide_eq_true_eq]
  rw [mask_eq, toUint32_natCast n (by omega),
    toUint32_natCast _ (by have := two_pow_lt _ (bitIndex_lt b); omega), and_two_pow_eq_zero]

/-! ## The map of active pointers -/

theorem pointerGet_none (ap : List (Int × TargetId)) (p : Int) :
    pointerGet ap p = none ↔ p ∉ ap.map Prod.fst := by
  unfold pointerGet
  rw [Option.map_eq_none', List.find?_eq_none]
  simp only [decide_eq_true_eq, List.mem_map, not_exists, not_and, Prod.forall]

theorem pointerGet_some (ap : List (Int × TargetId)) (p : Int) (t : TargetId)
    (h : pointerGet ap p = some t) : (p, t) ∈ ap := by
  unfold pointerGet at h
  rw [Option.map_eq_some'] at h
  obtain ⟨entry, hfind, hb⟩ := h
  have hmem := List.mem_of_find?_eq_some hfind
  have hkey := List.find?_some hfind
  simp only [decide_eq_true_eq] at hkey
  rw [← hkey, ← hb]
  exact hmem

theorem mem_pointerDelete (ap : List (Int × TargetId)) (p q : Int) (t : TargetId) :
    (q, t) ∈ pointerDelete ap p ↔ (q, t) ∈ ap ∧ q ≠ p := by
  unfold pointerDelete
  rw [List.mem_filter]
  simp

theorem nodup_pointerDelete (ap : List (Int × TargetId)) (p : Int)
    (h : (ap.map Prod.fst).Nodup) : ((pointerDelete ap p).map Prod.fst).Nodup := by
  unfold pointerDelete
  exact List.Nodup.sublist (List.Sublist.map _ (List.filter_sublist ap)) h

theorem value_unique (ap : List (Int × TargetId)) (h : (ap.map Prod.fst).Nodup)
    (p : Int) (b c : TargetId) (hb : (p, b) ∈ ap) (hc : (p, c) ∈ ap) : b = c := by
  induction ap with
  | nil => cases hb
  | cons entry rest ih =>
    rw [List.map_cons, List.nodup_cons] at h
    rcases List.mem_cons.mp hb with hb | hb
    · rcases List.mem_cons.mp hc with hc | hc
      · have := hb.trans hc.symm
        exact (Prod.mk.inj this).2
      · exfalso
        apply h.1
        rw [← hb]
        exact List.mem_map.mpr ⟨(p, c), hc, rfl⟩
    · rcases List.mem_cons.mp hc with hc | hc
      · exfalso
        apply h.1
        rw [← hc]
        exact List.mem_map.mpr ⟨(p, b), hb, rfl⟩
      · exact ih h.2 hb hc

theorem isButtonPressed_iff (ap : List (Int × TargetId)) (t : TargetId) :
    isButtonPressed ap t = true ↔ ∃ p : Int, (p, t) ∈ ap := by
  unfold isButtonPressed
  rw [List.any_eq_true]
  constructor
  · rintro ⟨⟨p, c⟩, hmem, hc⟩
    simp only [decide_eq_true_eq] at hc
    exact ⟨p, hc ▸ hmem⟩
  · rintro ⟨p, hmem⟩
    exact ⟨(p, t), hmem, by simp⟩

theorem exists_append (ap : List (Int × TargetId)) (p : Int) (t c : TargetId) (hne : c ≠ t) :
    (∃ q : Int, (q, c) ∈ ap ++ [(p, t)]) ↔ ∃ q : Int, (q, c) ∈ ap := by
  constructor
  · rintro ⟨q, hq⟩
    rcases List.mem_append.mp hq with hq | hq
    · exact ⟨q, hq⟩
    · exact absurd (Prod.mk.inj (List.mem_singleton.mp hq)).2 hne
  · rintro ⟨q, hq⟩
    exact ⟨q, List.mem_append_left _ hq⟩

theorem exists_delete (ap : List (Int × TargetId)) (hnodup : (ap.map Prod.fst).Nodup)
    (p : Int) (t c : TargetId) (hpt : (p, t) ∈ ap) (hne : c ≠ t) :
    (∃ q : Int, (q, c) ∈ pointerDelete ap p) ↔ ∃ q : Int, (q, c) ∈ ap := by
  constructor
  · rintro ⟨q, hq⟩
    exact ⟨q, ((mem_pointerDelete ap p q c).mp hq).1⟩
  · rintro ⟨q, hq⟩
    refine ⟨q, (mem_pointerDelete ap p q c).mpr ⟨hq, fun hqp => ?_⟩⟩
    rw [hqp] at hq
    exact hne (value_unique ap hnodup p c t hq hpt)

/-! ## The two pointer handlers in closed form -/

theorem handlePointerDown_new (handleGamePads : Device → Device) (pad : Pad) (dev : Device)
    (t : TargetId) (p : Int) (hdev : pad.device = some dev)
    (hnone : pointerGet pad.activePointers p = none) :
    handlePointerDown handleGamePads pad (some t) (some p) =
      { device := some (if isButtonPressed pad.activePointers t = true then dev
          else pressButton handleGamePads dev (entryByte t) (entryMask t)),
        activePointers := pad.activePointers ++ [(p, t)] } := by
  unfold handlePointerDown pointerSet
  simp only [hdev, hnone, Option.isSome_none, Bool.false_eq_true, if_false]
  by_cases hp : isButtonPressed pad.activePointers t = true
  · simp [hp]
  · simp [hp]

theorem handlePointerRelease_tracked (handleGamePads : Device → Device) (pad : Pad)
    (dev : Device) (t : TargetId) (p : Int) (hdev : pad.device = some dev)
    (hsome : pointerGet pad.activePointers p = some t) :
    handlePointerRelease handleGamePads pad (some p) =
      { device := some (if isButtonPressed (pointerDelete pad.activePointers p) t = true then dev
          else releaseButton handleGamePads dev (entryByte t) (entryMask t)),
        activePointers := pointerDelete pad.activePointers p } := by
  unfold handlePointerRelease
  simp only [hsome, hdev]
  by_cases hp : isButtonPressed (pointerDelete pad.activePointers p) t = true
  · simp [hp, hdev]
  · simp [hp]

/-! ## The invariant of the pointer handlers -/

theorem invariant_initial : PadInvariant initialPad := by
  refine ⟨releasedDevice, rfl, List.nodup_nil, fun b => ⟨255, by decide, ?_, ?_⟩⟩
  · cases b <;> rfl
  · constructor
    · intro h
      have hk := bitIndex_lt b
      have : Nat.testBit 255 (bitIndex b) = true := by
        generalize bitIndex b = k at hk
        interval_cases k <;> rfl
      rw [this] at h
      cases h
    · rintro ⟨p, hp⟩
      cases hp

theorem invariant_down (handleGamePads : Device → Device)
    (hkeep : ∀ dev, handleGamePads dev = dev) (pad : Pad) (hinv : PadInvariant pad)
    (buttonId : Option TargetId) (pointerId : Option Int) :
    PadInvariant (handlePointerDown handleGamePads pad buttonId pointerId) := by
  obtain ⟨dev, hdev, hnodup, hbits⟩ := hinv
  have hsame : PadInvariant pad := ⟨dev, hdev, hnodup, hbits⟩
  cases buttonId with
  | none => exact hsame
  | some t =>
    cases pointerId with
    | none =>
      unfold handlePointerDown
      simp only [hdev]
      exact hsame
    | some p =>
      cases hget : pointerGet pad.activePointers p with
      | some c =>
        unfold handlePointerDown
        simp only [hdev, hget, Option.isSome_some, if_true]
        exact hsame
      | none =>
        rw [handlePointerDown_new handleGamePads pad dev t p hdev hget]
        have hfresh := (pointerGet_none _ _).mp hget
        have hnodup1 : ((pad.activePointers ++ [(p, t)]).map Prod.fst).Nodup := by
          rw [List.map_append, List.nodup_append]
          refine ⟨hnodup, by simp, ?_⟩
          intro q hq hq1
          simp only [List.map_cons, List.map_nil, List.mem_singleton] at hq1
          rw [hq1] at hq
          exact hfresh hq
        by_cases hp : isButtonPressed pad.activePointers t = true
        · rw [if_pos hp]
          refine ⟨dev, rfl, hnodup1, fun c => ?_⟩
          obtain ⟨n, hn, hgetc, hiff⟩ := hbits c
          refine ⟨n, hn, hgetc, ?_⟩
          rw [hiff]
          by_cases hct : TargetId.button c = t
          · rw [hct]
            constructor
            · rintro ⟨q, hq⟩
              exact ⟨q, List.mem_append_left _ hq⟩
            · intro _
              exact (isButtonPressed_iff _ _).mp hp
          · exact (exists_append _ p t _ hct).symm
        · rw [if_neg hp]
          cases t with
          | inherited key =>
            refine ⟨_, rfl, hnodup1, fun c => ?_⟩
            obtain ⟨n, hn, hgetc, hiff⟩ := hbits c
            refine ⟨n, hn, ?_, ?_⟩
            · simp only [entryByte]
              rw [pressButton_undefined handleGamePads hkeep]
              exact hgetc
            · rw [exists_append _ p _ _ (by simp)]
              exact hiff
          | button b =>
            obtain ⟨nb, hnb, hgetb, hiffb⟩ := hbits b
            simp only [entryByte, entryMask]
            rw [mask_eq,
              pressButton_small handleGamePads hkeep dev _ nb _ hgetb hnb (bitIndex_lt b)]
            refine ⟨_, rfl, hnodup1, fun c => ?_⟩
            obtain ⟨n, hn, hgetc, hiff⟩ := hbits c
            by_cases hbyte : (buttonMap c).byte = (buttonMap b).byte
            · have hnn : n = nb := by
                rw [hbyte, hgetb] at hgetc
                exact_mod_cast (Option.some.inj hgetc).symm
              refine ⟨nb &&& (4294967295 ^^^ 2 ^ bitIndex b),
                (andNot_small nb _ hnb (bitIndex_lt b)).2, ?_, ?_⟩
              · rw [get_set, if_pos hbyte]
              · rw [testBit_clear nb _ _ (by have := bitIndex_lt c; omega)]
                by_cases hcb : c = b
                · rw [hcb]
                  simp only [decide_True, Bool.not_true, Bool.and_false, true_iff]
                  exact ⟨p, List.mem_append_right _ (List.mem_singleton_self _)⟩
                · have hk : bitIndex b ≠ bitIndex c := fun e =>
                    hcb (buttonMap_injective c b hbyte e.symm)
                  simp only [hk, decide_False, Bool.not_false, Bool.and_true]
                  rw [exists_append _ p _ _ (fun e => hcb (TargetId.button.inj e)), ← hnn]
                  exact hiff
            · refine ⟨n, hn, ?_, ?_⟩
              · rw [get_set, if_neg hbyte]
                exact hgetc
              · have hcb : c ≠ b := fun e => hbyte (by rw [e])
                rw [exists_append _ p _ _ (fun e => hcb (TargetId.button.inj e))]
                exact hiff

theorem invariant_release (handleGamePads : Device → Device)
    (hkeep : ∀ dev, handleGamePads dev = dev) (pad : Pad) (hinv : PadInvariant pad)
    (pointerId : Option Int) :
    PadInvariant (handlePointerRelease handleGamePads pad pointerId) := by
  obtain ⟨dev, hdev, hnodup, hbits⟩ := hinv
  have hsame : PadInvariant pad := ⟨dev, hdev, hnodup, hbits⟩
  cases pointerId with
  | none => exact hsame
  | some p =>
    cases hget : pointerGet pad.activePointers p with
    | none =>
      unfold handlePointerRelease
      simp only [hget]
      exact hsame
    | some t =>
      rw [handlePointerRelease_tracked handleGamePads pad dev t p hdev hget]
      have hpt := pointerGet_some _ _ _ hget
      have hnodup1 := nodup_pointerDelete pad.activePointers p hnodup
      by_cases hp : isButtonPressed (pointerDelete pad.activePointers p) t = true
      · rw [if_pos hp]
        refine ⟨dev, rfl, hnodup1, fun c => ?_⟩
        obtain ⟨n, hn, hgetc, hiff⟩ := hbits c
        refine ⟨n, hn, hgetc, ?_⟩
        rw [hiff]
        by_cases hct : TargetId.button c = t
        · rw [hct]
          constructor
          · intro _
            exact (isButtonPressed_iff _ _).mp hp
          · intro _
            exact ⟨p, hpt⟩
        · exact (exists_delete _ hnodup p t _ hpt hct).symm
      · rw [if_neg hp]
        cases t with
        | inherited key =>
          refine ⟨_, rfl, hnodup1, fun c => ?_⟩
          obtain ⟨n, hn, hgetc, hiff⟩ := hbits c
          refine ⟨n, hn, ?_, ?_⟩
          · simp only [entryByte]
            rw [releaseButton_undefined handleGamePads hkeep]
            exact hgetc
          · rw [exists_delete _ hnodup p _ _ hpt (by simp)]
            exact hiff
        | button b =>
          obtain ⟨nb, hnb, hgetb, hiffb⟩ := hbits b
          simp only [entryByte, entryMask]
          rw [mask_eq,
            releaseButton_small handleGamePads hkeep dev _ nb _ hgetb hnb (bitIndex_lt b)]
          refine ⟨_, rfl, hnodup1, fun c => ?_⟩
          obtain ⟨n, hn, hgetc, hiff⟩ := hbits c
          by_cases hbyte : (buttonMap c).byte = (buttonMap b).byte
          · have hnn : n = nb := by
              rw [hbyte, hgetb] at hgetc
              exact_mod_cast (Option.some.inj hgetc).symm
            refine ⟨nb ||| 2 ^ bitIndex b, (orMask_small nb _ hnb (bitIndex_lt b)).2, ?_, ?_⟩
            · rw [get_set, if_pos hbyte]
            · rw [testBit_raise]
              by_cases hcb : c = b
              · rw [hcb]
                simp only [decide_True, Bool.or_true, Bool.true_eq_false, false_iff]
                intro hex
                exact hp ((isButtonPressed_iff _ _).mpr hex)
              · have hk : bitIndex b ≠ bitIndex c := fun e =>
                  hcb (buttonMap_injective c b hbyte e.symm)
                simp only [hk, decide_False, Bool.or_false]
                rw [exists_delete _ hnodup p _ _ hpt (fun e => hcb (TargetId.button.inj e)),
                  ← hnn]
                exact hiff
          · refine ⟨n, hn, ?_, ?_⟩
            · rw [get_set, if_neg hbyte]
              exact hgetc
            · have hcb : c ≠ b := fun e => hbyte (by rw [e])
              rw [exists_delete _ hnodup p _ _ hpt (fun e => hcb (TargetId.button.inj e))]
              exact hiff

theorem invariant_step (handleGamePads : Device → Device)
    (hkeep : ∀ dev, handleGamePads dev = dev) (pad : Pad) (hinv : PadInvariant pad)
    (ev : PointerEvent) : PadInvariant (handlePointerEvent handleGamePads pad ev) := by
  cases ev with
  | down b p => exact invariant_down handleGamePads hkeep pad hinv b p
  | release p => exact invariant_release handleGamePads hkeep pad hinv p

theorem invariant_run (handleGamePads : Device → Device)
    (hkeep : ∀ dev, handleGamePads dev = dev) (events : List PointerEvent) :
    ∀ pad : Pad, PadInvariant pad →
      PadInvariant (runPointerEvents handleGamePads pad events) := by
  induction events with
  | nil => intro pad h; exact h
  | cons ev rest ih =>
    intro pad h
    unfold runPointerEvents
    rw [List.foldl_cons]
    exact ih _ (invariant_step handleGamePads hkeep pad h ev)

theorem invariant_bits (pad : Pad) (hinv : PadInvariant pad) :
    ∃ dev : Device, pad.device = some dev ∧
      ∀ buttonId : ButtonId, bitCleared dev buttonId = true ↔
        ∃ pointerId : Int, (pointerId, TargetId.button buttonId) ∈ pad.activePointers := by
  obtain ⟨dev, hdev, _, hbits⟩ := hinv
  refine ⟨dev, hdev, fun b => ?_⟩
  obtain ⟨n, hn, hget, hiff⟩ := hbits b
  rw [bitCleared_iff dev b n hn hget]
  exact hiff

/-! ## The pointers that the pad tracks -/

theorem any_key_iff (ap : List (Int × TargetId)) (p : Int) :
    ap.any (fun entry => decide (entry.1 = p)) = (pointerGet ap p).isSome := by
  unfold pointerGet
  induction ap with
  | nil => rfl
  | cons e rest ih =>
    rw [List.any_cons, List.find?_cons]
    by_cases h : e.1 = p
    · simp [h]
    · simp only [h, decide_False, Bool.false_or]
      exact ih

theorem tracked_step (handleGamePads : Device → Device) (pad : Pad) (hinv : PadInvariant pad)
    (ev : PointerEvent) :
    (handlePointerEvent handleGamePads pad ev).activePointers =
      trackStep pad.activePointers ev := by
  obtain ⟨dev, hdev, _, _⟩ := hinv
  cases ev with
  | down buttonId pointerId =>
    cases buttonId with
    | none => rfl
    | some t =>
      cases pointerId with
      | none =>
        show (handlePointerDown handleGamePads pad (some t) none).activePointers =
          pad.activePointers
        unfold handlePointerDown
        simp only [hdev]
      | some p =>
        show (handlePointerDown handleGamePads pad (some t) (some p)).activePointers =
          if pad.activePointers.any (fun entry => decide (entry.1 = p)) = true
          then pad.activePointers else pad.activePointers ++ [(p, t)]
        rw [any_key_iff]
        cases hget : pointerGet pad.activePointers p with
        | some c =>
          unfold handlePointerDown
          simp only [hdev, hget, Option.isSome_some, if_true]
        | none =>
          rw [handlePointerDown_new handleGamePads pad dev t p hdev hget]
          simp
  | release pointerId =>
    cases pointerId with
    | none => rfl
    | some p =>
      show (handlePointerRelease handleGamePads pad (some p)).activePointers =
        pad.activePointers.filter (fun entry => !decide (entry.1 = p))
      cases hget : pointerGet pad.activePointers p with
      | none =>
        unfold handlePointerRelease
        simp only [hget]
        symm
        rw [List.filter_eq_self]
        intro entry hentry
        have hnot := (pointerGet_none _ _).mp hget
        simp only [Bool.not_eq_true', decide_eq_false_iff_not]
        intro e
        exact hnot (List.mem_map.mpr ⟨entry, hentry, e⟩)
      | some t =>
        rw [handlePointerRelease_tracked handleGamePads pad dev t p hdev hget]
        rfl

theorem tracked_run (handleGamePads : Device → Device)
    (hkeep : ∀ dev, handleGamePads dev = dev) (events : List PointerEvent) :
    ∀ pad : Pad, PadInvariant pad →
      (runPointerEvents handleGamePads pad events).activePointers =
        events.foldl trackStep pad.activePointers := by
  induction events with
  | nil => intro pad _; rfl
  | cons ev rest ih =>
    intro pad h
    unfold runPointerEvents
    rw [List.foldl_cons, List.foldl_cons, ← tracked_step handleGamePads pad h ev]
    exact ih _ (invariant_step handleGamePads hkeep pad h ev)

/-! ## C30: the multi-touch invariant -/

/-- C30: the multi-touch invariant. Start from `initialPad` (device present, all three
bytes `0xff`, no active pointer), with the default button map and a `handleGamePads` that
leaves the device as it is. After any sequence of pointer-down and pointer-release
events: the pointers that the pad tracks are the active pointers of the events, each
with the target it went down on (`trackedPointers`, read off the events alone); the
device is present and, for every button, its bit is cleared exactly when some active
pointer is associated with it; a further pointer-down of a pointer that is not active
on a button clears the bit of the button and associates the pointer with it; when two
different pointers are associated with the same button, releasing one of them leaves the
bit cleared and the other one active; and releasing the only pointer associated with a
button sets its bit again. -/
theorem multi_touch_invariant (handleGamePads : Device → Device)
    (hkeep : ∀ dev, handleGamePads dev = dev) (events : List PointerEvent) :
    (runPointerEvents handleGamePads initialPad events).activePointers =
      trackedPointers events ∧
    ∃ dev : Device,
      (runPointerEvents handleGamePads initialPad events).device = some dev ∧
      (∀ buttonId : ButtonId, bitCleared dev buttonId = true ↔
        ∃ pointerId : Int,
          (pointerId, TargetId.button buttonId) ∈ trackedPointers events) ∧
      (∀ (p : Int) (buttonId : ButtonId),
        (∀ target : TargetId, (p, target) ∉ trackedPointers events) →
        ∃ dev1 : Device,
          (handlePointerDown handleGamePads
            (runPointerEvents handleGamePads initialPad events)
            (some (.button buttonId)) (some p)).device = some dev1 ∧
          bitCleared dev1 buttonId = true ∧
          (p, TargetId.button buttonId) ∈ (handlePointerDown handleGamePads
            (runPointerEvents handleGamePads initialPad events)
            (some (.button buttonId)) (some p)).activePointers) ∧
      (∀ (p q : Int) (buttonId : ButtonId), p ≠ q →
        (p, TargetId.button buttonId) ∈ trackedPointers events →
        (q, TargetId.button buttonId) ∈ trackedPointers events →
        ∃ dev1 : Device,
          (handlePointerRelease handleGamePads
            (runPointerEvents handleGamePads initialPad events) (some p)).device = some dev1 ∧
          bitCleared dev1 buttonId = true ∧
          (q, TargetId.button buttonId) ∈ (handlePointerRelease handleGamePads
            (runPointerEvents handleGamePads initialPad events) (some p)).activePointers) ∧
      (∀ (p : Int) (buttonId : ButtonId),
        (p, TargetId.button buttonId) ∈ trackedPointers events →
        (∀ q : Int, q ≠ p → (q, TargetId.button buttonId) ∉ trackedPointers events) →
        ∃ dev1 : Device,
          (handlePointerRelease handleGamePads
            (runPointerEvents handleGamePads initialPad events) (some p)).device = some dev1 ∧
          bitCleared dev1 buttonId = false) := by
  have hinv := invariant_run handleGamePads hkeep events initialPad invariant_initial
  have htr : (runPointerEvents handleGamePads initialPad events).activePointers =
      trackedPointers events :=
    tracked_run handleGamePads hkeep events initialPad invariant_initial
  obtain ⟨dev, hdev, hbits⟩ := invariant_bits _ hinv
  rw [htr] at hbits
  have hrel : ∀ p : Int,
      (handlePointerRelease handleGamePads
        (runPointerEvents handleGamePads initialPad events) (some p)).activePointers =
        pointerDelete (trackedPointers events) p := by
    intro p
    have h := tracked_step handleGamePads _ hinv (.release (some p))
    rw [htr] at h
    exact h
  refine ⟨htr, dev, hdev, hbits, ?_, ?_, ?_⟩
  · intro p b hfresh
    have hinv1 := invariant_down handleGamePads hkeep _ hinv (some (.button b)) (some p)
    obtain ⟨dev1, hdev1, hbits1⟩ := invariant_bits _ hinv1
    have h := tracked_step handleGamePads _ hinv (.down (some (.button b)) (some p))
    rw [htr] at h
    have hany : (trackedPointers events).any (fun entry => decide (entry.1 = p)) = false := by
      rw [List.any_eq_false]
      intro entry hentry
      simp only [decide_eq_true_eq]
      intro e
      exact hfresh entry.2 (by rw [← e]; exact hentry)
    have hap : (handlePointerDown handleGamePads
        (runPointerEvents handleGamePads initialPad events)
        (some (.button b)) (some p)).activePointers =
        trackedPointers events ++ [(p, .button b)] := by
      rw [show (handlePointerDown handleGamePads
        (runPointerEvents handleGamePads initialPad events)
        (some (.button b)) (some p)).activePointers = _ from h]
      show (if (trackedPointers events).any (fun entry => decide (entry.1 = p)) = true
        then trackedPointers events else trackedPointers events ++ [(p, .button b)]) = _
      rw [hany]
      rfl
    have hmem : (p, TargetId.button b) ∈ (handlePointerDown handleGamePads
        (runPointerEvents handleGamePads initialPad events)
        (some (.button b)) (some p)).activePointers := by
      rw [hap]
      exact List.mem_append_right _ (List.mem_singleton_self _)
    exact ⟨dev1, hdev1, (hbits1 b).mpr ⟨p, hmem⟩, hmem⟩
  · intro p q b hpq _ hq
    have hinv1 := invariant_release handleGamePads hkeep _ hinv (some p)
    obtain ⟨dev1, hdev1, hbits1⟩ := invariant_bits _ hinv1
    have hq1 : (q, TargetId.button b) ∈ (handlePointerRelease handleGamePads
        (runPointerEvents handleGamePads initialPad events) (some p)).activePointers := by
      rw [hrel p]
      exact (mem_pointerDelete _ p q _).mpr ⟨hq, fun e => hpq e.symm⟩
    exact ⟨dev1, hdev1, (hbits1 b).mpr ⟨q, hq1⟩, hq1⟩
  · intro p b _ honly
    have hinv1 := invariant_release handleGamePads hkeep _ hinv (some p)
    obtain ⟨dev1, hdev1, hbits1⟩ := invariant_bits _ hinv1
    refine ⟨dev1, hdev1, ?_⟩
    cases hc : bitCleared dev1 b with
    | false => rfl
    | true =>
      obtain ⟨q, hq⟩ := (hbits1 b).mp hc
      rw [hrel p] at hq
      obtain ⟨hq1, hq2⟩ := (mem_pointerDelete _ p q _).mp hq
      exact absurd hq1 (honly q hq2)

/-- The events `twoOnCross` and `twoFingers` with a `handleGamePads` that does nothing:
after `twoOnCross` the pointers 1 and 2 are on `cross`, whose bit is cleared, and no
pointer is on `circle`, whose bit is set; lifting pointer 1 leaves `cross` pressed with
pointer 2 on it; a new pointer 3 on `up` presses `up`; after `twoFingers` pointer 2 is
the only one on `cross`, and lifting it releases `cross`. -/
theorem multi_touch_invariant_witness :
    (runPointerEvents (fun d => d) initialPad twoOnCross).activePointers =
      [(7, .inherited "constructor"), (1, .button .cross), (2, .button .cross)] ∧
    (∃ dev : Device,
      (runPointerEvents (fun d => d) initialPad twoOnCross).device = some dev ∧
      bitCleared dev .cross = true ∧ bitCleared dev .circle = false) ∧
    (∃ dev1 : Device,
      (handlePointerRelease (fun d => d)
        (runPointerEvents (fun d => d) initialPad twoOnCross) (some 1)).device = some dev1 ∧
      bitCleared dev1 .cross = true ∧
      (2, TargetId.button .cross) ∈ (handlePointerRelease (fun d => d)
        (runPointerEvents (fun d => d) initialPad twoOnCross) (some 1)).activePointers) ∧
    (∃ dev1 : Device,
      (handlePointerDown (fun d => d)
        (runPointerEvents (fun d => d) initialPad twoOnCross)
        (some (.button .up)) (some 3)).device = some dev1 ∧
      bitCleared dev1 .up = true ∧
      (3, TargetId.button .up) ∈ (handlePointerDown (fun d => d)
        (runPointerEvents (fun d => d) initialPad twoOnCross)
        (some (.button .up)) (some 3)).activePointers) ∧
    (∃ dev1 : Device,
      (handlePointerRelease (fun d => d)
        (runPointerEvents (fun d => d) initialPad twoFingers) (some 2)).device = some dev1 ∧
      bitCleared dev1 .cross = false) := by
  obtain ⟨htr, dev, hdev, hbits, hdown, htwo, _⟩ :=
    multi_touch_invariant (fun d => d) (fun _ => rfl) twoOnCross
  obtain ⟨_, _, _, _, _, _, hlast⟩ :=
    multi_touch_invariant (fun d => d) (fun _ => rfl) twoFingers
  have hT : trackedPointers twoOnCross =
      [(7, .inherited "constructor"), (1, .button .cross), (2, .button .cross)] := by decide
  have hF : trackedPointers twoFingers = [(2, .button .cross)] := by decide
  refine ⟨htr.trans hT, ⟨dev, hdev, ?_, ?_⟩, ?_, ?_, ?_⟩
  · exact (hbits .cross).mpr ⟨1, by rw [hT]; decide⟩
  · cases hc : bitCleared dev .circle with
    | false => rfl
    | true =>
      obtain ⟨q, hq⟩ := (hbits .circle).mp hc
      rw [hT] at hq
      simp at hq
  · exact htwo 1 2 .cross (by decide) (by rw [hT]; decide) (by rw [hT]; decide)
  · exact hdown 3 .up (fun t ht => by
      rw [hT] at ht
      simp at ht)
  · exact hlast 2 .cross (by rw [hF]; decide) (fun q hq hmem => by
      rw [hF] at hmem
      simp at hmem
      exact hq hmem)

/-- The run of `twoFingers`, step by step: `cross` (bit `0x40` of `hi`) stays pressed
while the second finger is down and is released when it is lifted. -/
theorem twoFingers_example :
    runPointerEvents (fun d => d) initialPad twoFingers =
      { device := some { lo := some 0xff, hi := some 0xbf, aux := some 0xff },
        activePointers := [(2, .button .cross)] } ∧
    handlePointerRelease (fun d => d) (runPointerEvents (fun d => d) initialPad twoFingers)
        (some 2) = initialPad := by
  decide

/-- A pointer that went down on an element whose id is `constructor` is tracked under
that id, the device gets the property named `undefined`, and the same pointer going down
on `cross` is ignored: no bit is cleared and no pointer is associated with `cross`. -/
theorem inheritedThenCross_example :
    runPointerEvents (fun d => d) initialPad inheritedThenCross =
      { device := some { lo := some 0xff, hi := some 0xff, aux := some 0xff,
                         undefinedKey := some 0xff },
        activePointers := [(1, .inherited "constructor")] } ∧
    trackedPointers inheritedThenCross = [(1, .inherited "constructor")] := by
  decide

/-! ## C28: `reset` -/

/-- C28 as stated fails: on a device whose `aux` was never written, `reset` sets `lo` and
`hi` to `0xff` and leaves `aux` undefined. -/
theorem reset_counterexample :
    reset (fun d => d) { device := some deviceWithoutAux, activePointers := [] } =
      { device := some { lo := some 0xff, hi := some 0xff, aux := none },
        activePointers := [] } ∧
    deviceWithoutAux.aux = none := by
  decide

/-- C28 (amended): for every state of a present device and a `handleGamePads` that leaves
the device as it is, after `reset()` each of the bytes `lo`, `hi` and `aux` that was
initialised is `0xff` and each that was `undefined` is still `undefined`; no button bit is
cleared; and the map of active pointers is as before. -/
theorem reset_initialised_bytes (handleGamePads : Device → Device)
    (hkeep : ∀ dev, handleGamePads dev = dev) (pad : Pad) (dev : Device)
    (hdev : pad.device = some dev) :
    ∃ dev1 : Device,
      (reset handleGamePads pad).device = some dev1 ∧
      (∀ byte : ByteName,
        dev1.get byte = if dev.get byte = none then none else some 0xff) ∧
      (∀ buttonId : ButtonId, bitCleared dev1 buttonId = false) ∧
      (reset handleGamePads pad).activePointers = pad.activePointers := by
  have hbytes : ∀ byte : ByteName,
      (Device.mk (if dev.lo = none then none else some 0xff)
        (if dev.hi = none then none else some 0xff)
        (if dev.aux = none then none else some 0xff) dev.undefinedKey).get byte =
        if dev.get byte = none then none else some 0xff := by
    intro byte
    cases byte <;> rfl
  have hreset : reset handleGamePads pad =
      { pad with device := some (Device.mk (if dev.lo = none then none else some 0xff)
        (if dev.hi = none then none else some 0xff)
        (if dev.aux = none then none else some 0xff) dev.undefinedKey) } := by
    unfold reset
    simp only [hdev, hkeep]
    cases dev with
    | mk lo hi aux other => cases lo <;> cases hi <;> cases aux <;> rfl
  rw [hreset]
  refine ⟨_, rfl, hbytes, fun b => ?_, rfl⟩
  unfold bitCleared
  rw [hbytes]
  cases hg : dev.get (buttonMap b).byte with
  | none => simp
  | some v =>
    simp only [reduceCtorEq, if_false]
    rw [mask_eq]
    have hk := bitIndex_lt b
    generalize bitIndex b = k at hk
    interval_cases k <;> decide

/-- The device `deviceWithoutAux`, on which `up` is pressed and `aux` is undefined. -/
theorem reset_initialised_bytes_witness :
    ∃ dev1 : Device,
      (reset (fun d => d) { device := some deviceWithoutAux, activePointers := [] }).device =
        some dev1 ∧
      (∀ byte : ByteName,
        dev1.get byte = if deviceWithoutAux.get byte = none then none else some 0xff) ∧
      (∀ buttonId : ButtonId, bitCleared dev1 buttonId = false) ∧
      (reset (fun d => d) { device := some deviceWithoutAux, activePointers := [] }).activePointers =
        [] :=
  reset_initialised_bytes (fun d => d) (fun _ => rfl)
    { device := some deviceWithoutAux, activePointers := [] } deviceWithoutAux rfl

end VirtualGamepad
